import Mathlib

/-!
# CONVERT.C : telescope coordinate conversion (Mel Bartels, 1990)

A shallow embedding of the alignment-and-transform engine of `src/CONVERT.C`
and a verification of its specification.

Conventions of the embedding.

* The C type `double` is read as an exact ordered field `K` (real
  arithmetic).  The time system needs no transcendental function, so it runs
  over `ℚ`; the transform code is used at `K = ℝ`.
* Where a statement turns on the rounding of `double` arithmetic, the function
  is embedded a second time, under its name followed by `_double`, over the
  doubles: the rationals with a 53-bit significand.  The result of each
  `+ - * /` is rounded by `fl` (IEEE 754 binary64, round to nearest, ties to
  even, exponent range not bounded), `pow(x, 2)` is the rounded square, and
  the other library functions stay a record `Libm`.
* The C library functions `sin cos tan atan sqrt` are passed as a record
  `Libm K`; `realLibm` is the record of the real functions.
* The global `RADIAN` (`double RADIAN = 180/PI`, read at run time by the
  transform code) is passed to each function that reads it as the argument
  `rad`.  `RADIAN` below is the value the source gives it.
* `(int)` and `(long)` conversions truncate toward zero (`truncate`); integer
  `/` and `%` are `Int.tdiv` and `Int.tmod`.  The integers of the date
  arithmetic stay far below the 32-bit range for every accepted date, so they
  are unbounded integers here.
* The global arrays `Q V R X Y` (each `double [4][4]`) are the state
  `Arrays K`; a function that writes them maps a state to a state.
* A `while` loop runs on explicit fuel, the fuel being the number of
  iterations the loop needs from its start value; the theorems about a loop
  show that its exit condition holds on the value returned.
* Division is the total division of the field.  The source divides by
  `RADIAN`, by the guarded values `A` and `E` of `init_arrays`, and inside
  `angle_subr` by `C` and `Y[1][1]` under the tests `C != 0`, `Y[1][1] > 0`,
  `Y[1][1] < 0`; with `rad` nonzero no division by zero is reached.
* Uninitialised locals (`F`, `H` in `calc_scope`) are arguments of the
  function, so every statement holds for whatever value they hold.
* What the program reads from outside is an argument: the entries typed at a
  prompt (`get_scope`), the values the input functions leave in `main`'s
  variables during one pass of the menu loop (`Operator`), the system clock
  of one pass of a real-time loop (`Sample`).  What `display_coord` prints is
  the tuple of numbers it hands to `cprintf`.
* Two records are added to the state where a statement is about the run and
  not about a value: the calls made by the menu loop (`Session.calls`) and the
  divisors of the divisions of `init_arrays` (`init_arrays_traced`).  The code
  embedded never reads them, and `init_arrays_traced` is proved to compute
  the arrays of `init_arrays`.
-/

set_option linter.unusedSectionVars false
set_option linter.unusedVariables false

namespace Convert

/-! ## Constants and data model (source lines 72-122) -/

section Model

variable {K : Type} [LinearOrderedField K] [FloorRing K]

/-- Source constant `PI` (line 73). -/
def PI : K := 3.14159265358979

/-- Source constant `NEXT_TO_NOTHING` (line 74), the value 1e-38. -/
def NEXT_TO_NOTHING : K := 1 / 10 ^ 38

/-- Source global `RADIAN = 180/PI` (line 75). -/
def RADIAN : K := 180 / PI

/-- Source global `BASE_YEAR` (line 76). -/
def BASE_YEAR : K := 2000

/-- Source constant `MONTHS` (line 78). -/
def MONTHS : ℤ := 12

/-- Source table `DAYS` (line 80). -/
def DAYS : List ℤ := [31, 28, 31, 30, 31, 30, 31, 31, 30, 31, 30, 31]

/-- Read of `DAYS[i]`.  The source only reads indices 0..11; an index outside
the table (undefined in C) reads 0 here. -/
def DAYS_at (i : ℤ) : ℤ := if i < 0 then 0 else DAYS.getD i.toNat 0

/-- Source constants `INIT1`, `INIT2` (lines 58-59). -/
def INIT1 : Fin 4 := 1

/-- Source constant `INIT2` (line 59). -/
def INIT2 : Fin 4 := 2

/-- The C conversion of a `double` to `int` or `long`: truncation toward
zero. -/
def truncate (x : K) : ℤ := if 0 ≤ x then ⌊x⌋ else ⌈x⌉

/-- Source `struct pos_struct` (lines 90-113); the `name` field is text and
plays no part in the computations. -/
structure pos_struct (K : Type) where
  elev : K
  horiz : K
  ra_2000_deg : K
  dec_2000 : K
  sid_time : K
  coord_year : K
  ra_hr : K
  ra_min : K
  ra_sec : K
  dec_deg : K
  dec_min : K
  Julian : K
  Julian_0hrUT : K
  tm_hr : K
  tm_min : K
  tm_sec : K
  dt_year : K
  dt_mon : K
  dt_day : K
  timezone : K
  daysav : K

/-- Source `struct time_date` (lines 116-123). -/
structure time_date (K : Type) where
  year : K
  mon : K
  day : K
  hr : K
  min : K
  sec : K

/-- The C library functions the source calls. -/
structure Libm (K : Type) where
  sin : K → K
  cos : K → K
  tan : K → K
  atan : K → K
  sqrt : K → K

/-- One global array `double [4][4]`. -/
abbrev Mat (K : Type) := Fin 4 → Fin 4 → K

/-- Assignment `A[i][j] = v`. -/
def Mat.set (A : Mat K) (i j : Fin 4) (v : K) : Mat K :=
  fun a b => if a = i ∧ b = j then v else A a b

/-- The five global arrays (lines 82-86). -/
structure Arrays (K : Type) where
  Q : Mat K
  V : Mat K
  R : Mat K
  X : Mat K
  Y : Mat K

/-- The loop `for (I=1; I<=3; I++) body`, on a state. -/
def for3 {σ : Type} (body : Fin 4 → σ → σ) (s : σ) : σ :=
  body 3 (body 2 (body 1 s))

/-- The loop `while (x >= b) x -= b;` run for at most `fuel` iterations. -/
def while_ge_sub (b : K) : ℕ → K → K
  | 0, x => x
  | fuel + 1, x => if x ≥ b then while_ge_sub b fuel (x - b) else x

/-- The loop `while (x > b) x -= b;` run for at most `fuel` iterations. -/
def while_gt_sub (b : K) : ℕ → K → K
  | 0, x => x
  | fuel + 1, x => if x > b then while_gt_sub b fuel (x - b) else x

/-- The loop `while (x < 0) x += b;` run for at most `fuel` iterations. -/
def while_neg_add (b : K) : ℕ → K → K
  | 0, x => x
  | fuel + 1, x => if x < 0 then while_neg_add b fuel (x + b) else x

/-- Iterations needed by a loop that moves `x` in steps of `b`. -/
def loop_fuel (b x : K) : ℕ := (⌈|x| / b⌉).toNat

/-- The loop pair `while (F>360) F-=360; while (F<0) F+=360;` (lines 2157-2160
in `angle_subr`, lines 2219-2222 in `calc_equat`), in exact arithmetic;
`normalize_360_double` is the loop pair with each step rounded. -/
def normalize_360 (F : K) : K :=
  let F := while_gt_sub 360 (loop_fuel 360 F) F
  while_neg_add 360 (loop_fuel 360 F) F

/-! ## Time system (source lines 1550-1645) -/

/-- Source `LT_UT` (lines 1550-1578): local time to universal time.  All six
fields of `*UTptr` are assigned, so the result is a fresh `time_date`. -/
def LT_UT (pos : pos_struct K) : time_date K :=
  let UT : time_date K :=
    { sec := pos.tm_sec, min := pos.tm_min, hr := pos.tm_hr + pos.timezone,
      day := pos.dt_day, mon := pos.dt_mon, year := pos.dt_year }
  if UT.hr ≥ 24 then
    let UT : time_date K := { UT with day := UT.day + 1, hr := UT.hr - 24 }
    let leap_flag : ℤ :=
      if UT.mon = 2 ∧ Int.tmod (truncate UT.year) 4 = 0 ∧
          Int.tmod (truncate UT.year) 1000 ≠ 0 then 1 else 0
    if UT.day > ((DAYS_at (truncate (UT.mon - 1)) + leap_flag : ℤ) : K) then
      let UT : time_date K := { UT with mon := UT.mon + 1, day := 1 }
      if UT.mon > (MONTHS : K) then { UT with year := UT.year + 1, mon := 1 }
      else UT
    else UT
  else UT

/-- Source `Julian` (lines 1588-1614): Julian date of a universal time. -/
def Julian (UT : time_date K) (pos : pos_struct K) : pos_struct K :=
  let GREG_DATE : K := 15821015
  let Y0 : ℤ := truncate UT.year
  let M0 : ℤ := truncate UT.mon
  let Y : ℤ := if M0 = 1 ∨ M0 = 2 then Y0 - 1 else Y0
  let M : ℤ := if M0 = 1 ∨ M0 = 2 then M0 + 12 else M0
  let A : ℤ := Int.tdiv Y 100
  let cal_date : K := UT.year * 10000 + UT.mon * 100 + UT.day
  let B : ℤ := if cal_date > GREG_DATE then 2 - A + Int.tdiv A 4 else 0
  let C : ℤ := truncate (365.25 * (Y : K))
  let D : ℤ := truncate (30.6001 * ((M + 1 : ℤ) : K))
  let J0 : K := ((B + C + D : ℤ) : K) + UT.day + 1720994.5
  { pos with
    Julian_0hrUT := J0
    Julian := J0 + UT.hr / 24 + UT.min / (24 * 60) + UT.sec / (24 * 60 * 60) }

/-- Source `sidereal_time` (lines 1623-1645). -/
def sidereal_time (UT : time_date K) (pos : pos_struct K) : pos_struct K :=
  let SID_RATE : K := 1.002737908
  let T : K := (pos.Julian_0hrUT - 2415020) / 36525
  let sid_time_0hrUT : K := 6.6460656 + 2400.051262 * T + 0.00002581 * T * T
  let UT_hr : K := UT.hr + UT.min / 60 + UT.sec / 3600
  let sid_time_day : K := UT_hr * SID_RATE
  let sid_time : K := sid_time_0hrUT + sid_time_day
  { pos with sid_time := while_ge_sub 24 (loop_fuel 24 sid_time) sid_time }

/-! ## Alignment calibration (source lines 1745-1911) -/

/-- Source `reinit_arrays` (lines 1747-1762): all five arrays set to 0. -/
def reinit_arrays (_st : Arrays K) : Arrays K :=
  { Q := fun _ _ => 0, V := fun _ _ => 0, R := fun _ _ => 0,
    X := fun _ _ => 0, Y := fun _ _ => 0 }

/-- Source `determinant_subr` (lines 1886-1894): the value stored in `*Wptr`,
computed from the global `V`. -/
def determinant_subr (st : Arrays K) : K :=
  st.V 1 1 * st.V 2 2 * st.V 3 3 + st.V 1 2 * st.V 2 3 * st.V 3 1 +
    st.V 1 3 * st.V 3 2 * st.V 2 1 -
    st.V 1 3 * st.V 2 2 * st.V 3 1 - st.V 1 1 * st.V 3 2 * st.V 2 3 -
    st.V 1 2 * st.V 2 1 * st.V 3 3

/-- Source `subr_750` (lines 1904-1911): writes `Y[1..3][0]`. -/
def subr_750 (m : Libm K) (rad : K) (F H Z1 Z2 : K) (st : Arrays K) : Arrays K :=
  let y1 := m.cos F * m.cos H - m.sin F * (Z2 / rad) + m.sin F * m.cos H * (Z1 / rad)
  let st := { st with Y := st.Y.set 1 0 y1 }
  let y2 := m.sin F * m.cos H + m.cos F * (Z2 / rad) - m.cos F * m.sin H * (Z1 / rad)
  let st := { st with Y := st.Y.set 2 0 y2 }
  { st with Y := st.Y.set 3 0 (m.sin H) }

/-- Source `subr_785` (lines 2172-2179): writes `Y[1..3][1]`. -/
def subr_785 (m : Libm K) (rad : K) (F H Z1 Z2 : K) (st : Arrays K) : Arrays K :=
  let y1 := m.cos F * m.cos H + m.sin F * (Z2 / rad) - m.sin F * m.cos H * (Z1 / rad)
  let st := { st with Y := st.Y.set 1 1 y1 }
  let y2 := m.sin F * m.cos H - m.cos F * (Z2 / rad) + m.cos F * m.sin H * (Z1 / rad)
  let st := { st with Y := st.Y.set 2 1 y2 }
  { st with Y := st.Y.set 3 1 (m.sin H) }

/-- The loops `for I for J V[I][J] = X[I][J]` (lines 1825-1827, 1835-1837). -/
def copy_X_to_V (st : Arrays K) : Arrays K :=
  for3 (fun I => for3 (fun J st => { st with V := st.V.set I J (st.X I J) })) st

/-- The loops `for I for J V[I][J] = R[I][J]` (lines 1858-1860). -/
def copy_R_to_V (st : Arrays K) : Arrays K :=
  for3 (fun I => for3 (fun J st => { st with V := st.V.set I J (st.R I J) })) st

/-- Body of the loop over `N` (lines 1839-1844 and 1866-1871): column `M` of
`V` becomes the basis vector `e_N` and `Q[M][N] = W/E`. -/
def cramer_step (E : K) (M N : Fin 4) (st : Arrays K) : Arrays K :=
  let st := { st with V := st.V.set 1 M 0 }
  let st := { st with V := st.V.set 2 M 0 }
  let st := { st with V := st.V.set 3 M 0 }
  let st := { st with V := st.V.set N M 1 }
  let W := determinant_subr st
  { st with Q := st.Q.set M N (W / E) }

/-- Third basis vector of the sky frame (lines 1801-1810). -/
def third_axis_X (m : Libm K) (st : Arrays K) : Arrays K :=
  let st := { st with X := st.X.set 1 3 (st.X 2 1 * st.X 3 2 - st.X 3 1 * st.X 2 2) }
  let st := { st with X := st.X.set 2 3 (st.X 3 1 * st.X 1 2 - st.X 1 1 * st.X 3 2) }
  let st := { st with X := st.X.set 3 3 (st.X 1 1 * st.X 2 2 - st.X 2 1 * st.X 1 2) }
  let A := m.sqrt (st.X 1 3 ^ 2 + st.X 2 3 ^ 2 + st.X 3 3 ^ 2)
  let A := if A = 0 then NEXT_TO_NOTHING else A
  for3 (fun I st => { st with X := st.X.set I 3 (st.X I 3 / A) }) st

/-- Third basis vector of the mount frame (lines 1812-1821). -/
def third_axis_Y (m : Libm K) (st : Arrays K) : Arrays K :=
  let st := { st with Y := st.Y.set 1 3 (st.Y 2 1 * st.Y 3 2 - st.Y 3 1 * st.Y 2 2) }
  let st := { st with Y := st.Y.set 2 3 (st.Y 3 1 * st.Y 1 2 - st.Y 1 1 * st.Y 3 2) }
  let st := { st with Y := st.Y.set 3 3 (st.Y 1 1 * st.Y 2 2 - st.Y 2 1 * st.Y 1 2) }
  let A := m.sqrt (st.Y 1 3 ^ 2 + st.Y 2 3 ^ 2 + st.Y 3 3 ^ 2)
  let A := if A = 0 then NEXT_TO_NOTHING else A
  for3 (fun I st => { st with Y := st.Y.set I 3 (st.Y I 3 / A) }) st

/-- First Cramer inversion (lines 1825-1846): `Q` from `X`. -/
def invert_X_into_Q (st : Arrays K) : Arrays K :=
  let st := copy_X_to_V st
  let W := determinant_subr st
  let E := W
  let E := if E = 0 then NEXT_TO_NOTHING else E
  for3 (fun M st =>
    let st := copy_X_to_V st
    for3 (fun N st => cramer_step E M N st) st) st

/-- Matrix product (lines 1848-1855): `R = Y * Q`. -/
def mult_Y_Q_into_R (st : Arrays K) : Arrays K :=
  let st := for3 (fun I => for3 (fun J st => { st with R := st.R.set I J 0 })) st
  for3 (fun I => for3 (fun J => for3 (fun L st =>
    { st with R := st.R.set I J (st.R I J + st.Y I L * st.Q L J) }))) st

/-- Second Cramer inversion (lines 1857-1873): `Q` from `R`. -/
def invert_R_into_Q (st : Arrays K) : Arrays K :=
  for3 (fun M st =>
    let st := copy_R_to_V st
    let W := determinant_subr st
    let E := W
    let E := if E = 0 then NEXT_TO_NOTHING else E
    for3 (fun N st => cramer_step E M N st) st) st

/-- First part of `init_arrays` (lines 1784-1798): the direction cosines of
the observation are stored in column `init` of `X` and of `Y`. -/
def store_slot (m : Libm K) (rad : K) (init : Fin 4) (pos : pos_struct K)
    (Z1 Z2 Z3 : K) (st : Arrays K) : Arrays K :=
  let D := pos.dec_2000 / rad
  let B := (pos.ra_2000_deg - 15 * pos.sid_time) / rad
  let st := { st with X := st.X.set 1 init (m.cos D * m.cos B) }
  let st := { st with X := st.X.set 2 init (m.cos D * m.sin B) }
  let st := { st with X := st.X.set 3 init (m.sin D) }
  let F := pos.horiz / rad
  let H := (pos.elev + Z3) / rad
  let st := subr_750 m rad F H Z1 Z2 st
  let st := { st with Y := st.Y.set 1 init (st.Y 1 0) }
  let st := { st with Y := st.Y.set 2 init (st.Y 2 0) }
  { st with Y := st.Y.set 3 init (st.Y 3 0) }

/-- Source `init_arrays` (lines 1772-1876): `store_slot`, then for slot 2 the
block of lines 1800-1874. -/
def init_arrays (m : Libm K) (rad : K) (init : Fin 4) (pos : pos_struct K)
    (Z1 Z2 Z3 : K) (st : Arrays K) : Arrays K :=
  let st := store_slot m rad init pos Z1 Z2 Z3 st
  if init = INIT2 then
    let st := third_axis_X m st
    let st := third_axis_Y m st
    let st := invert_X_into_Q st
    let st := mult_Y_Q_into_R st
    invert_R_into_Q st
  else st

/-! ### The divisions of `init_arrays`, recorded

The same code as above on the arrays paired with a record: every division of
lines 1800-1874 appends the value its divisor had before the zero test and the
divisor it uses. -/

/-- Lines 1801-1810 with the divisor of each `X[I][3] /= A` recorded. -/
def third_axis_X_traced (m : Libm K) (p : Arrays K × List (K × K)) :
    Arrays K × List (K × K) :=
  let st := p.1
  let st := { st with X := st.X.set 1 3 (st.X 2 1 * st.X 3 2 - st.X 3 1 * st.X 2 2) }
  let st := { st with X := st.X.set 2 3 (st.X 3 1 * st.X 1 2 - st.X 1 1 * st.X 3 2) }
  let st := { st with X := st.X.set 3 3 (st.X 1 1 * st.X 2 2 - st.X 2 1 * st.X 1 2) }
  let A0 := m.sqrt (st.X 1 3 ^ 2 + st.X 2 3 ^ 2 + st.X 3 3 ^ 2)
  let A := if A0 = 0 then NEXT_TO_NOTHING else A0
  for3 (fun I q => ({ q.1 with X := q.1.X.set I 3 (q.1.X I 3 / A) }, q.2 ++ [(A0, A)]))
    (st, p.2)

/-- Lines 1812-1821 with the divisor of each `Y[I][3] /= A` recorded. -/
def third_axis_Y_traced (m : Libm K) (p : Arrays K × List (K × K)) :
    Arrays K × List (K × K) :=
  let st := p.1
  let st := { st with Y := st.Y.set 1 3 (st.Y 2 1 * st.Y 3 2 - st.Y 3 1 * st.Y 2 2) }
  let st := { st with Y := st.Y.set 2 3 (st.Y 3 1 * st.Y 1 2 - st.Y 1 1 * st.Y 3 2) }
  let st := { st with Y := st.Y.set 3 3 (st.Y 1 1 * st.Y 2 2 - st.Y 2 1 * st.Y 1 2) }
  let A0 := m.sqrt (st.Y 1 3 ^ 2 + st.Y 2 3 ^ 2 + st.Y 3 3 ^ 2)
  let A := if A0 = 0 then NEXT_TO_NOTHING else A0
  for3 (fun I q => ({ q.1 with Y := q.1.Y.set I 3 (q.1.Y I 3 / A) }, q.2 ++ [(A0, A)]))
    (st, p.2)

/-- Lines 1839-1844 and 1866-1871 with the divisor of `W/E` recorded. -/
def cramer_step_traced (E0 E : K) (M N : Fin 4) (p : Arrays K × List (K × K)) :
    Arrays K × List (K × K) :=
  let st := p.1
  let st := { st with V := st.V.set 1 M 0 }
  let st := { st with V := st.V.set 2 M 0 }
  let st := { st with V := st.V.set 3 M 0 }
  let st := { st with V := st.V.set N M 1 }
  let W := determinant_subr st
  ({ st with Q := st.Q.set M N (W / E) }, p.2 ++ [(E0, E)])

/-- Lines 1825-1846 with the divisors recorded. -/
def invert_X_into_Q_traced (p : Arrays K × List (K × K)) : Arrays K × List (K × K) :=
  let st := copy_X_to_V p.1
  let W := determinant_subr st
  let E0 := W
  let E := if E0 = 0 then NEXT_TO_NOTHING else E0
  for3 (fun M q =>
    let q := (copy_X_to_V q.1, q.2)
    for3 (fun N q => cramer_step_traced E0 E M N q) q) (st, p.2)

/-- Lines 1857-1873 with the divisors recorded. -/
def invert_R_into_Q_traced (p : Arrays K × List (K × K)) : Arrays K × List (K × K) :=
  for3 (fun M q =>
    let q := (copy_R_to_V q.1, q.2)
    let W := determinant_subr q.1
    let E0 := W
    let E := if E0 = 0 then NEXT_TO_NOTHING else E0
    for3 (fun N q => cramer_step_traced E0 E M N q) q) p

/-- Source `init_arrays` with the divisors of lines 1800-1874 recorded, from an
empty record. -/
def init_arrays_traced (m : Libm K) (rad : K) (init : Fin 4) (pos : pos_struct K)
    (Z1 Z2 Z3 : K) (st : Arrays K) : Arrays K × List (K × K) :=
  let st := store_slot m rad init pos Z1 Z2 Z3 st
  if init = INIT2 then
    let p := third_axis_X_traced m (st, [])
    let p := third_axis_Y_traced m p
    let p := invert_X_into_Q_traced p
    let p := (mult_Y_Q_into_R p.1, p.2)
    invert_R_into_Q_traced p
  else (st, [])

/-! ## Coordinate transform (source lines 2079-2253) -/

/-- Source `angle_subr` (lines 2129-2162).  `F` and `H` are the values the
caller's variables hold on entry; the result is the pair of values they hold
on return. -/
def angle_subr (m : Libm K) (rad : K) (st : Arrays K) (F H : K) : K × K :=
  let C := m.sqrt (st.Y 1 1 ^ 2 + st.Y 2 1 ^ 2)
  let H :=
    if C = 0 then
      if st.Y 3 1 > 0 then 90 else if st.Y 3 1 < 0 then -90 else H
    else m.atan (st.Y 3 1 / C) * rad
  let F := if C = 0 then 1000 else F
  let F :=
    if C ≠ 0 ∧ st.Y 1 1 = 0 then
      if st.Y 2 1 > 0 then 90 else if st.Y 2 1 < 0 then 270 else F
    else F
  let F :=
    if st.Y 1 1 > 0 then m.atan (st.Y 2 1 / st.Y 1 1) * rad
    else if st.Y 1 1 < 0 then m.atan (st.Y 2 1 / st.Y 1 1) * rad + 180
    else F
  let F := normalize_360 F
  (F, H)

/-- Source `decode_RA_dec` (lines 2242-2253), in exact arithmetic;
`decode_RA_dec_double` is the function with each operation rounded.  In
`(int) ra_2000_deg / 15` the cast applies first, so the division is the
integer one. -/
def decode_RA_dec (pos : pos_struct K) : pos_struct K :=
  let pos := { pos with ra_hr := ((Int.tdiv (truncate pos.ra_2000_deg) 15 : ℤ) : K) }
  let pos := { pos with
    ra_min := ((truncate ((pos.ra_2000_deg / 15 - pos.ra_hr) * 60) : ℤ) : K) }
  let pos := { pos with
    ra_sec := (pos.ra_2000_deg / 15 - pos.ra_hr - pos.ra_min / 60) * 3600 }
  let pos := { pos with dec_deg := ((truncate pos.dec_2000 : ℤ) : K) }
  { pos with dec_min := (pos.dec_2000 - pos.dec_deg) * 60 }

/-- The loops `for I for J Y[I][1] += M[I][J] * X[J][1]` (lines 2100-2102 with
`M = R`, lines 2211-2213 with `M = Q`). -/
def accumulate_Y (M : Arrays K → Mat K) (st : Arrays K) : Arrays K :=
  for3 (fun I => for3 (fun J st =>
    { st with Y := st.Y.set I 1 (st.Y I 1 + M st I J * st.X J 1) })) st

/-- First part of `calc_scope` (lines 2089-2102): the equatorial direction
cosines go to `X[1..3][1]` and their image under `R` to `Y[1..3][1]`. -/
def load_equat (m : Libm K) (rad : K) (pos : pos_struct K) (st : Arrays K) : Arrays K :=
  let D := pos.dec_2000 / rad
  let B := (pos.ra_2000_deg - 15 * pos.sid_time) / rad
  let st := { st with X := st.X.set 1 1 (m.cos D * m.cos B) }
  let st := { st with X := st.X.set 2 1 (m.cos D * m.sin B) }
  let st := { st with X := st.X.set 3 1 (m.sin D) }
  let st := { st with Y := st.Y.set 1 1 0 }
  let st := { st with Y := st.Y.set 2 1 0 }
  let st := { st with Y := st.Y.set 3 1 0 }
  accumulate_Y Arrays.R st

/-- Source `calc_scope` (lines 2079-2119): `load_equat`, then lines 2104-2117.
`F0` and `H0` are the indeterminate values of the uninitialised locals `F`
and `H`. -/
def calc_scope (m : Libm K) (rad : K) (pos : pos_struct K) (Z1 Z2 Z3 : K)
    (F0 H0 : K) (st : Arrays K) : pos_struct K × Arrays K :=
  let st := load_equat m rad pos st
  let FH := angle_subr m rad st F0 H0
  let F := FH.1 / rad
  let H := FH.2 / rad
  let st := subr_785 m rad F H Z1 Z2 st
  let FH := angle_subr m rad st F H
  let F := FH.1
  let H := FH.2 - Z3
  ({ pos with horiz := F, elev := H }, st)

/-- First part of `calc_equat` (lines 2198-2213): the mount-frame vector of
the reading goes through `Y[1..3][0]` to `X[1..3][1]` and its image under `Q`
to `Y[1..3][1]`. -/
def load_mount (m : Libm K) (rad : K) (pos : pos_struct K) (Z1 Z2 Z3 : K)
    (st : Arrays K) : Arrays K :=
  let F := pos.horiz / rad
  let H := (pos.elev + Z3) / rad
  let st := subr_750 m rad F H Z1 Z2 st
  let st := { st with X := st.X.set 1 1 (st.Y 1 0) }
  let st := { st with X := st.X.set 2 1 (st.Y 2 0) }
  let st := { st with X := st.X.set 3 1 (st.Y 3 0) }
  let st := { st with Y := st.Y.set 1 1 0 }
  let st := { st with Y := st.Y.set 2 1 0 }
  let st := { st with Y := st.Y.set 3 1 0 }
  accumulate_Y Arrays.Q st

/-- Source `calc_equat` (lines 2189-2233): `load_mount`, then lines
2215-2231. -/
def calc_equat (m : Libm K) (rad : K) (pos : pos_struct K) (Z1 Z2 Z3 : K)
    (st : Arrays K) : pos_struct K × Arrays K :=
  let F := pos.horiz / rad
  let H := (pos.elev + Z3) / rad
  let st := load_mount m rad pos Z1 Z2 Z3 st
  let FH := angle_subr m rad st F H
  let F := FH.1 + 15 * pos.sid_time
  let H := FH.2
  let F := normalize_360 F
  let pos := { pos with ra_2000_deg := F, dec_2000 := H, coord_year := BASE_YEAR }
  (decode_RA_dec pos, st)

/-! ## Precession (source lines 1498-1540) -/

/-- Source `calc_precess` (lines 1524-1540): the pair of values `*RA`, `*DEC`
hold on return.  The statement of line 1538 reads `*RA` after line 1535 has
updated it. -/
def calc_precess (m : Libm K) (rad : K) (end_year beg_year RA DEC : K) : K × K :=
  let U := ((end_year + beg_year) / 2 - 1900) / 100
  let O := 3.07234 + 0.00186 * U
  let P := 20.0468 - 0.0085 * U
  let RA := RA + (O + (P / 15) * m.sin (RA / rad) * m.tan (DEC / rad)) *
    (end_year - beg_year) / 240
  let DEC := DEC + (P * m.cos (RA / rad) * (end_year - beg_year)) / 3600
  (RA, DEC)

/-- Source `process_precess` (lines 1498-1515). -/
def process_precess (m : Libm K) (rad : K) (ptr : pos_struct K) : pos_struct K :=
  let RA := (ptr.ra_hr + ptr.ra_min / 60 + ptr.ra_sec / 3600) * 15
  let DEC := ptr.dec_deg + ptr.dec_min / 60
  let r := calc_precess m rad BASE_YEAR ptr.coord_year RA DEC
  { ptr with ra_2000_deg := r.1, dec_2000 := r.2 }

/-! ## Input and display of the mount reading (source lines 1654-1737) -/

/-- Source constants `NO`, `YES` (lines 54-55). -/
def NO : ℤ := 0

/-- Source constant `YES` (line 55). -/
def YES : ℤ := 1

/-- Source constant `QUIT` (line 56). -/
def QUIT : ℤ := 4

/-- Source constant `CURRENT` (line 59). -/
def CURRENT : Fin 4 := 3

/-- The loop `do ... while ((x = atof(cgets(..))) < lo || x > hi)` on the
entries the operator types: the first entry in range ends the loop; `none`
when the entries run out before one is accepted. -/
def read_in_range (lo hi : K) : List K → Option K
  | [] => none
  | x :: xs => if x < lo ∨ x > hi then read_in_range lo hi xs else some x

/-- Source `get_scope` (lines 1654-1696) on the entries typed for the
elevation and for the horizon. -/
def get_scope (elev_entries horiz_entries : List K) (pos : pos_struct K) :
    Option (pos_struct K) :=
  match read_in_range 0 90 elev_entries with
  | none => none
  | some e =>
    match read_in_range 0 360 horiz_entries with
    | none => none
    | some h =>
      let pos := { pos with elev := e }
      let pos := { pos with horiz := h }
      some { pos with horiz := 360 - pos.horiz }

/-- The numbers `display_coord` hands to `cprintf`, with the screen row. -/
structure coord_display (K : Type) where
  row : ℤ
  elev : K
  horiz : K
  tm_hr : K
  tm_min : K
  tm_sec : K
  timezone : K
  dt_mon : K
  dt_day : K
  dt_year : K
  coord_year : K
  ra_hr : K
  ra_min : K
  ra_sec : K
  dec_deg : K
  dec_min : K

/-- Source `display_coord` (lines 1705-1737).  The callers pass `INIT1`,
`INIT2` or `CURRENT`; for another `coord_type` the source leaves `row` unset,
read as 0 here. -/
def display_coord (coord_type : Fin 4) (pos : pos_struct K) : coord_display K :=
  { row := if coord_type = INIT1 then 13 else if coord_type = INIT2 then 17
      else if coord_type = CURRENT then 9 else 0
    elev := pos.elev
    horiz := 360 - pos.horiz
    tm_hr := pos.tm_hr, tm_min := pos.tm_min, tm_sec := pos.tm_sec
    timezone := pos.timezone, dt_mon := pos.dt_mon, dt_day := pos.dt_day
    dt_year := pos.dt_year, coord_year := pos.coord_year
    ra_hr := pos.ra_hr, ra_min := pos.ra_min, ra_sec := pos.ra_sec
    dec_deg := pos.dec_deg, dec_min := pos.dec_min }

/-! ## The real-time loops (source lines 2322-2414) -/

/-- What one pass of a real-time loop takes from outside the program: the
system clock (`gettime`, `getdate`) and the indeterminate values the
uninitialised locals `F`, `H` of `calc_scope` hold in that pass. -/
structure Sample (K : Type) where
  ti_hour : K
  ti_min : K
  ti_sec : K
  da_year : K
  da_mon : K
  da_day : K
  F : K
  H : K

/-- Source `get_system_time_date` (lines 1027-1041). -/
def get_system_time_date (c : Sample K) (pos : pos_struct K) : pos_struct K :=
  { pos with tm_hr := c.ti_hour, tm_min := c.ti_min, tm_sec := c.ti_sec,
             dt_year := c.da_year, dt_mon := c.da_mon, dt_day := c.da_day }

/-- The statements `LT_UT(&UT, posptr); Julian(&UT, posptr);
sidereal_time(&UT, posptr);` (lines 946-948, 1979-1981, 2054-2056, 2347-2349,
2398-2400). -/
def calc_times (pos : pos_struct K) : pos_struct K :=
  let UT := LT_UT pos
  let pos := Julian UT pos
  sidereal_time UT pos

/-- One pass of the loop of `run_equat_to_scope_real_time` (lines 2345-2352),
on the position and the arrays. -/
def equat_to_scope_pass (m : Libm K) (rad Z1 Z2 Z3 : K) (c : Sample K)
    (p : pos_struct K × Arrays K) : pos_struct K × Arrays K :=
  let pos := get_system_time_date c p.1
  let pos := calc_times pos
  calc_scope m rad pos Z1 Z2 Z3 c.F c.H p.2

/-- One pass of the loop of `run_scope_to_equat_real_time` (lines 2396-2403),
on the position and the arrays. -/
def scope_to_equat_pass (m : Libm K) (rad Z1 Z2 Z3 : K) (c : Sample K)
    (p : pos_struct K × Arrays K) : pos_struct K × Arrays K :=
  let pos := get_system_time_date c p.1
  let pos := calc_times pos
  calc_equat m rad pos Z1 Z2 Z3 p.2

/-! ## The menu loop of `main` (source lines 257-366) -/

/-- The calls of the engine that the menu loop makes. -/
inductive Call where
  | reinit_arrays
  | init_arrays (init : Fin 4)
  | calc_scope
  | calc_equat
  | cannot_convert_msg

/-- The variables of `main` that the engine reads or writes, the global
arrays, and a record of the calls made so far, each with the value
`init_flag` had when it was made. -/
structure Session (K : Type) where
  init_flag : ℤ
  Z1 : K
  Z2 : K
  Z3 : K
  init1 : pos_struct K
  init2 : pos_struct K
  current : pos_struct K
  arrays : Arrays K
  calls : List (Call × ℤ)

/-- What the operator and the system clock supply during one pass of the menu
loop: the selection `get_select` returns, the answer given in `check_init`,
the offsets `get_fab_err` leaves, the positions `get_init` leaves, the
position `get_equat_to_scope` or `get_scope_to_equat` holds when its input is
complete, the indeterminate locals of its `calc_scope`, the flag it sets, and
the samples of the real-time loop up to the key press. -/
structure Operator (K : Type) where
  select : ℤ
  response : ℤ
  Z1 : K
  Z2 : K
  Z3 : K
  init1 : pos_struct K
  init2 : pos_struct K
  entered : pos_struct K
  F : K
  H : K
  run_real_time_flag : ℤ
  samples : List (Sample K)

/-- A call is appended to the record with the current `init_flag`. -/
def Session.record (s : Session K) (c : Call) : Session K :=
  { s with calls := s.calls ++ [(c, s.init_flag)] }

/-- Source `check_init` (lines 648-671) on the operator's answer. -/
def check_init (response : ℤ) (init_flag : ℤ) : ℤ :=
  if response = YES then NO else init_flag

/-- Source `run_equat_to_scope_real_time` (lines 2322-2362): one pass per
sample. -/
def run_equat_to_scope_real_time (m : Libm K) (rad : K) :
    List (Sample K) → Session K → Session K
  | [], s => s
  | c :: cs, s =>
    let s := s.record Call.calc_scope
    let r := equat_to_scope_pass m rad s.Z1 s.Z2 s.Z3 c (s.current, s.arrays)
    run_equat_to_scope_real_time m rad cs { s with current := r.1, arrays := r.2 }

/-- Source `run_scope_to_equat_real_time` (lines 2373-2413): one pass per
sample. -/
def run_scope_to_equat_real_time (m : Libm K) (rad : K) :
    List (Sample K) → Session K → Session K
  | [], s => s
  | c :: cs, s =>
    let s := s.record Call.calc_equat
    let r := scope_to_equat_pass m rad s.Z1 s.Z2 s.Z3 c (s.current, s.arrays)
    run_scope_to_equat_real_time m rad cs { s with current := r.1, arrays := r.2 }

/-- The body of `case 1` (lines 290-320). -/
def main_case_1 (m : Libm K) (rad : K) (op : Operator K) (s : Session K) : Session K :=
  let s := if s.init_flag = YES then { s with init_flag := check_init op.response s.init_flag }
    else s
  if s.init_flag = NO then
    let s := s.record Call.reinit_arrays
    let s := { s with arrays := reinit_arrays s.arrays }
    let s := { s with Z1 := op.Z1, Z2 := op.Z2, Z3 := op.Z3 }
    let s := { s with init1 := op.init1 }
    let s := s.record (Call.init_arrays INIT1)
    let s := { s with arrays := init_arrays m rad INIT1 s.init1 s.Z1 s.Z2 s.Z3 s.arrays }
    let s := { s with init2 := op.init2 }
    let s := s.record (Call.init_arrays INIT2)
    let s := { s with arrays := init_arrays m rad INIT2 s.init2 s.Z1 s.Z2 s.Z3 s.arrays }
    { s with init_flag := YES }
  else s

/-- The body of `case 2` (lines 322-338). -/
def main_case_2 (m : Libm K) (rad : K) (op : Operator K) (s : Session K) : Session K :=
  if s.init_flag = NO then s.record Call.cannot_convert_msg
  else
    let s := s.record Call.calc_scope
    let r := calc_scope m rad (calc_times op.entered) s.Z1 s.Z2 s.Z3 op.F op.H s.arrays
    let s := { s with current := r.1, arrays := r.2 }
    if op.run_real_time_flag ≠ 0 then run_equat_to_scope_real_time m rad op.samples s
    else s

/-- The body of `case 3` (lines 340-355). -/
def main_case_3 (m : Libm K) (rad : K) (op : Operator K) (s : Session K) : Session K :=
  if s.init_flag = NO then s.record Call.cannot_convert_msg
  else
    let s := s.record Call.calc_equat
    let r := calc_equat m rad (calc_times op.entered) s.Z1 s.Z2 s.Z3 s.arrays
    let s := { s with current := r.1, arrays := r.2 }
    if op.run_real_time_flag ≠ 0 then run_scope_to_equat_real_time m rad op.samples s
    else s

/-- The `switch (select)` of lines 289-357. -/
def main_switch (m : Libm K) (rad : K) (op : Operator K) (s : Session K) : Session K :=
  if op.select = 1 then main_case_1 m rad op s
  else if op.select = 2 then main_case_2 m rad op s
  else if op.select = 3 then main_case_3 m rad op s
  else s

/-- The loop `while (select != QUIT)` of lines 288-359, one `Operator` per
pass; the run ends at `QUIT` or where the operator's input ends. -/
def main_loop (m : Libm K) (rad : K) : List (Operator K) → Session K → Session K
  | [], s => s
  | op :: ops, s =>
    if op.select ≠ QUIT then main_loop m rad ops (main_switch m rad op s) else s

/-- The session as `main` starts its loop (lines 259-272): `init_flag`, the
offsets and `current.coord_year` are 0, the global arrays are zero as C
initialises them; `p` holds the indeterminate contents of the three position
structures. -/
def main_start (p : pos_struct K) : Session K :=
  { init_flag := 0, Z1 := 0, Z2 := 0, Z3 := 0, init1 := p, init2 := p,
    current := { p with coord_year := 0 },
    arrays := { Q := fun _ _ => 0, V := fun _ _ => 0, R := fun _ _ => 0,
                X := fun _ _ => 0, Y := fun _ _ => 0 },
    calls := [] }

/-! ## Reference definitions and fixtures used by the statements -/

/-- A position holding a civil date, time and time zone; every other field
is 0. -/
def civil (year mon day hr mn sec tz : K) : pos_struct K :=
  { elev := 0, horiz := 0, ra_2000_deg := 0, dec_2000 := 0, sid_time := 0,
    coord_year := 0, ra_hr := 0, ra_min := 0, ra_sec := 0, dec_deg := 0,
    dec_min := 0, Julian := 0, Julian_0hrUT := 0, tm_hr := hr, tm_min := mn,
    tm_sec := sec, dt_year := year, dt_mon := mon, dt_day := day,
    timezone := tz, daysav := 0 }

/-- A position holding equatorial coordinates, a sidereal time and a mount
reading; every other field is 0. -/
def sky_mount (ra_2000_deg dec_2000 sid_time horiz elev : K) : pos_struct K :=
  { elev := elev, horiz := horiz, ra_2000_deg := ra_2000_deg, dec_2000 := dec_2000,
    sid_time := sid_time, coord_year := 0, ra_hr := 0, ra_min := 0, ra_sec := 0,
    dec_deg := 0, dec_min := 0, Julian := 0, Julian_0hrUT := 0, tm_hr := 0,
    tm_min := 0, tm_sec := 0, dt_year := 0, dt_mon := 0, dt_day := 0,
    timezone := 0, daysav := 0 }

/-- The arrays as `reinit_arrays` leaves them: every entry 0. -/
def zero_arrays : Arrays K :=
  { Q := fun _ _ => 0, V := fun _ _ => 0, R := fun _ _ => 0,
    X := fun _ _ => 0, Y := fun _ _ => 0 }

/-- Reference leap test, in the words of the specification: 1 when the month
is February and `year % 4 = 0` and `year % 1000 != 0`, else 0. -/
def legacy_leap (year mon : ℤ) : ℤ :=
  if mon = 2 ∧ year % 4 = 0 ∧ year % 1000 ≠ 0 then 1 else 0

/-- Reference next calendar day under the 12-entry table and the legacy leap
test: the next day of the month, else day 1 of the next month, else January 1
of the next year. -/
def next_calendar_day (year mon day : ℤ) : ℤ × ℤ × ℤ :=
  if day < DAYS_at (mon - 1) + legacy_leap year mon then (year, mon, day + 1)
  else if mon < 12 then (year, mon + 1, 1)
  else (year + 1, 1, 1)

/-- Reference definition of the local-to-universal time conversion, in the
words of the specification. -/
def LT_UT_ref (year mon day : ℤ) (tm_hr tm_min tm_sec timezone : K) : time_date K :=
  if tm_hr + timezone < 24 then
    { year := year, mon := mon, day := day, hr := tm_hr + timezone,
      min := tm_min, sec := tm_sec }
  else
    { year := (next_calendar_day year mon day).1,
      mon := (next_calendar_day year mon day).2.1,
      day := (next_calendar_day year mon day).2.2,
      hr := tm_hr + timezone - 24, min := tm_min, sec := tm_sec }

/-- The record of the real functions behind the C library calls. -/
noncomputable def realLibm : Libm ℝ :=
  { sin := Real.sin, cos := Real.cos, tan := Real.tan, atan := Real.arctan,
    sqrt := Real.sqrt }

/-- Determinant of the block of rows and columns 1..3, by cofactor expansion
along the first row. -/
def det3 (A : Mat K) : K :=
  A 1 1 * (A 2 2 * A 3 3 - A 2 3 * A 3 2) - A 1 2 * (A 2 1 * A 3 3 - A 2 3 * A 3 1) +
    A 1 3 * (A 2 1 * A 3 2 - A 2 2 * A 3 1)

/-- The matrix `A` with column `M` replaced by the basis vector `e_N`. -/
def col_unit (A : Mat K) (M N : Fin 4) : Mat K :=
  fun a b => if b = M then (if a = N then 1 else 0) else A a b

/-- A divisor with the zero value replaced by `NEXT_TO_NOTHING`. -/
def guard_zero (x : K) : K := if x = 0 then NEXT_TO_NOTHING else x

/-- The matrix the Cramer loops build from `A`: entry `(M, N)` is the
determinant of `A` with column `M` replaced by `e_N`, over the guarded
determinant of `A`. -/
def cramer_inverse (A : Mat K) : Mat K :=
  fun M N => det3 (col_unit A M N) / guard_zero (det3 A)

/-- The azimuth `angle_subr` holds before its normalisation loops when the
vector `(x, y, _)` is off the pole axis (lines 2147-2155). -/
def raw_azimuth (m : Libm K) (rad x y : K) : K :=
  if x > 0 then m.atan (y / x) * rad
  else if x < 0 then m.atan (y / x) * rad + 180
  else if y > 0 then 90 else 270

/-- A quarter turn about the third axis. -/
def quarter_turn : Mat K :=
  fun i j =>
    if i = 1 ∧ j = 2 then 1 else if i = 2 ∧ j = 1 then -1
    else if i = 3 ∧ j = 3 then 1 else 0

/-- Product of the 1..3 block of a matrix with a vector (components 1..3). -/
def mul_vec (A : Mat K) (v : Fin 4 → K) : Fin 4 → K :=
  fun i => A i 1 * v 1 + A i 2 * v 2 + A i 3 * v 3

/-- Column `k` of a matrix. -/
def col (A : Mat K) (k : Fin 4) : Fin 4 → K := fun i => A i k

/-- Cross product on components 1..3, with the index pattern of lines
1801-1803. -/
def cross3 (a b : Fin 4 → K) : Fin 4 → K :=
  fun i =>
    if i = 1 then a 2 * b 3 - a 3 * b 2
    else if i = 2 then a 3 * b 1 - a 1 * b 3
    else if i = 3 then a 1 * b 2 - a 2 * b 1
    else 0

/-- The equatorial direction cosines `init_arrays` stores in `X[1..3][init]`
(lines 1784-1789). -/
def equat_vector (m : Libm K) (rad : K) (pos : pos_struct K) : Fin 4 → K :=
  fun i =>
    if i = 1 then
      m.cos (pos.dec_2000 / rad) * m.cos ((pos.ra_2000_deg - 15 * pos.sid_time) / rad)
    else if i = 2 then
      m.cos (pos.dec_2000 / rad) * m.sin ((pos.ra_2000_deg - 15 * pos.sid_time) / rad)
    else if i = 3 then m.sin (pos.dec_2000 / rad)
    else 0

/-- The mount-frame vector `init_arrays` stores in `Y[1..3][init]` (lines
1791-1798, through `subr_750`). -/
def mount_vector (m : Libm K) (rad : K) (pos : pos_struct K) (Z1 Z2 Z3 : K) :
    Fin 4 → K :=
  fun i =>
    if i = 1 then
      m.cos (pos.horiz / rad) * m.cos ((pos.elev + Z3) / rad)
        - m.sin (pos.horiz / rad) * (Z2 / rad)
        + m.sin (pos.horiz / rad) * m.cos ((pos.elev + Z3) / rad) * (Z1 / rad)
    else if i = 2 then
      m.sin (pos.horiz / rad) * m.cos ((pos.elev + Z3) / rad)
        + m.cos (pos.horiz / rad) * (Z2 / rad)
        - m.cos (pos.horiz / rad) * m.sin ((pos.elev + Z3) / rad) * (Z1 / rad)
    else if i = 3 then m.sin ((pos.elev + Z3) / rad)
    else 0

/-- Reference precession formula, in the words of the specification: both
trigonometric terms are taken at the input right ascension. -/
def precess_formula (m : Libm K) (rad : K) (fromYear toYear RA Dec : K) : K × K :=
  let U := ((toYear + fromYear) / 2 - 1900) / 100
  let O := 3.07234 + 0.00186 * U
  let P := 20.0468 - 0.0085 * U
  let d := toYear - fromYear
  (RA + (O + (P / 15) * m.sin (RA / rad) * m.tan (Dec / rad)) * d / 240,
   Dec + P * m.cos (RA / rad) * d / 3600)

/-- A position holding catalogue coordinates of a given year; every other
field is 0. -/
def catalogue (coord_year ra_hr ra_min ra_sec dec_deg dec_min : K) : pos_struct K :=
  { elev := 0, horiz := 0, ra_2000_deg := 0, dec_2000 := 0, sid_time := 0,
    coord_year := coord_year, ra_hr := ra_hr, ra_min := ra_min, ra_sec := ra_sec,
    dec_deg := dec_deg, dec_min := dec_min, Julian := 0, Julian_0hrUT := 0, tm_hr := 0,
    tm_min := 0, tm_sec := 0, dt_year := 0, dt_mon := 0, dt_day := 0,
    timezone := 0, daysav := 0 }

/-- Every recorded divisor is the value it had before the zero test, with
zero replaced by `NEXT_TO_NOTHING`. -/
def all_guarded (l : List (K × K)) : Prop := ∀ e ∈ l, e.2 = guard_zero e.1

/-- The transform calls. -/
def Call.is_transform : Call → Bool
  | Call.calc_scope => true
  | Call.calc_equat => true
  | _ => false

/-- The calibration calls that write the arrays. -/
def Call.is_calibration : Call → Bool
  | Call.reinit_arrays => true
  | Call.init_arrays _ => true
  | _ => false

/-- The last calibration calls of a record are `reinit_arrays`,
`init_arrays(INIT1)`, `init_arrays(INIT2)`, in that order. -/
def calibrated (l : List (Call × ℤ)) : Prop :=
  ∃ pre, (l.map Prod.fst).filter Call.is_calibration =
    pre ++ [Call.reinit_arrays, Call.init_arrays INIT1, Call.init_arrays INIT2]

/-- Every transform call of a record was made with `init_flag = YES` and after
a complete calibration. -/
def gated (l : List (Call × ℤ)) : Prop :=
  ∀ pre c rest, l = pre ++ c :: rest → c.1.is_transform = true →
    c.2 = YES ∧ calibrated pre

/-- The invariant of the menu loop: the flag is `NO` or `YES`, the record is
gated, and with the flag at `YES` the record is calibrated. -/
def menu_inv (s : Session K) : Prop :=
  (s.init_flag = NO ∨ s.init_flag = YES) ∧ gated s.calls ∧
    (s.init_flag = YES → calibrated s.calls)

/-- One pass of the menu loop without real-time samples: the selection, the
answer to `check_init`, the offsets and the positions entered. -/
def menu_op (select response : ℤ) (Z1 Z2 Z3 : K) (init1 init2 entered : pos_struct K) :
    Operator K :=
  { select := select, response := response, Z1 := Z1, Z2 := Z2, Z3 := Z3,
    init1 := init1, init2 := init2, entered := entered, F := 0, H := 0,
    run_real_time_flag := 0, samples := [] }

/-- The block of rows and columns 1..3 of an array, as a 3 x 3 matrix. -/
def block3 (A : Mat K) : Matrix (Fin 3) (Fin 3) K :=
  Matrix.of fun i j => A i.succ j.succ

/-- The sum of the squares of the entries 1..3 of column `k`. -/
def col_norm_sq (A : Mat K) (k : Fin 4) : K := A 1 k ^ 2 + A 2 k ^ 2 + A 3 k ^ 2

/-- The arrays holding the vector `(x, y, z)` in `Y[1..3][1]`, every other
entry 0. -/
def vector_arrays (x y z : K) : Arrays K :=
  { Q := fun _ _ => 0, V := fun _ _ => 0, R := fun _ _ => 0, X := fun _ _ => 0,
    Y := fun i j =>
      if j = 1 then (if i = 1 then x else if i = 2 then y else if i = 3 then z else 0)
      else 0 }

/-- The arrays with the identity in the 1..3 blocks of `R` and `Q`, every
other entry 0. -/
def identity_arrays : Arrays K :=
  { Q := fun i j => if i = j ∧ i ≠ 0 then 1 else 0, V := fun _ _ => 0,
    R := fun i j => if i = j ∧ i ≠ 0 then 1 else 0, X := fun _ _ => 0,
    Y := fun _ _ => 0 }

/-- Reference leap test, the standard Gregorian rule: 1 for a year divisible
by 4 that is not divisible by 100 or is divisible by 400, else 0. -/
def gregorian_leap (year : ℤ) : ℤ :=
  if year % 4 = 0 ∧ (year % 100 ≠ 0 ∨ year % 400 = 0) then 1 else 0

/-- Reference length of a month of the Gregorian calendar. -/
def gregorian_days (year mon : ℤ) : ℤ :=
  DAYS_at (mon - 1) + (if mon = 2 then gregorian_leap year else 0)

/-- Reference next day of the Gregorian calendar. -/
def gregorian_next_day (year mon day : ℤ) : ℤ × ℤ × ℤ :=
  if day < gregorian_days year mon then (year, mon, day + 1)
  else if mon < 12 then (year, mon + 1, 1)
  else (year + 1, 1, 1)

/-- A universal time with an integer calendar date. -/
def date_time (year mon day : ℤ) (hr mn sec : K) : time_date K :=
  { year := year, mon := mon, day := day, hr := hr, min := mn, sec := sec }

/-- Reference sum of the sidereal time before reduction, in the words of the
specification: the polynomial in centuries since JD 2415020 plus the sidereal
hours elapsed since 0h UT. -/
def sidereal_sum (UT : time_date K) (pos : pos_struct K) : K :=
  6.6460656 + 2400.051262 * ((pos.Julian_0hrUT - 2415020) / 36525) +
    0.00002581 * ((pos.Julian_0hrUT - 2415020) / 36525) ^ 2 +
    1.002737908 * (UT.hr + UT.min / 60 + UT.sec / 3600)

/-- The sum `B + C + D` of `Julian` for a date after 1582 with integer year
and month, in integer arithmetic: `365.25 = 1461/4` and
`30.6001 = 306001/10000`. -/
def julian_count (year mon : ℤ) : ℤ :=
  let Y := if mon ≤ 2 then year - 1 else year
  let M := if mon ≤ 2 then mon + 12 else mon
  2 - Y / 100 + Y / 100 / 4 + 1461 * Y / 4 + 306001 * (M + 1) / 10000

end Model

/-! ## Lemmas on conversions and loops -/

section Lemmas

variable {K : Type} [LinearOrderedField K] [FloorRing K]

theorem truncate_intCast (n : ℤ) : truncate (n : K) = n := by
  unfold truncate
  split_ifs <;> simp

theorem truncate_eq_of_nonneg (x : K) (n : ℤ) (h0 : 0 ≤ x) (h1 : (n : K) ≤ x)
    (h2 : x < (n : K) + 1) : truncate x = n := by
  unfold truncate
  rw [if_pos h0, Int.floor_eq_iff]
  exact ⟨h1, h2⟩

theorem while_ge_sub_of_lt (b : K) (n : ℕ) (x : K) (h : x < b) :
    while_ge_sub b n x = x := by
  cases n with
  | zero => rfl
  | succ k => simp [while_ge_sub, not_le.mpr h]

theorem while_ge_sub_range (b : K) (hb : 0 < b) (n : ℕ) :
    ∀ x : K, 0 ≤ x → x < b * (n + 1) →
      0 ≤ while_ge_sub b n x ∧ while_ge_sub b n x < b := by
  induction n with
  | zero =>
    intro x h0 h1
    simp only [while_ge_sub]
    exact ⟨h0, by simpa using h1⟩
  | succ k ih =>
    intro x h0 h1
    simp only [while_ge_sub]
    split_ifs with hx
    · apply ih
      · exact sub_nonneg.mpr hx
      · push_cast at h1
        linarith
    · exact ⟨h0, not_le.mp hx⟩

theorem lt_mul_loop_fuel_succ (b : K) (hb : 0 < b) (x : K) :
    x < b * ((loop_fuel b x : ℕ) + 1) := by
  unfold loop_fuel
  have h1 : |x| / b ≤ (⌈|x| / b⌉ : K) := Int.le_ceil _
  have h2 : (0 : ℤ) ≤ ⌈|x| / b⌉ := Int.ceil_nonneg (div_nonneg (abs_nonneg x) hb.le)
  have h3 : ((⌈|x| / b⌉.toNat : ℕ) : K) = (⌈|x| / b⌉ : K) := by
    have := Int.toNat_of_nonneg h2
    exact_mod_cast this
  rw [h3]
  have h4 : |x| ≤ b * (⌈|x| / b⌉ : K) := by
    have := (div_le_iff₀ hb).mp h1
    linarith
  have h5 : x ≤ |x| := le_abs_self x
  linarith

end Lemmas

/-! ## Normalisation loops: lemmas -/

section LoopLemmas

variable {K : Type} [LinearOrderedField K] [FloorRing K]

theorem while_gt_sub_of_le (b : K) (n : ℕ) (x : K) (h : x ≤ b) :
    while_gt_sub b n x = x := by
  cases n with
  | zero => rfl
  | succ k => simp [while_gt_sub, not_lt.mpr h]

theorem while_neg_add_of_nonneg (b : K) (n : ℕ) (x : K) (h : 0 ≤ x) :
    while_neg_add b n x = x := by
  cases n with
  | zero => rfl
  | succ k => simp [while_neg_add, not_lt.mpr h]

/-- The subtracting loop ends at a value `x - k * b` in `(0, b]` when it starts
above `b`, and leaves other values unchanged. -/
theorem while_gt_sub_spec (b : K) (hb : 0 < b) (n : ℕ) :
    ∀ x : K, x ≤ b * (n + 1) →
      while_gt_sub b n x ≤ b ∧ (0 ≤ x → 0 ≤ while_gt_sub b n x) ∧
      ∃ k : ℤ, while_gt_sub b n x = x + b * k := by
  induction n with
  | zero =>
    intro x h1
    simp only [while_gt_sub]
    refine ⟨by simpa using h1, fun h => h, 0, by simp⟩
  | succ k ih =>
    intro x h1
    simp only [while_gt_sub]
    split_ifs with hx
    · have h2 : x - b ≤ b * (k + 1) := by
        push_cast at h1
        linarith
      obtain ⟨i1, i2, j, hj⟩ := ih (x - b) h2
      refine ⟨i1, fun _ => i2 (by linarith), j - 1, ?_⟩
      rw [hj]
      push_cast
      ring
    · exact ⟨not_lt.mp hx, fun h => h, 0, by simp⟩

/-- The adding loop ends at a value `x + k * b` in `[0, b)` when it starts
below 0, and leaves other values unchanged. -/
theorem while_neg_add_spec (b : K) (hb : 0 < b) (n : ℕ) :
    ∀ x : K, -(b * n) ≤ x →
      0 ≤ while_neg_add b n x ∧ (x < 0 → while_neg_add b n x < b) ∧
      (0 ≤ x → while_neg_add b n x = x) ∧
      ∃ k : ℤ, while_neg_add b n x = x + b * k := by
  induction n with
  | zero =>
    intro x h1
    have e : while_neg_add b 0 x = x := rfl
    rw [e]
    have : 0 ≤ x := by simpa using h1
    exact ⟨this, fun h => absurd h (not_lt.mpr this), fun _ => rfl, 0, by simp⟩
  | succ k ih =>
    intro x h1
    have e : while_neg_add b (k + 1) x = if x < 0 then while_neg_add b k (x + b) else x := rfl
    rw [e]
    split_ifs with hx
    · have h2 : -(b * k) ≤ x + b := by
        push_cast at h1
        linarith
      obtain ⟨i1, i2, i3, j, hj⟩ := ih (x + b) h2
      refine ⟨i1, fun _ => ?_, fun h => absurd hx (not_lt.mpr h), j + 1, ?_⟩
      · by_cases hxb : x + b < 0
        · exact i2 hxb
        · rw [i3 (not_lt.mp hxb)]
          linarith
      · rw [hj]
        push_cast
        ring
    · exact ⟨not_lt.mp hx, fun h => absurd h hx, fun _ => rfl, 0, by simp⟩

theorem neg_mul_loop_fuel_le (b : K) (hb : 0 < b) (x : K) :
    -(b * (loop_fuel b x : ℕ)) ≤ x := by
  unfold loop_fuel
  have h1 : |x| / b ≤ (⌈|x| / b⌉ : K) := Int.le_ceil _
  have h2 : (0 : ℤ) ≤ ⌈|x| / b⌉ := Int.ceil_nonneg (div_nonneg (abs_nonneg x) hb.le)
  have h3 : ((⌈|x| / b⌉.toNat : ℕ) : K) = (⌈|x| / b⌉ : K) := by
    have := Int.toNat_of_nonneg h2
    exact_mod_cast this
  rw [h3]
  have h4 : |x| ≤ b * (⌈|x| / b⌉ : K) := by
    have := (div_le_iff₀ hb).mp h1
    linarith
  have h5 : -|x| ≤ x := neg_abs_le x
  linarith

/-- The two normalisation loops `while (F>b) F-=b; while (F<0) F+=b;` with the
fuel of the model end in `[0, b]`, at a value that differs from the start by a
multiple of `b`; the loops have then run to their exit. -/
theorem normalize_loops_spec (b : K) (hb : 0 < b) (x : K) :
    0 ≤ while_neg_add b (loop_fuel b (while_gt_sub b (loop_fuel b x) x))
        (while_gt_sub b (loop_fuel b x) x) ∧
    while_neg_add b (loop_fuel b (while_gt_sub b (loop_fuel b x) x))
        (while_gt_sub b (loop_fuel b x) x) ≤ b ∧
    ∃ k : ℤ, while_neg_add b (loop_fuel b (while_gt_sub b (loop_fuel b x) x))
        (while_gt_sub b (loop_fuel b x) x) = x + b * k := by
  obtain ⟨a1, a2, j, hj⟩ := while_gt_sub_spec b hb (loop_fuel b x) x
    (le_of_lt (lt_mul_loop_fuel_succ b hb x))
  obtain ⟨c1, c2, c3, l, hl⟩ := while_neg_add_spec b hb
    (loop_fuel b (while_gt_sub b (loop_fuel b x) x)) (while_gt_sub b (loop_fuel b x) x)
    (neg_mul_loop_fuel_le b hb _)
  refine ⟨c1, ?_, j + l, ?_⟩
  · by_cases h : while_gt_sub b (loop_fuel b x) x < 0
    · exact le_of_lt (c2 h)
    · rw [c3 (not_lt.mp h)]
      exact a1
  · rw [hl, hj]
    push_cast
    ring

/-- The normalisation ends in `[0, 360]` at a value congruent to its start
modulo 360. -/
theorem normalize_360_spec (x : K) :
    0 ≤ normalize_360 x ∧ normalize_360 x ≤ 360 ∧
    ∃ k : ℤ, normalize_360 x = x + 360 * k :=
  normalize_loops_spec 360 (by norm_num) x

/-- A value already in `[0, 360]` is left unchanged. -/
theorem normalize_360_of_range (x : K) (h0 : 0 ≤ x) (h1 : x ≤ 360) :
    normalize_360 x = x := by
  unfold normalize_360
  simp only
  rw [while_gt_sub_of_le _ _ _ h1]
  exact while_neg_add_of_nonneg _ _ _ h0

/-- On a start value in `(-360, 360)` the normalisation ends in `[0, 360)`. -/
theorem normalize_360_lt (x : K) (h1 : -360 < x) (h2 : x < 360) :
    0 ≤ normalize_360 x ∧ normalize_360 x < 360 := by
  unfold normalize_360
  simp only
  rw [while_gt_sub_of_le _ _ x h2.le]
  obtain ⟨c1, c2, c3, l, hl⟩ := while_neg_add_spec (360 : K) (by norm_num) (loop_fuel 360 x) x
    (neg_mul_loop_fuel_le 360 (by norm_num) _)
  refine ⟨c1, ?_⟩
  by_cases h : x < 0
  · exact c2 h
  · rw [c3 (not_lt.mp h)]
    exact h2

end LoopLemmas

/-! ## Calibration: stage lemmas -/

section Stages

variable {K : Type} [LinearOrderedField K] [FloorRing K]

theorem fin4_cases (i : Fin 4) (h : i ≠ 0) : i = 1 ∨ i = 2 ∨ i = 3 := by
  revert i; decide

theorem det3_col_unit (A : Mat K) :
    det3 (col_unit A 1 1) = A 2 2 * A 3 3 - A 2 3 * A 3 2 ∧
    det3 (col_unit A 1 2) = A 1 3 * A 3 2 - A 1 2 * A 3 3 ∧
    det3 (col_unit A 1 3) = A 1 2 * A 2 3 - A 1 3 * A 2 2 ∧
    det3 (col_unit A 2 1) = A 2 3 * A 3 1 - A 2 1 * A 3 3 ∧
    det3 (col_unit A 2 2) = A 1 1 * A 3 3 - A 1 3 * A 3 1 ∧
    det3 (col_unit A 2 3) = A 1 3 * A 2 1 - A 1 1 * A 2 3 ∧
    det3 (col_unit A 3 1) = A 2 1 * A 3 2 - A 2 2 * A 3 1 ∧
    det3 (col_unit A 3 2) = A 1 2 * A 3 1 - A 1 1 * A 3 2 ∧
    det3 (col_unit A 3 3) = A 1 1 * A 2 2 - A 1 2 * A 2 1 := by
  simp only [det3, col_unit]
  simp
  refine ⟨?_, ?_, ?_, ?_, ?_⟩ <;> ring

set_option maxHeartbeats 4000000 in
theorem invert_X_into_Q_Q (st : Arrays K) (M N : Fin 4) (hM : M ≠ 0) (hN : N ≠ 0) :
    (invert_X_into_Q st).Q M N = det3 (col_unit st.X M N) / guard_zero (det3 st.X) := by
  have hd : st.X 1 1 * st.X 2 2 * st.X 3 3 + st.X 1 2 * st.X 2 3 * st.X 3 1 +
      st.X 1 3 * st.X 3 2 * st.X 2 1 - st.X 1 3 * st.X 2 2 * st.X 3 1 -
      st.X 1 1 * st.X 3 2 * st.X 2 3 - st.X 1 2 * st.X 2 1 * st.X 3 3 = det3 st.X := by
    unfold det3; ring
  obtain ⟨h11, h12, h13, h21, h22, h23, h31, h32, h33⟩ := det3_col_unit st.X
  rcases fin4_cases M hM with rfl | rfl | rfl <;> rcases fin4_cases N hN with rfl | rfl | rfl
  all_goals
    simp [invert_X_into_Q, for3, copy_X_to_V, cramer_step, determinant_subr, Mat.set]
    rw [hd]
    simp only [h11, h12, h13, h21, h22, h23, h31, h32, h33, guard_zero]
    try (congr 1; ring)

theorem invert_X_into_Q_frame (st : Arrays K) :
    (invert_X_into_Q st).X = st.X ∧ (invert_X_into_Q st).Y = st.Y ∧
    (invert_X_into_Q st).R = st.R := by
  simp [invert_X_into_Q, for3, copy_X_to_V, cramer_step]

set_option maxRecDepth 100000 in
set_option maxHeartbeats 4000000 in
theorem invert_R_into_Q_Q (st : Arrays K) (M N : Fin 4) (hM : M ≠ 0) (hN : N ≠ 0) :
    (invert_R_into_Q st).Q M N = det3 (col_unit st.R M N) / guard_zero (det3 st.R) := by
  have hd : st.R 1 1 * st.R 2 2 * st.R 3 3 + st.R 1 2 * st.R 2 3 * st.R 3 1 +
      st.R 1 3 * st.R 3 2 * st.R 2 1 - st.R 1 3 * st.R 2 2 * st.R 3 1 -
      st.R 1 1 * st.R 3 2 * st.R 2 3 - st.R 1 2 * st.R 2 1 * st.R 3 3 = det3 st.R := by
    unfold det3; ring
  obtain ⟨h11, h12, h13, h21, h22, h23, h31, h32, h33⟩ := det3_col_unit st.R
  rcases fin4_cases M hM with rfl | rfl | rfl <;> rcases fin4_cases N hN with rfl | rfl | rfl
  all_goals
    simp [invert_R_into_Q, for3, copy_R_to_V, cramer_step, determinant_subr, Mat.set]
    rw [hd]
    simp only [h11, h12, h13, h21, h22, h23, h31, h32, h33, guard_zero]
    try (congr 1; ring)

set_option maxRecDepth 100000 in
theorem invert_R_into_Q_frame (st : Arrays K) :
    (invert_R_into_Q st).X = st.X ∧ (invert_R_into_Q st).Y = st.Y ∧
    (invert_R_into_Q st).R = st.R := by
  simp [invert_R_into_Q, for3, copy_R_to_V, cramer_step]

set_option maxHeartbeats 4000000 in
theorem mult_Y_Q_into_R_R (st : Arrays K) (I J : Fin 4) (hI : I ≠ 0) (hJ : J ≠ 0) :
    (mult_Y_Q_into_R st).R I J =
      st.Y I 1 * st.Q 1 J + st.Y I 2 * st.Q 2 J + st.Y I 3 * st.Q 3 J := by
  rcases fin4_cases I hI with rfl | rfl | rfl <;> rcases fin4_cases J hJ with rfl | rfl | rfl
  all_goals
    simp [mult_Y_Q_into_R, for3, Mat.set]

theorem mult_Y_Q_into_R_frame (st : Arrays K) :
    (mult_Y_Q_into_R st).X = st.X ∧ (mult_Y_Q_into_R st).Y = st.Y ∧
    (mult_Y_Q_into_R st).Q = st.Q := by
  simp [mult_Y_Q_into_R, for3]

theorem third_axis_X_col3 (m : Libm K) (st : Arrays K) (i : Fin 4) (hi : i ≠ 0) :
    (third_axis_X m st).X i 3 =
      cross3 (col st.X 1) (col st.X 2) i /
        guard_zero (m.sqrt (cross3 (col st.X 1) (col st.X 2) 1 ^ 2 +
          cross3 (col st.X 1) (col st.X 2) 2 ^ 2 + cross3 (col st.X 1) (col st.X 2) 3 ^ 2)) := by
  rcases fin4_cases i hi with rfl | rfl | rfl <;>
    simp [third_axis_X, for3, Mat.set, cross3, col, guard_zero]

theorem third_axis_X_frame (m : Libm K) (st : Arrays K) :
    (∀ a b : Fin 4, b ≠ 3 → (third_axis_X m st).X a b = st.X a b) ∧
    (third_axis_X m st).Y = st.Y := by
  constructor
  · intro a b hb
    simp [third_axis_X, for3, Mat.set, hb]
  · simp [third_axis_X, for3]

theorem third_axis_Y_col3 (m : Libm K) (st : Arrays K) (i : Fin 4) (hi : i ≠ 0) :
    (third_axis_Y m st).Y i 3 =
      cross3 (col st.Y 1) (col st.Y 2) i /
        guard_zero (m.sqrt (cross3 (col st.Y 1) (col st.Y 2) 1 ^ 2 +
          cross3 (col st.Y 1) (col st.Y 2) 2 ^ 2 + cross3 (col st.Y 1) (col st.Y 2) 3 ^ 2)) := by
  rcases fin4_cases i hi with rfl | rfl | rfl <;>
    simp [third_axis_Y, for3, Mat.set, cross3, col, guard_zero]

theorem third_axis_Y_frame (m : Libm K) (st : Arrays K) :
    (∀ a b : Fin 4, b ≠ 3 → (third_axis_Y m st).Y a b = st.Y a b) ∧
    (third_axis_Y m st).X = st.X := by
  constructor
  · intro a b hb
    simp [third_axis_Y, for3, Mat.set, hb]
  · simp [third_axis_Y, for3]

theorem store_slot_X (m : Libm K) (rad : K) (init : Fin 4) (pos : pos_struct K)
    (Z1 Z2 Z3 : K) (st : Arrays K) :
    (∀ i : Fin 4, i ≠ 0 →
      (store_slot m rad init pos Z1 Z2 Z3 st).X i init = equat_vector m rad pos i) ∧
    (∀ a b : Fin 4, b ≠ init → (store_slot m rad init pos Z1 Z2 Z3 st).X a b = st.X a b) := by
  constructor
  · intro i hi
    rcases fin4_cases i hi with rfl | rfl | rfl <;>
      simp [store_slot, subr_750, Mat.set, equat_vector]
  · intro a b hb
    simp [store_slot, subr_750, Mat.set, hb]

theorem store_slot_Y (m : Libm K) (rad : K) (init : Fin 4) (pos : pos_struct K)
    (Z1 Z2 Z3 : K) (st : Arrays K) (hinit : init ≠ 0) :
    (∀ i : Fin 4, i ≠ 0 →
      (store_slot m rad init pos Z1 Z2 Z3 st).Y i init = mount_vector m rad pos Z1 Z2 Z3 i) ∧
    (∀ a b : Fin 4, b ≠ init → b ≠ 0 →
      (store_slot m rad init pos Z1 Z2 Z3 st).Y a b = st.Y a b) := by
  constructor
  · intro i hi
    rcases fin4_cases i hi with rfl | rfl | rfl <;>
      simp [store_slot, subr_750, Mat.set, mount_vector, hinit, Ne.symm hinit]
  · intro a b hb hb0
    simp [store_slot, subr_750, Mat.set, hb, hb0]

theorem init_arrays_INIT1 (m : Libm K) (rad : K) (pos : pos_struct K)
    (Z1 Z2 Z3 : K) (st : Arrays K) :
    init_arrays m rad INIT1 pos Z1 Z2 Z3 st = store_slot m rad INIT1 pos Z1 Z2 Z3 st := by
  unfold init_arrays
  simp [INIT1, INIT2]

theorem init_arrays_INIT2 (m : Libm K) (rad : K) (pos : pos_struct K)
    (Z1 Z2 Z3 : K) (st : Arrays K) :
    init_arrays m rad INIT2 pos Z1 Z2 Z3 st =
      invert_R_into_Q (mult_Y_Q_into_R (invert_X_into_Q
        (third_axis_Y m (third_axis_X m (store_slot m rad INIT2 pos Z1 Z2 Z3 st))))) := by
  unfold init_arrays
  simp

/-- What the two calls of `init_arrays` leave in the arrays. -/
theorem init_arrays_summary (m : Libm K) (rad : K) (pos1 pos2 : pos_struct K)
    (Z1 Z2 Z3 : K) (st0 : Arrays K) (s : Arrays K)
    (hs : s = init_arrays m rad INIT2 pos2 Z1 Z2 Z3
        (init_arrays m rad INIT1 pos1 Z1 Z2 Z3 st0)) :
    (∀ i : Fin 4, i ≠ 0 → s.X i 1 = equat_vector m rad pos1 i) ∧
    (∀ i : Fin 4, i ≠ 0 → s.X i 2 = equat_vector m rad pos2 i) ∧
    (∀ i : Fin 4, i ≠ 0 → s.X i 3 =
      cross3 (equat_vector m rad pos1) (equat_vector m rad pos2) i /
        guard_zero (m.sqrt (
          cross3 (equat_vector m rad pos1) (equat_vector m rad pos2) 1 ^ 2 +
          cross3 (equat_vector m rad pos1) (equat_vector m rad pos2) 2 ^ 2 +
          cross3 (equat_vector m rad pos1) (equat_vector m rad pos2) 3 ^ 2))) ∧
    (∀ i : Fin 4, i ≠ 0 → s.Y i 1 = mount_vector m rad pos1 Z1 Z2 Z3 i) ∧
    (∀ i : Fin 4, i ≠ 0 → s.Y i 2 = mount_vector m rad pos2 Z1 Z2 Z3 i) ∧
    (∀ i : Fin 4, i ≠ 0 → s.Y i 3 =
      cross3 (mount_vector m rad pos1 Z1 Z2 Z3) (mount_vector m rad pos2 Z1 Z2 Z3) i /
        guard_zero (m.sqrt (
          cross3 (mount_vector m rad pos1 Z1 Z2 Z3) (mount_vector m rad pos2 Z1 Z2 Z3) 1 ^ 2 +
          cross3 (mount_vector m rad pos1 Z1 Z2 Z3) (mount_vector m rad pos2 Z1 Z2 Z3) 2 ^ 2 +
          cross3 (mount_vector m rad pos1 Z1 Z2 Z3) (mount_vector m rad pos2 Z1 Z2 Z3) 3 ^ 2))) ∧
    (∀ I J : Fin 4, I ≠ 0 → J ≠ 0 → s.R I J =
      s.Y I 1 * cramer_inverse s.X 1 J + s.Y I 2 * cramer_inverse s.X 2 J +
        s.Y I 3 * cramer_inverse s.X 3 J) ∧
    (∀ M N : Fin 4, M ≠ 0 → N ≠ 0 → s.Q M N = cramer_inverse s.R M N) := by
  rw [init_arrays_INIT2, init_arrays_INIT1] at hs
  -- the stages
  set s1 := store_slot m rad INIT1 pos1 Z1 Z2 Z3 st0 with hs1
  set s2 := store_slot m rad INIT2 pos2 Z1 Z2 Z3 s1 with hs2
  set s3 := third_axis_X m s2 with hs3
  set s4 := third_axis_Y m s3 with hs4
  set s5 := invert_X_into_Q s4 with hs5
  set s6 := mult_Y_Q_into_R s5 with hs6
  have h12 : (1 : Fin 4) ≠ INIT2 := by decide
  have h13 : (1 : Fin 4) ≠ 3 := by decide
  have h23 : (2 : Fin 4) ≠ 3 := by decide
  have h10 : (1 : Fin 4) ≠ 0 := by decide
  have h20 : (2 : Fin 4) ≠ 0 := by decide
  have h30 : (3 : Fin 4) ≠ 0 := by decide
  -- X and Y are the same from s4 on
  have hX : s.X = s4.X := by
    rw [hs, (invert_R_into_Q_frame s6).1, hs6, (mult_Y_Q_into_R_frame s5).1, hs5,
      (invert_X_into_Q_frame s4).1]
  have hY : s.Y = s4.Y := by
    rw [hs, (invert_R_into_Q_frame s6).2.1, hs6, (mult_Y_Q_into_R_frame s5).2.1, hs5,
      (invert_X_into_Q_frame s4).2.1]
  have hX4 : s4.X = s3.X := (third_axis_Y_frame m s3).2
  have hY3 : s3.Y = s2.Y := (third_axis_X_frame m s2).2
  have hx1 : ∀ i : Fin 4, i ≠ 0 → s2.X i 1 = equat_vector m rad pos1 i := by
    intro i hi
    rw [hs2, (store_slot_X m rad INIT2 pos2 Z1 Z2 Z3 s1).2 i 1 h12]
    exact (store_slot_X m rad INIT1 pos1 Z1 Z2 Z3 st0).1 i hi
  have hx2 : ∀ i : Fin 4, i ≠ 0 → s2.X i 2 = equat_vector m rad pos2 i :=
    (store_slot_X m rad INIT2 pos2 Z1 Z2 Z3 s1).1
  have hy1 : ∀ i : Fin 4, i ≠ 0 → s2.Y i 1 = mount_vector m rad pos1 Z1 Z2 Z3 i := by
    intro i hi
    rw [hs2, (store_slot_Y m rad INIT2 pos2 Z1 Z2 Z3 s1 (by decide)).2 i 1 h12 h10]
    exact (store_slot_Y m rad INIT1 pos1 Z1 Z2 Z3 st0 (by decide)).1 i hi
  have hy2 : ∀ i : Fin 4, i ≠ 0 → s2.Y i 2 = mount_vector m rad pos2 Z1 Z2 Z3 i :=
    (store_slot_Y m rad INIT2 pos2 Z1 Z2 Z3 s1 (by decide)).1
  have hcx : ∀ i : Fin 4, i ≠ 0 → cross3 (col s2.X 1) (col s2.X 2) i =
      cross3 (equat_vector m rad pos1) (equat_vector m rad pos2) i := by
    intro i hi
    simp only [cross3, col, hx1 1 h10, hx1 2 h20, hx1 3 h30, hx2 1 h10, hx2 2 h20, hx2 3 h30]
  have hcy : ∀ i : Fin 4, i ≠ 0 → cross3 (col s3.Y 1) (col s3.Y 2) i =
      cross3 (mount_vector m rad pos1 Z1 Z2 Z3) (mount_vector m rad pos2 Z1 Z2 Z3) i := by
    intro i hi
    simp only [cross3, col, hY3, hy1 1 h10, hy1 2 h20, hy1 3 h30, hy2 1 h10, hy2 2 h20,
      hy2 3 h30]
  refine ⟨?_, ?_, ?_, ?_, ?_, ?_, ?_, ?_⟩
  · intro i hi
    rw [hX, hX4, hs3, (third_axis_X_frame m s2).1 i 1 h13]
    exact hx1 i hi
  · intro i hi
    rw [hX, hX4, hs3, (third_axis_X_frame m s2).1 i 2 h23]
    exact hx2 i hi
  · intro i hi
    rw [hX, hX4, hs3, third_axis_X_col3 m s2 i hi, hcx i hi, hcx 1 h10, hcx 2 h20, hcx 3 h30]
  · intro i hi
    rw [hY, hs4, (third_axis_Y_frame m s3).1 i 1 h13, hY3]
    exact hy1 i hi
  · intro i hi
    rw [hY, hs4, (third_axis_Y_frame m s3).1 i 2 h23, hY3]
    exact hy2 i hi
  · intro i hi
    rw [hY, hs4, third_axis_Y_col3 m s3 i hi, hcy i hi, hcy 1 h10, hcy 2 h20, hcy 3 h30]
  · intro I J hI hJ
    have hR : s.R = s6.R := by rw [hs, (invert_R_into_Q_frame s6).2.2]
    rw [hR, hs6, mult_Y_Q_into_R_R s5 I J hI hJ, hY, hX]
    have hY5 : s5.Y = s4.Y := (invert_X_into_Q_frame s4).2.1
    rw [hY5, hs5, invert_X_into_Q_Q s4 1 J h10 hJ, invert_X_into_Q_Q s4 2 J h20 hJ,
      invert_X_into_Q_Q s4 3 J h30 hJ]
    rfl
  · intro M N hM hN
    have hR : s.R = s6.R := by rw [hs, (invert_R_into_Q_frame s6).2.2]
    rw [hR, hs, invert_R_into_Q_Q s6 M N hM hN]
    rfl

theorem guard_zero_of_ne (x : K) (h : x ≠ 0) : guard_zero x = x := by
  simp [guard_zero, h]

theorem guard_zero_ne_zero (x : K) : guard_zero x ≠ 0 := by
  unfold guard_zero NEXT_TO_NOTHING
  split_ifs with h
  · positivity
  · exact h

theorem cramer_inverse_mul (A : Mat K) (hA : det3 A ≠ 0) (i k : Fin 4) (hi : i ≠ 0)
    (hk : k ≠ 0) :
    cramer_inverse A i 1 * A 1 k + cramer_inverse A i 2 * A 2 k +
      cramer_inverse A i 3 * A 3 k = if i = k then 1 else 0 := by
  obtain ⟨h11, h12, h13, h21, h22, h23, h31, h32, h33⟩ := det3_col_unit A
  have hd : det3 A = A 1 1 * (A 2 2 * A 3 3 - A 2 3 * A 3 2) -
      A 1 2 * (A 2 1 * A 3 3 - A 2 3 * A 3 1) + A 1 3 * (A 2 1 * A 3 2 - A 2 2 * A 3 1) := rfl
  rcases fin4_cases i hi with rfl | rfl | rfl <;> rcases fin4_cases k hk with rfl | rfl | rfl
  all_goals
    simp only [cramer_inverse, guard_zero_of_ne _ hA, h11, h12, h13, h21, h22, h23, h31, h32,
      h33]
    simp
    field_simp
    try rw [hd]
    ring

theorem mul_cramer_inverse (A : Mat K) (hA : det3 A ≠ 0) (i k : Fin 4) (hi : i ≠ 0)
    (hk : k ≠ 0) :
    A i 1 * cramer_inverse A 1 k + A i 2 * cramer_inverse A 2 k +
      A i 3 * cramer_inverse A 3 k = if i = k then 1 else 0 := by
  obtain ⟨h11, h12, h13, h21, h22, h23, h31, h32, h33⟩ := det3_col_unit A
  have hd : det3 A = A 1 1 * (A 2 2 * A 3 3 - A 2 3 * A 3 2) -
      A 1 2 * (A 2 1 * A 3 3 - A 2 3 * A 3 1) + A 1 3 * (A 2 1 * A 3 2 - A 2 2 * A 3 1) := rfl
  rcases fin4_cases i hi with rfl | rfl | rfl <;> rcases fin4_cases k hk with rfl | rfl | rfl
  all_goals
    simp only [cramer_inverse, guard_zero_of_ne _ hA, h11, h12, h13, h21, h22, h23, h31, h32,
      h33]
    simp
    field_simp
    try rw [hd]
    ring

theorem det3_mul (A B C : Mat K)
    (h : ∀ i k : Fin 4, i ≠ 0 → k ≠ 0 → C i k = A i 1 * B 1 k + A i 2 * B 2 k + A i 3 * B 3 k) :
    det3 C = det3 A * det3 B := by
  have h10 : (1 : Fin 4) ≠ 0 := by decide
  have h20 : (2 : Fin 4) ≠ 0 := by decide
  have h30 : (3 : Fin 4) ≠ 0 := by decide
  simp only [det3, h 1 1 h10 h10, h 1 2 h10 h20, h 1 3 h10 h30, h 2 1 h20 h10, h 2 2 h20 h20,
    h 2 3 h20 h30, h 3 1 h30 h10, h 3 2 h30 h20, h 3 3 h30 h30]
  ring

theorem det3_cramer_inverse_ne_zero (A : Mat K) (hA : det3 A ≠ 0) :
    det3 (cramer_inverse A) ≠ 0 := by
  have h := det3_mul (cramer_inverse A) A (fun i k => if i = k then 1 else 0)
    (fun i k hi hk => (cramer_inverse_mul A hA i k hi hk).symm)
  have h1 : det3 (fun i k : Fin 4 => if i = k then (1 : K) else 0) = 1 := by
    simp [det3]
  rw [h1] at h
  intro h0
  rw [h0, zero_mul] at h
  exact one_ne_zero h

end Stages

/-! ## Calibration over the reals: lemmas -/

section RealCal

theorem equat_vector_unit (rad : ℝ) (pos : pos_struct ℝ) :
    equat_vector realLibm rad pos 1 ^ 2 + equat_vector realLibm rad pos 2 ^ 2 +
      equat_vector realLibm rad pos 3 ^ 2 = 1 := by
  simp only [equat_vector, realLibm]
  simp
  have h1 := Real.sin_sq_add_cos_sq (pos.dec_2000 / rad)
  have h2 := Real.sin_sq_add_cos_sq ((pos.ra_2000_deg - 15 * pos.sid_time) / rad)
  nlinarith [h1, h2]

theorem equat_vector_zero (m : Libm ℝ) (rad : ℝ) (pos : pos_struct ℝ) :
    equat_vector m rad pos 0 = 0 := by
  simp [equat_vector]

/-- Two unit vectors that are neither equal nor opposite have a nonzero cross
product. -/
theorem cross3_sq_pos_of_unit (a b : Fin 4 → ℝ) (ha0 : a 0 = 0) (hb0 : b 0 = 0)
    (ha : a 1 ^ 2 + a 2 ^ 2 + a 3 ^ 2 = 1) (hb : b 1 ^ 2 + b 2 ^ 2 + b 3 ^ 2 = 1)
    (hne : a ≠ b) (hanti : a ≠ -b) :
    0 < cross3 a b 1 ^ 2 + cross3 a b 2 ^ 2 + cross3 a b 3 ^ 2 := by
  by_contra hcon
  have hnn : 0 ≤ cross3 a b 1 ^ 2 + cross3 a b 2 ^ 2 + cross3 a b 3 ^ 2 := by positivity
  have hz : cross3 a b 1 ^ 2 + cross3 a b 2 ^ 2 + cross3 a b 3 ^ 2 = 0 :=
    le_antisymm (not_lt.mp hcon) hnn
  have hc : cross3 a b 1 ^ 2 + cross3 a b 2 ^ 2 + cross3 a b 3 ^ 2 =
      (a 1 ^ 2 + a 2 ^ 2 + a 3 ^ 2) * (b 1 ^ 2 + b 2 ^ 2 + b 3 ^ 2) -
        (a 1 * b 1 + a 2 * b 2 + a 3 * b 3) ^ 2 := by
    simp [cross3]
    ring
  rw [hz, ha, hb] at hc
  have hd : (a 1 * b 1 + a 2 * b 2 + a 3 * b 3 - 1) * (a 1 * b 1 + a 2 * b 2 + a 3 * b 3 + 1) = 0 := by
    linarith
  have sq3 : ∀ x y z : ℝ, x ^ 2 + y ^ 2 + z ^ 2 = 0 → x = 0 ∧ y = 0 ∧ z = 0 := by
    intro x y z hxyz
    have hx := sq_nonneg x
    have hy := sq_nonneg y
    have hz := sq_nonneg z
    refine ⟨?_, ?_, ?_⟩ <;> apply pow_eq_zero_iff (two_ne_zero) |>.mp <;> linarith
  rcases mul_eq_zero.mp hd with h | h
  · apply hne
    have hs : (a 1 - b 1) ^ 2 + (a 2 - b 2) ^ 2 + (a 3 - b 3) ^ 2 = 0 := by
      have e : (a 1 - b 1) ^ 2 + (a 2 - b 2) ^ 2 + (a 3 - b 3) ^ 2 =
          (a 1 ^ 2 + a 2 ^ 2 + a 3 ^ 2) + (b 1 ^ 2 + b 2 ^ 2 + b 3 ^ 2) -
            2 * (a 1 * b 1 + a 2 * b 2 + a 3 * b 3) := by ring
      rw [e, ha, hb]
      linarith
    obtain ⟨h1, h2, h3⟩ := sq3 _ _ _ hs
    funext i
    by_cases hi : i = 0
    · rw [hi, ha0, hb0]
    · rcases fin4_cases i hi with rfl | rfl | rfl <;> linarith
  · apply hanti
    have hs : (a 1 + b 1) ^ 2 + (a 2 + b 2) ^ 2 + (a 3 + b 3) ^ 2 = 0 := by
      have e : (a 1 + b 1) ^ 2 + (a 2 + b 2) ^ 2 + (a 3 + b 3) ^ 2 =
          (a 1 ^ 2 + a 2 ^ 2 + a 3 ^ 2) + (b 1 ^ 2 + b 2 ^ 2 + b 3 ^ 2) +
            2 * (a 1 * b 1 + a 2 * b 2 + a 3 * b 3) := by ring
      rw [e, ha, hb]
      linarith
    obtain ⟨h1, h2, h3⟩ := sq3 _ _ _ hs
    funext i
    by_cases hi : i = 0
    · rw [hi, Pi.neg_apply, ha0, hb0, neg_zero]
    · rcases fin4_cases i hi with rfl | rfl | rfl <;> simp only [Pi.neg_apply] <;> linarith

/-- A matrix whose third column is the normalised cross product of the first
two has determinant equal to the norm of the cross product. -/
theorem det3_of_third_axis (A : Mat ℝ) (a b : Fin 4 → ℝ)
    (h1 : ∀ i : Fin 4, i ≠ 0 → A i 1 = a i) (h2 : ∀ i : Fin 4, i ≠ 0 → A i 2 = b i)
    (h3 : ∀ i : Fin 4, i ≠ 0 → A i 3 = cross3 a b i /
      guard_zero (realLibm.sqrt (cross3 a b 1 ^ 2 + cross3 a b 2 ^ 2 + cross3 a b 3 ^ 2)))
    (hpos : 0 < cross3 a b 1 ^ 2 + cross3 a b 2 ^ 2 + cross3 a b 3 ^ 2) :
    det3 A ≠ 0 := by
  have h10 : (1 : Fin 4) ≠ 0 := by decide
  have h20 : (2 : Fin 4) ≠ 0 := by decide
  have h30 : (3 : Fin 4) ≠ 0 := by decide
  have e1 : cross3 a b 1 = a 2 * b 3 - a 3 * b 2 := by simp [cross3]
  have e2 : cross3 a b 2 = a 3 * b 1 - a 1 * b 3 := by simp [cross3]
  have e3 : cross3 a b 3 = a 1 * b 2 - a 2 * b 1 := by simp [cross3]
  have hsq : 0 < Real.sqrt (cross3 a b 1 ^ 2 + cross3 a b 2 ^ 2 + cross3 a b 3 ^ 2) :=
    Real.sqrt_pos.mpr hpos
  have hmul := Real.mul_self_sqrt hpos.le
  have hg : guard_zero (realLibm.sqrt (cross3 a b 1 ^ 2 + cross3 a b 2 ^ 2 + cross3 a b 3 ^ 2))
      = Real.sqrt (cross3 a b 1 ^ 2 + cross3 a b 2 ^ 2 + cross3 a b 3 ^ 2) :=
    guard_zero_of_ne _ hsq.ne'
  rw [hg] at h3
  revert hsq hmul h3
  generalize Real.sqrt (cross3 a b 1 ^ 2 + cross3 a b 2 ^ 2 + cross3 a b 3 ^ 2) = s
  intro h3 hsq hmul
  have hdet : det3 A * s = cross3 a b 1 ^ 2 + cross3 a b 2 ^ 2 + cross3 a b 3 ^ 2 := by
    simp only [det3, h1 1 h10, h1 2 h20, h1 3 h30, h2 1 h10, h2 2 h20, h2 3 h30,
      h3 1 h10, h3 2 h20, h3 3 h30, e1, e2, e3]
    field_simp
    ring
  intro h0
  rw [h0, zero_mul] at hdet
  exact hpos.ne hdet

end RealCal

/-! ## Angle decoding: lemmas -/

section AngleLemmas

theorem loop_fuel_1000 : loop_fuel (360 : ℝ) 1000 = 3 := by
  unfold loop_fuel
  have h : ⌈|(1000 : ℝ)| / 360⌉ = 3 := by
    rw [Int.ceil_eq_iff]
    rw [abs_of_pos (by norm_num)]
    norm_num
  rw [h]
  rfl

/-- Normalisation of the value 1000 gives 280. -/
theorem normalize_1000 : normalize_360 (1000 : ℝ) = 280 := by
  have h : while_gt_sub (360 : ℝ) (loop_fuel (360 : ℝ) 1000) 1000 = 280 := by
    rw [loop_fuel_1000]
    simp only [while_gt_sub]
    norm_num
  unfold normalize_360
  simp only
  rw [h]
  exact while_neg_add_of_nonneg _ _ _ (by norm_num)

/-- On the pole axis (`Y[1][1] = Y[2][1] = 0`) `angle_subr` returns azimuth
280, the value 1000 after the normalisation loops, and elevation 90, -90 or the
incoming value according to the sign of `Y[3][1]`. -/
theorem angle_subr_pole (rad : ℝ) (st : Arrays ℝ) (F H : ℝ)
    (hx : st.Y 1 1 = 0) (hy : st.Y 2 1 = 0) :
    angle_subr realLibm rad st F H =
      (280, if st.Y 3 1 > 0 then 90 else if st.Y 3 1 < 0 then -90 else H) := by
  simp only [angle_subr, realLibm, hx, hy]
  simp [normalize_1000]

/-- Off the pole axis the elevation returned is `atan (z / sqrt (x^2 + y^2))`
in degrees. -/
theorem angle_subr_elev (rad : ℝ) (st : Arrays ℝ) (F H : ℝ)
    (hxy : st.Y 1 1 ≠ 0 ∨ st.Y 2 1 ≠ 0) :
    (angle_subr realLibm rad st F H).2 =
      Real.arctan (st.Y 3 1 / Real.sqrt (st.Y 1 1 ^ 2 + st.Y 2 1 ^ 2)) * rad := by
  have hpos : 0 < st.Y 1 1 ^ 2 + st.Y 2 1 ^ 2 := by
    rcases hxy with h | h
    · have := pow_pos (abs_pos.mpr h) 2
      rw [sq_abs] at this
      positivity
    · have := pow_pos (abs_pos.mpr h) 2
      rw [sq_abs] at this
      positivity
  have hC : Real.sqrt (st.Y 1 1 ^ 2 + st.Y 2 1 ^ 2) ≠ 0 := (Real.sqrt_pos.mpr hpos).ne'
  simp only [angle_subr, realLibm]
  rw [if_neg hC]

theorem angle_subr_azimuth (rad : ℝ) (st : Arrays ℝ) (F H : ℝ)
    (hxy : st.Y 1 1 ≠ 0 ∨ st.Y 2 1 ≠ 0) :
    (angle_subr realLibm rad st F H).1 =
      normalize_360 (raw_azimuth realLibm rad (st.Y 1 1) (st.Y 2 1)) := by
  have hpos : 0 < st.Y 1 1 ^ 2 + st.Y 2 1 ^ 2 := by
    rcases hxy with h | h
    · have := pow_pos (abs_pos.mpr h) 2
      rw [sq_abs] at this
      positivity
    · have := pow_pos (abs_pos.mpr h) 2
      rw [sq_abs] at this
      positivity
  have hC : Real.sqrt (st.Y 1 1 ^ 2 + st.Y 2 1 ^ 2) ≠ 0 := (Real.sqrt_pos.mpr hpos).ne'
  have hraw : (if st.Y 1 1 > 0 then Real.arctan (st.Y 2 1 / st.Y 1 1) * rad
      else if st.Y 1 1 < 0 then Real.arctan (st.Y 2 1 / st.Y 1 1) * rad + 180
      else if Real.sqrt (st.Y 1 1 ^ 2 + st.Y 2 1 ^ 2) ≠ 0 ∧ st.Y 1 1 = 0 then
        (if st.Y 2 1 > 0 then 90 else if st.Y 2 1 < 0 then 270
          else if Real.sqrt (st.Y 1 1 ^ 2 + st.Y 2 1 ^ 2) = 0 then 1000 else F)
      else if Real.sqrt (st.Y 1 1 ^ 2 + st.Y 2 1 ^ 2) = 0 then 1000 else F) =
      raw_azimuth realLibm rad (st.Y 1 1) (st.Y 2 1) := by
    simp only [raw_azimuth, realLibm]
    by_cases h1 : st.Y 1 1 > 0
    · rw [if_pos h1, if_pos h1]
    · rw [if_neg h1, if_neg h1]
      by_cases h2 : st.Y 1 1 < 0
      · rw [if_pos h2, if_pos h2]
      · rw [if_neg h2, if_neg h2]
        have hx0 : st.Y 1 1 = 0 := le_antisymm (not_lt.mp h1) (not_lt.mp h2)
        have hy0 : st.Y 2 1 ≠ 0 := by
          rcases hxy with h | h
          · exact absurd hx0 h
          · exact h
        rw [if_pos ⟨hC, hx0⟩]
        by_cases h3 : st.Y 2 1 > 0
        · rw [if_pos h3, if_pos h3]
        · rw [if_neg h3, if_neg h3]
          have h4 : st.Y 2 1 < 0 := lt_of_le_of_ne (not_lt.mp h3) hy0
          rw [if_pos h4]
  simp only [angle_subr, realLibm]
  rw [hraw]
  rfl

end AngleLemmas

/-! ## Angle decoding with RADIAN = 180/pi: lemmas -/

section DecodeTrig

theorem cos_sin_arctan_div (x y : ℝ) (hx : 0 < x) :
    Real.cos (Real.arctan (y / x)) = x / Real.sqrt (x ^ 2 + y ^ 2) ∧
    Real.sin (Real.arctan (y / x)) = y / Real.sqrt (x ^ 2 + y ^ 2) := by
  have hpos : 0 < x ^ 2 + y ^ 2 := by positivity
  have hs : Real.sqrt (1 + (y / x) ^ 2) = Real.sqrt (x ^ 2 + y ^ 2) / x := by
    rw [Real.sqrt_eq_iff_mul_self_eq (by positivity) (by positivity)]
    rw [div_mul_div_comm, Real.mul_self_sqrt hpos.le]
    have hx0 : x ≠ 0 := hx.ne'
    rw [eq_div_iff (mul_ne_zero hx0 hx0), div_pow, add_mul, div_mul_eq_mul_div,
      mul_div_assoc, ← pow_two x, div_self (pow_ne_zero 2 hx0)]
    ring
  have hr : 0 < Real.sqrt (x ^ 2 + y ^ 2) := Real.sqrt_pos.mpr hpos
  rw [Real.cos_arctan, Real.sin_arctan, hs]
  constructor <;> field_simp

theorem sqrt_sq_add_pos (x y : ℝ) (hxy : x ≠ 0 ∨ y ≠ 0) : 0 < Real.sqrt (x ^ 2 + y ^ 2) := by
  apply Real.sqrt_pos.mpr
  rcases hxy with h | h
  · have := pow_pos (abs_pos.mpr h) 2
    rw [sq_abs] at this
    positivity
  · have := pow_pos (abs_pos.mpr h) 2
    rw [sq_abs] at this
    positivity

theorem rad_pos : (0 : ℝ) < 180 / Real.pi := div_pos (by norm_num) Real.pi_pos

/-- With `RADIAN = 180/pi` the azimuth before normalisation, in radians, has
cosine `x / sqrt (x^2 + y^2)` and sine `y / sqrt (x^2 + y^2)`. -/
theorem raw_azimuth_trig (x y : ℝ) (hxy : x ≠ 0 ∨ y ≠ 0) :
    Real.cos (raw_azimuth realLibm (180 / Real.pi) x y / (180 / Real.pi)) =
      x / Real.sqrt (x ^ 2 + y ^ 2) ∧
    Real.sin (raw_azimuth realLibm (180 / Real.pi) x y / (180 / Real.pi)) =
      y / Real.sqrt (x ^ 2 + y ^ 2) := by
  have hpi := Real.pi_pos
  have hr := sqrt_sq_add_pos x y hxy
  simp only [raw_azimuth, realLibm]
  by_cases h1 : x > 0
  · rw [if_pos h1]
    have e : Real.arctan (y / x) * (180 / Real.pi) / (180 / Real.pi) = Real.arctan (y / x) := by
      field_simp
    rw [e]
    exact cos_sin_arctan_div x y h1
  · rw [if_neg h1]
    by_cases h2 : x < 0
    · rw [if_pos h2]
      have e : (Real.arctan (y / x) * (180 / Real.pi) + 180) / (180 / Real.pi) =
          Real.arctan (-y / -x) + Real.pi := by
        rw [neg_div_neg_eq]
        field_simp
        ring
      rw [e, Real.cos_add_pi, Real.sin_add_pi]
      obtain ⟨c, s⟩ := cos_sin_arctan_div (-x) (-y) (by linarith)
      rw [c, s]
      have e2 : (-x) ^ 2 + (-y) ^ 2 = x ^ 2 + y ^ 2 := by ring
      rw [e2]
      constructor <;> field_simp
    · rw [if_neg h2]
      have hx0 : x = 0 := le_antisymm (not_lt.mp h1) (not_lt.mp h2)
      have hy0 : y ≠ 0 := by
        rcases hxy with h | h
        · exact absurd hx0 h
        · exact h
      subst hx0
      have hsq : Real.sqrt ((0 : ℝ) ^ 2 + y ^ 2) = |y| := by
        rw [zero_pow two_ne_zero, zero_add, Real.sqrt_sq_eq_abs]
      rw [hsq]
      by_cases h3 : y > 0
      · rw [if_pos h3]
        have e : (90 : ℝ) / (180 / Real.pi) = Real.pi / 2 := by
          field_simp
          ring
        rw [e, Real.cos_pi_div_two, Real.sin_pi_div_two, abs_of_pos h3]
        constructor
        · simp
        · field_simp
      · rw [if_neg h3]
        have h4 : y < 0 := lt_of_le_of_ne (not_lt.mp h3) hy0
        have e : (270 : ℝ) / (180 / Real.pi) = Real.pi / 2 + Real.pi := by
          field_simp
          ring
        rw [e, Real.cos_add_pi, Real.sin_add_pi, Real.cos_pi_div_two, Real.sin_pi_div_two,
          abs_of_neg h4]
        constructor
        · simp
        · field_simp

/-- With `RADIAN = 180/pi` and the vector `(x, y, z)` off the pole axis,
the angles returned by `angle_subr`, in radians, have the cosines and sines of
the direction of the vector. -/
theorem angle_subr_trig (st : Arrays ℝ) (F H : ℝ) (hxy : st.Y 1 1 ≠ 0 ∨ st.Y 2 1 ≠ 0) :
    Real.cos ((angle_subr realLibm (180 / Real.pi) st F H).1 / (180 / Real.pi)) =
      st.Y 1 1 / Real.sqrt (st.Y 1 1 ^ 2 + st.Y 2 1 ^ 2) ∧
    Real.sin ((angle_subr realLibm (180 / Real.pi) st F H).1 / (180 / Real.pi)) =
      st.Y 2 1 / Real.sqrt (st.Y 1 1 ^ 2 + st.Y 2 1 ^ 2) ∧
    (angle_subr realLibm (180 / Real.pi) st F H).2 / (180 / Real.pi) =
      Real.arctan (st.Y 3 1 / Real.sqrt (st.Y 1 1 ^ 2 + st.Y 2 1 ^ 2)) := by
  have hpi := Real.pi_pos
  obtain ⟨c, s⟩ := raw_azimuth_trig (st.Y 1 1) (st.Y 2 1) hxy
  obtain ⟨_, _, k, hk⟩ := normalize_360_spec
    (raw_azimuth realLibm (180 / Real.pi) (st.Y 1 1) (st.Y 2 1))
  have e : (angle_subr realLibm (180 / Real.pi) st F H).1 / (180 / Real.pi) =
      raw_azimuth realLibm (180 / Real.pi) (st.Y 1 1) (st.Y 2 1) / (180 / Real.pi) +
        (k : ℝ) * (2 * Real.pi) := by
    rw [angle_subr_azimuth _ st F H hxy, hk]
    field_simp
    ring
  refine ⟨?_, ?_, ?_⟩
  · rw [e, Real.cos_add_int_mul_two_pi, c]
  · rw [e, Real.sin_add_int_mul_two_pi, s]
  · rw [angle_subr_elev _ st F H hxy]
    field_simp

end DecodeTrig

/-! ## Transform: stage lemmas -/

section LoadLemmas
variable {K : Type} [LinearOrderedField K] [FloorRing K]

theorem load_equat_Y (m : Libm K) (rad : K) (pos : pos_struct K) (st : Arrays K)
    (i : Fin 4) (hi : i ≠ 0) :
    (load_equat m rad pos st).Y i 1 = mul_vec st.R (equat_vector m rad pos) i := by
  rcases fin4_cases i hi with rfl | rfl | rfl <;>
    simp [load_equat, accumulate_Y, for3, Mat.set, mul_vec, equat_vector]

theorem load_equat_frame (m : Libm K) (rad : K) (pos : pos_struct K) (st : Arrays K) :
    (load_equat m rad pos st).R = st.R ∧ (load_equat m rad pos st).Q = st.Q := by
  simp [load_equat, accumulate_Y, for3]

theorem load_mount_Y (m : Libm K) (rad : K) (pos : pos_struct K) (Z1 Z2 Z3 : K)
    (st : Arrays K) (i : Fin 4) (hi : i ≠ 0) :
    (load_mount m rad pos Z1 Z2 Z3 st).Y i 1 =
      mul_vec st.Q (mount_vector m rad pos Z1 Z2 Z3) i := by
  rcases fin4_cases i hi with rfl | rfl | rfl <;>
    simp [load_mount, subr_750, accumulate_Y, for3, Mat.set, mul_vec, mount_vector]

theorem load_mount_frame (m : Libm K) (rad : K) (pos : pos_struct K) (Z1 Z2 Z3 : K)
    (st : Arrays K) :
    (load_mount m rad pos Z1 Z2 Z3 st).R = st.R ∧
    (load_mount m rad pos Z1 Z2 Z3 st).Q = st.Q := by
  simp [load_mount, subr_750, accumulate_Y, for3]

theorem subr_785_Y (m : Libm K) (rad F H Z1 Z2 : K) (st : Arrays K) :
    (subr_785 m rad F H Z1 Z2 st).Y 1 1 =
      m.cos F * m.cos H + m.sin F * (Z2 / rad) - m.sin F * m.cos H * (Z1 / rad) ∧
    (subr_785 m rad F H Z1 Z2 st).Y 2 1 =
      m.sin F * m.cos H - m.cos F * (Z2 / rad) + m.cos F * m.sin H * (Z1 / rad) ∧
    (subr_785 m rad F H Z1 Z2 st).Y 3 1 = m.sin H := by
  simp [subr_785, Mat.set]

theorem subr_785_frame (m : Libm K) (rad F H Z1 Z2 : K) (st : Arrays K) :
    (subr_785 m rad F H Z1 Z2 st).R = st.R ∧ (subr_785 m rad F H Z1 Z2 st).Q = st.Q := by
  simp [subr_785]

theorem calc_scope_frame (m : Libm K) (rad : K) (pos : pos_struct K) (Z1 Z2 Z3 F0 H0 : K)
    (st : Arrays K) :
    (calc_scope m rad pos Z1 Z2 Z3 F0 H0 st).2.R = st.R ∧
    (calc_scope m rad pos Z1 Z2 Z3 F0 H0 st).2.Q = st.Q := by
  simp only [calc_scope]
  rw [(subr_785_frame _ _ _ _ _ _ _).1, (subr_785_frame _ _ _ _ _ _ _).2,
    (load_equat_frame _ _ _ _).1, (load_equat_frame _ _ _ _).2]
  exact ⟨rfl, rfl⟩

theorem calc_equat_ra (m : Libm K) (rad : K) (pos : pos_struct K) (Z1 Z2 Z3 : K)
    (st : Arrays K) :
    (calc_equat m rad pos Z1 Z2 Z3 st).1.ra_2000_deg =
      normalize_360 ((angle_subr m rad (load_mount m rad pos Z1 Z2 Z3 st)
        (pos.horiz / rad) ((pos.elev + Z3) / rad)).1 + 15 * pos.sid_time) := by
  simp [calc_equat, decode_RA_dec]

theorem calc_equat_dec (m : Libm K) (rad : K) (pos : pos_struct K) (Z1 Z2 Z3 : K)
    (st : Arrays K) :
    (calc_equat m rad pos Z1 Z2 Z3 st).1.dec_2000 =
      (angle_subr m rad (load_mount m rad pos Z1 Z2 Z3 st)
        (pos.horiz / rad) ((pos.elev + Z3) / rad)).2 := by
  simp [calc_equat, decode_RA_dec]

/-- `angle_subr` reads the arrays only at `Y[1..3][1]`. -/
theorem angle_subr_congr (m : Libm K) (rad : K) (st st' : Arrays K) (F H : K)
    (h : ∀ i : Fin 4, i ≠ 0 → st.Y i 1 = st'.Y i 1) :
    angle_subr m rad st F H = angle_subr m rad st' F H := by
  simp only [angle_subr, h 1 (by decide), h 2 (by decide), h 3 (by decide)]

/-- The equatorial coordinates `calc_equat` stores are fixed by the mount
reading, the sidereal time, `Q` and the offsets. -/
theorem calc_equat_congr (m : Libm K) (rad : K) (pos pos' : pos_struct K)
    (Z1 Z2 Z3 : K) (st st' : Arrays K)
    (hh : pos.horiz = pos'.horiz) (he : pos.elev = pos'.elev)
    (hs : pos.sid_time = pos'.sid_time) (hQ : st.Q = st'.Q) :
    (calc_equat m rad pos Z1 Z2 Z3 st).1.ra_2000_deg =
      (calc_equat m rad pos' Z1 Z2 Z3 st').1.ra_2000_deg ∧
    (calc_equat m rad pos Z1 Z2 Z3 st).1.dec_2000 =
      (calc_equat m rad pos' Z1 Z2 Z3 st').1.dec_2000 := by
  have hv : mount_vector m rad pos Z1 Z2 Z3 = mount_vector m rad pos' Z1 Z2 Z3 := by
    funext i
    simp only [mount_vector, hh, he]
  have h1 : ∀ F H : K, angle_subr m rad (load_mount m rad pos Z1 Z2 Z3 st) F H =
      angle_subr m rad (load_mount m rad pos' Z1 Z2 Z3 st') F H := by
    intro F H
    apply angle_subr_congr
    intro i hi
    rw [load_mount_Y m rad pos Z1 Z2 Z3 st i hi, load_mount_Y m rad pos' Z1 Z2 Z3 st' i hi,
      hv, hQ]
  rw [calc_equat_ra, calc_equat_ra, calc_equat_dec, calc_equat_dec]
  simp only [h1, hh, he, hs]
  exact ⟨trivial, trivial⟩

end LoadLemmas

/-! ## Round trip with RADIAN = 180/pi: lemmas -/

section RoundTrip

/-- Off the pole axis the result of `angle_subr` depends only on
`Y[1..3][1]`, and does not change when that vector is divided by a positive
number. -/
theorem angle_subr_scale (rad : ℝ) (st st' : Arrays ℝ) (F H F' H' n : ℝ) (hn : 0 < n)
    (hxy : st.Y 1 1 ≠ 0 ∨ st.Y 2 1 ≠ 0)
    (h1 : st'.Y 1 1 = st.Y 1 1 / n) (h2 : st'.Y 2 1 = st.Y 2 1 / n)
    (h3 : st'.Y 3 1 = st.Y 3 1 / n) :
    angle_subr realLibm rad st' F' H' = angle_subr realLibm rad st F H := by
  have hxy' : st'.Y 1 1 ≠ 0 ∨ st'.Y 2 1 ≠ 0 := by
    rcases hxy with h | h
    · left; rw [h1]; exact div_ne_zero h hn.ne'
    · right; rw [h2]; exact div_ne_zero h hn.ne'
  have hr := sqrt_sq_add_pos _ _ hxy
  have hsq : Real.sqrt ((st.Y 1 1 / n) ^ 2 + (st.Y 2 1 / n) ^ 2) =
      Real.sqrt (st.Y 1 1 ^ 2 + st.Y 2 1 ^ 2) / n := by
    have e : (st.Y 1 1 / n) ^ 2 + (st.Y 2 1 / n) ^ 2 =
        (st.Y 1 1 ^ 2 + st.Y 2 1 ^ 2) / n ^ 2 := by
      rw [div_pow, div_pow, add_div]
    rw [e, Real.sqrt_div' _ (by positivity), Real.sqrt_sq hn.le]
  have hneg : st.Y 1 1 / n < 0 ↔ st.Y 1 1 < 0 := by
    rw [div_lt_iff₀ hn, zero_mul]
  have hdiv : st.Y 2 1 / n / (st.Y 1 1 / n) = st.Y 2 1 / st.Y 1 1 := by
    by_cases hx : st.Y 1 1 = 0
    · simp [hx]
    · field_simp
  apply Prod.ext
  · rw [angle_subr_azimuth rad st' F' H' hxy', angle_subr_azimuth rad st F H hxy, h1, h2]
    congr 1
    simp only [raw_azimuth, hdiv, gt_iff_lt, div_pos_iff_of_pos_right hn, hneg]
  · rw [angle_subr_elev rad st' F' H' hxy', angle_subr_elev rad st F H hxy, h1, h2, h3, hsq]
    congr 2
    field_simp

/-- With `RADIAN = 180/pi`, the unit vector rebuilt from the decoded angles
is the decoded vector divided by its norm. -/
theorem encode_decoded (st : Arrays ℝ) (F H : ℝ) (hxy : st.Y 1 1 ≠ 0 ∨ st.Y 2 1 ≠ 0) :
    0 < Real.sqrt (st.Y 1 1 ^ 2 + st.Y 2 1 ^ 2 + st.Y 3 1 ^ 2) ∧
    Real.cos ((angle_subr realLibm (180 / Real.pi) st F H).1 / (180 / Real.pi)) *
      Real.cos ((angle_subr realLibm (180 / Real.pi) st F H).2 / (180 / Real.pi)) =
      st.Y 1 1 / Real.sqrt (st.Y 1 1 ^ 2 + st.Y 2 1 ^ 2 + st.Y 3 1 ^ 2) ∧
    Real.sin ((angle_subr realLibm (180 / Real.pi) st F H).1 / (180 / Real.pi)) *
      Real.cos ((angle_subr realLibm (180 / Real.pi) st F H).2 / (180 / Real.pi)) =
      st.Y 2 1 / Real.sqrt (st.Y 1 1 ^ 2 + st.Y 2 1 ^ 2 + st.Y 3 1 ^ 2) ∧
    Real.sin ((angle_subr realLibm (180 / Real.pi) st F H).2 / (180 / Real.pi)) =
      st.Y 3 1 / Real.sqrt (st.Y 1 1 ^ 2 + st.Y 2 1 ^ 2 + st.Y 3 1 ^ 2) := by
  obtain ⟨c, s, e⟩ := angle_subr_trig st F H hxy
  have hr := sqrt_sq_add_pos _ _ hxy
  obtain ⟨c2, s2⟩ := cos_sin_arctan_div (Real.sqrt (st.Y 1 1 ^ 2 + st.Y 2 1 ^ 2)) (st.Y 3 1) hr
  have hpos : 0 < st.Y 1 1 ^ 2 + st.Y 2 1 ^ 2 := Real.sqrt_pos.mp hr
  rw [Real.sq_sqrt hpos.le] at c2 s2
  have hn : 0 < Real.sqrt (st.Y 1 1 ^ 2 + st.Y 2 1 ^ 2 + st.Y 3 1 ^ 2) :=
    Real.sqrt_pos.mpr (by positivity)
  refine ⟨hn, ?_, ?_, ?_⟩
  · rw [c, e, c2]
    field_simp
  · rw [s, e, c2]
    field_simp
  · rw [e, s2]

/-- With `RADIAN = 180/pi`, decoding the equatorial direction cosines of a
position with `|dec_2000| < 90` returns its declination and its hour angle up
to a multiple of 360. -/
theorem decode_equat_vector (pos : pos_struct ℝ) (st : Arrays ℝ) (F H : ℝ)
    (hdec : -90 < pos.dec_2000 ∧ pos.dec_2000 < 90)
    (h1 : st.Y 1 1 = equat_vector realLibm (180 / Real.pi) pos 1)
    (h2 : st.Y 2 1 = equat_vector realLibm (180 / Real.pi) pos 2)
    (h3 : st.Y 3 1 = equat_vector realLibm (180 / Real.pi) pos 3) :
    (st.Y 1 1 ≠ 0 ∨ st.Y 2 1 ≠ 0) ∧
    (angle_subr realLibm (180 / Real.pi) st F H).2 = pos.dec_2000 ∧
    ∃ k : ℤ, (angle_subr realLibm (180 / Real.pi) st F H).1 =
      pos.ra_2000_deg - 15 * pos.sid_time + 360 * k := by
  have hpi := Real.pi_pos
  simp only [equat_vector, realLibm] at h1 h2 h3
  simp at h1 h2 h3
  set D := pos.dec_2000 / (180 / Real.pi) with hD
  set B := (pos.ra_2000_deg - 15 * pos.sid_time) / (180 / Real.pi) with hB
  have hD1 : -(Real.pi / 2) < D := by
    rw [hD, lt_div_iff₀ rad_pos]
    have : -(Real.pi / 2) * (180 / Real.pi) = -90 := by field_simp; ring
    rw [this]
    exact hdec.1
  have hD2 : D < Real.pi / 2 := by
    rw [hD, div_lt_iff₀ rad_pos]
    have : Real.pi / 2 * (180 / Real.pi) = 90 := by field_simp; ring
    rw [this]
    exact hdec.2
  have hc : 0 < Real.cos D := Real.cos_pos_of_mem_Ioo ⟨hD1, hD2⟩
  have hsum : st.Y 1 1 ^ 2 + st.Y 2 1 ^ 2 = Real.cos D ^ 2 := by
    rw [h1, h2]
    have := Real.sin_sq_add_cos_sq B
    linear_combination Real.cos D ^ 2 * this
  have hxy : st.Y 1 1 ≠ 0 ∨ st.Y 2 1 ≠ 0 := by
    by_contra hcon
    push_neg at hcon
    rw [hcon.1, hcon.2] at hsum
    have : Real.cos D ^ 2 = 0 := by rw [← hsum]; ring
    exact hc.ne' (pow_eq_zero_iff two_ne_zero |>.mp this)
  have hrho : Real.sqrt (st.Y 1 1 ^ 2 + st.Y 2 1 ^ 2) = Real.cos D := by
    rw [hsum, Real.sqrt_sq hc.le]
  obtain ⟨c, s, e⟩ := angle_subr_trig st F H hxy
  rw [hrho] at c s e
  refine ⟨hxy, ?_, ?_⟩
  · have e2 : Real.arctan (st.Y 3 1 / Real.cos D) = D := by
      rw [h3, ← Real.tan_eq_sin_div_cos, Real.arctan_tan hD1 hD2]
    rw [e2] at e
    have : (angle_subr realLibm (180 / Real.pi) st F H).2 = D * (180 / Real.pi) := by
      rw [← e]
      field_simp
    rw [this, hD]
    field_simp
  · have c' : Real.cos ((angle_subr realLibm (180 / Real.pi) st F H).1 / (180 / Real.pi)) =
        Real.cos B := by
      rw [c, h1]
      field_simp
    have s' : Real.sin ((angle_subr realLibm (180 / Real.pi) st F H).1 / (180 / Real.pi)) =
        Real.sin B := by
      rw [s, h2]
      field_simp
    have hang := Real.Angle.cos_sin_inj c' s'
    obtain ⟨k, hk⟩ := Real.Angle.angle_eq_iff_two_pi_dvd_sub.mp hang
    refine ⟨k, ?_⟩
    have hF : (angle_subr realLibm (180 / Real.pi) st F H).1 =
        (B + 2 * Real.pi * k) * (180 / Real.pi) := by
      rw [← hk]
      field_simp
      ring
    rw [hF, hB]
    field_simp
    ring


theorem mul_vec_div (A : Mat ℝ) (v w : Fin 4 → ℝ) (n : ℝ)
    (h1 : w 1 = v 1 / n) (h2 : w 2 = v 2 / n) (h3 : w 3 = v 3 / n) (i : Fin 4) :
    mul_vec A w i = mul_vec A v i / n := by
  simp only [mul_vec, h1, h2, h3]
  ring

/-- Round trip without axis errors: with `RADIAN = 180/pi`, `Z1 = Z2 = 0` and
`Q * (R * v) = v`, `calc_equat` after `calc_scope` restores the declination and
restores the right ascension up to a multiple of 360, for a position with
`|dec_2000| < 90` whose image under `R` is off the mount pole axis. -/
theorem round_trip_of_left_inverse (s : Arrays ℝ) (pos : pos_struct ℝ) (Z3 F0 H0 : ℝ)
    (hQR : ∀ (v : Fin 4 → ℝ) (i : Fin 4), i ≠ 0 → mul_vec s.Q (mul_vec s.R v) i = v i)
    (hdec : -90 < pos.dec_2000 ∧ pos.dec_2000 < 90)
    (hpole : mul_vec s.R (equat_vector realLibm (180 / Real.pi) pos) 1 ≠ 0 ∨
      mul_vec s.R (equat_vector realLibm (180 / Real.pi) pos) 2 ≠ 0) :
    (calc_equat realLibm (180 / Real.pi)
      (calc_scope realLibm (180 / Real.pi) pos 0 0 Z3 F0 H0 s).1 0 0 Z3
      (calc_scope realLibm (180 / Real.pi) pos 0 0 Z3 F0 H0 s).2).1.dec_2000 = pos.dec_2000 ∧
    ∃ k : ℤ, (calc_equat realLibm (180 / Real.pi)
      (calc_scope realLibm (180 / Real.pi) pos 0 0 Z3 F0 H0 s).1 0 0 Z3
      (calc_scope realLibm (180 / Real.pi) pos 0 0 Z3 F0 H0 s).2).1.ra_2000_deg =
        pos.ra_2000_deg + 360 * k := by
  have h10 : (1 : Fin 4) ≠ 0 := by decide
  have h20 : (2 : Fin 4) ≠ 0 := by decide
  have h30 : (3 : Fin 4) ≠ 0 := by decide
  -- first decoding, of `R * x`
  have hy1 := load_equat_Y realLibm (180 / Real.pi) pos s 1 h10
  have hy2 := load_equat_Y realLibm (180 / Real.pi) pos s 2 h20
  have hy3 := load_equat_Y realLibm (180 / Real.pi) pos s 3 h30
  have hxy1 : (load_equat realLibm (180 / Real.pi) pos s).Y 1 1 ≠ 0 ∨
      (load_equat realLibm (180 / Real.pi) pos s).Y 2 1 ≠ 0 := by
    rw [hy1, hy2]
    exact hpole
  obtain ⟨hn, e1, e2, e3⟩ := encode_decoded (load_equat realLibm (180 / Real.pi) pos s)
    F0 H0 hxy1
  -- names for the pieces
  generalize hs1 : load_equat realLibm (180 / Real.pi) pos s = s1 at *
  generalize hFH1 : angle_subr realLibm (180 / Real.pi) s1 F0 H0 = FH1 at *
  generalize hnn : Real.sqrt (s1.Y 1 1 ^ 2 + s1.Y 2 1 ^ 2 + s1.Y 3 1 ^ 2) = n at *
  -- the vector rebuilt by `subr_785` and its decoding
  obtain ⟨w1, w2, w3⟩ := subr_785_Y realLibm (180 / Real.pi)
    (FH1.1 / (180 / Real.pi)) (FH1.2 / (180 / Real.pi)) 0 0 s1
  simp only [realLibm, zero_div, mul_zero, add_zero, sub_zero] at w1 w2 w3
  rw [e1] at w1
  rw [e2] at w2
  rw [e3] at w3
  have hFH2 := angle_subr_scale (180 / Real.pi) s1
    (subr_785 realLibm (180 / Real.pi) (FH1.1 / (180 / Real.pi)) (FH1.2 / (180 / Real.pi)) 0 0 s1)
    F0 H0 (FH1.1 / (180 / Real.pi)) (FH1.2 / (180 / Real.pi)) n hn hxy1 w1 w2 w3
  rw [hFH1] at hFH2
  -- the result of `calc_scope`
  have hcs : calc_scope realLibm (180 / Real.pi) pos 0 0 Z3 F0 H0 s =
      ({ pos with horiz := FH1.1, elev := FH1.2 - Z3 },
        subr_785 realLibm (180 / Real.pi) (FH1.1 / (180 / Real.pi))
          (FH1.2 / (180 / Real.pi)) 0 0 s1) := by
    simp only [calc_scope, hs1, hFH1, hFH2]
  rw [hcs]
  simp only
  generalize hs2 : subr_785 realLibm (180 / Real.pi) (FH1.1 / (180 / Real.pi))
    (FH1.2 / (180 / Real.pi)) 0 0 s1 = s2 at *
  have hQ2 : s2.Q = s.Q := by
    rw [← hs2, (subr_785_frame _ _ _ _ _ _ _).2, ← hs1, (load_equat_frame _ _ _ _).2]
  -- the mount vector built by `calc_equat`
  have hmv : ∀ i : Fin 4, i ≠ 0 →
      mount_vector realLibm (180 / Real.pi)
        { pos with horiz := FH1.1, elev := FH1.2 - Z3 } 0 0 Z3 i = s1.Y i 1 / n := by
    intro i hi
    rcases fin4_cases i hi with rfl | rfl | rfl
    · simp [mount_vector, realLibm]
      exact e1
    · simp [mount_vector, realLibm]
      exact e2
    · simp [mount_vector, realLibm]
      exact e3
  have hY3 : ∀ i : Fin 4, i ≠ 0 →
      (load_mount realLibm (180 / Real.pi)
        { pos with horiz := FH1.1, elev := FH1.2 - Z3 } 0 0 Z3 s2).Y i 1 =
      equat_vector realLibm (180 / Real.pi) pos i / n := by
    intro i hi
    rw [load_mount_Y _ _ _ _ _ _ _ i hi, hQ2,
      mul_vec_div s.Q (fun j => s1.Y j 1) _ n (hmv 1 h10) (hmv 2 h20) (hmv 3 h30) i]
    have : mul_vec s.Q (fun j => s1.Y j 1) i =
        mul_vec s.Q (mul_vec s.R (equat_vector realLibm (180 / Real.pi) pos)) i := by
      simp only [mul_vec, hy1, hy2, hy3]
    rw [this, hQR _ i hi]
  -- decoding of `x / n`
  obtain ⟨hxy, hd, k, hk⟩ := decode_equat_vector pos
    { s with Y := fun i _ => equat_vector realLibm (180 / Real.pi) pos i }
    (FH1.1 / (180 / Real.pi)) ((FH1.2 - Z3 + Z3) / (180 / Real.pi)) hdec rfl rfl rfl
  have hFH3 := angle_subr_scale (180 / Real.pi)
    { s with Y := fun i _ => equat_vector realLibm (180 / Real.pi) pos i }
    (load_mount realLibm (180 / Real.pi)
        { pos with horiz := FH1.1, elev := FH1.2 - Z3 } 0 0 Z3 s2)
    (FH1.1 / (180 / Real.pi)) ((FH1.2 - Z3 + Z3) / (180 / Real.pi))
    (FH1.1 / (180 / Real.pi)) ((FH1.2 - Z3 + Z3) / (180 / Real.pi)) n hn hxy
    (hY3 1 h10) (hY3 2 h20) (hY3 3 h30)
  constructor
  · rw [calc_equat_dec]
    simp only
    rw [hFH3]
    exact hd
  · rw [calc_equat_ra]
    simp only
    rw [hFH3, hk]
    obtain ⟨_, _, l, hl⟩ := normalize_360_spec
      (pos.ra_2000_deg - 15 * pos.sid_time + 360 * (k : ℝ) + 15 * pos.sid_time)
    refine ⟨k + l, ?_⟩
    rw [hl]
    push_cast
    ring

/-- The round trip from the reading alone: `calc_equat` is handed a position
that carries the `horiz` and `elev` stored by `calc_scope` and the sidereal
time, and any values in its other fields, the equatorial ones among them. -/
theorem round_trip_from_reading (s : Arrays ℝ) (pos q : pos_struct ℝ) (Z3 F0 H0 : ℝ)
    (hQR : ∀ (v : Fin 4 → ℝ) (i : Fin 4), i ≠ 0 → mul_vec s.Q (mul_vec s.R v) i = v i)
    (hdec : -90 < pos.dec_2000 ∧ pos.dec_2000 < 90)
    (hpole : mul_vec s.R (equat_vector realLibm (180 / Real.pi) pos) 1 ≠ 0 ∨
      mul_vec s.R (equat_vector realLibm (180 / Real.pi) pos) 2 ≠ 0)
    (hh : q.horiz = (calc_scope realLibm (180 / Real.pi) pos 0 0 Z3 F0 H0 s).1.horiz)
    (he : q.elev = (calc_scope realLibm (180 / Real.pi) pos 0 0 Z3 F0 H0 s).1.elev)
    (ht : q.sid_time = pos.sid_time) :
    (calc_equat realLibm (180 / Real.pi) q 0 0 Z3
      (calc_scope realLibm (180 / Real.pi) pos 0 0 Z3 F0 H0 s).2).1.dec_2000 = pos.dec_2000 ∧
    ∃ k : ℤ, (calc_equat realLibm (180 / Real.pi) q 0 0 Z3
      (calc_scope realLibm (180 / Real.pi) pos 0 0 Z3 F0 H0 s).2).1.ra_2000_deg =
        pos.ra_2000_deg + 360 * k := by
  have h := round_trip_of_left_inverse s pos Z3 F0 H0 hQR hdec hpole
  have c := calc_equat_congr realLibm (180 / Real.pi) q
    (calc_scope realLibm (180 / Real.pi) pos 0 0 Z3 F0 H0 s).1 0 0 Z3
    (calc_scope realLibm (180 / Real.pi) pos 0 0 Z3 F0 H0 s).2
    (calc_scope realLibm (180 / Real.pi) pos 0 0 Z3 F0 H0 s).2 hh he ht rfl
  rw [c.1, c.2]
  exact h

end RoundTrip

/-! ## Calibration: theorems -/

section CalTheorems

variable {K : Type} [LinearOrderedField K] [FloorRing K]

/-- With a regular sky basis, `R` maps each column of `X` onto the same
column of `Y`. -/
theorem R_mul_X_col (m : Libm K) (rad : K) (pos1 pos2 : pos_struct K)
    (Z1 Z2 Z3 : K) (st0 s : Arrays K)
    (hs : s = init_arrays m rad INIT2 pos2 Z1 Z2 Z3
        (init_arrays m rad INIT1 pos1 Z1 Z2 Z3 st0))
    (hdet : det3 s.X ≠ 0) (i k : Fin 4) (hi : i ≠ 0) (hk : k ≠ 0) :
    mul_vec s.R (col s.X k) i = s.Y i k := by
  obtain ⟨_, _, _, _, _, _, hR, _⟩ :=
    init_arrays_summary m rad pos1 pos2 Z1 Z2 Z3 st0 s hs
  have h10 : (1 : Fin 4) ≠ 0 := by decide
  have h20 : (2 : Fin 4) ≠ 0 := by decide
  have h30 : (3 : Fin 4) ≠ 0 := by decide
  have e1 := cramer_inverse_mul s.X hdet 1 k h10 hk
  have e2 := cramer_inverse_mul s.X hdet 2 k h20 hk
  have e3 := cramer_inverse_mul s.X hdet 3 k h30 hk
  simp only [mul_vec, col, hR i 1 hi h10, hR i 2 hi h20, hR i 3 hi h30]
  rcases fin4_cases k hk with rfl | rfl | rfl
  · simp at e1 e2 e3
    linear_combination s.Y i 1 * e1 + s.Y i 2 * e2 + s.Y i 3 * e3
  · simp at e1 e2 e3
    linear_combination s.Y i 1 * e1 + s.Y i 2 * e2 + s.Y i 3 * e3
  · simp at e1 e2 e3
    linear_combination s.Y i 1 * e1 + s.Y i 2 * e2 + s.Y i 3 * e3

/-- With a regular sky basis, `R` maps the equatorial vector of the first
calibration star onto its mount-frame vector. -/
theorem R_maps_first_star (m : Libm K) (rad : K) (pos1 pos2 : pos_struct K)
    (Z1 Z2 Z3 : K) (st0 s : Arrays K)
    (hs : s = init_arrays m rad INIT2 pos2 Z1 Z2 Z3
        (init_arrays m rad INIT1 pos1 Z1 Z2 Z3 st0))
    (hdet : det3 s.X ≠ 0) (i : Fin 4) (hi : i ≠ 0) :
    mul_vec s.R (equat_vector m rad pos1) i = mount_vector m rad pos1 Z1 Z2 Z3 i := by
  obtain ⟨hx1, _, _, hy1, _, _, _, _⟩ :=
    init_arrays_summary m rad pos1 pos2 Z1 Z2 Z3 st0 s hs
  have h := R_mul_X_col m rad pos1 pos2 Z1 Z2 Z3 st0 s hs hdet i 1 hi (by decide)
  simp only [mul_vec, col, hx1 1 (by decide), hx1 2 (by decide), hx1 3 (by decide),
    hy1 i hi] at h
  simpa only [mul_vec] using h

/-- When `Q` is the Cramer inverse of a regular `R`, the two matrices are
mutual inverses on vectors. -/
theorem mul_vec_inverse (R Q : Mat K) (hdet : det3 R ≠ 0)
    (hQ : ∀ M N : Fin 4, M ≠ 0 → N ≠ 0 → Q M N = cramer_inverse R M N)
    (v : Fin 4 → K) (i : Fin 4) (hi : i ≠ 0) :
    mul_vec Q (mul_vec R v) i = v i ∧ mul_vec R (mul_vec Q v) i = v i := by
  have h10 : (1 : Fin 4) ≠ 0 := by decide
  have h20 : (2 : Fin 4) ≠ 0 := by decide
  have h30 : (3 : Fin 4) ≠ 0 := by decide
  have a1 := cramer_inverse_mul R hdet i 1 hi h10
  have a2 := cramer_inverse_mul R hdet i 2 hi h20
  have a3 := cramer_inverse_mul R hdet i 3 hi h30
  have b1 := mul_cramer_inverse R hdet i 1 hi h10
  have b2 := mul_cramer_inverse R hdet i 2 hi h20
  have b3 := mul_cramer_inverse R hdet i 3 hi h30
  simp only [mul_vec, hQ i 1 hi h10, hQ i 2 hi h20, hQ i 3 hi h30, hQ 1 1 h10 h10,
    hQ 1 2 h10 h20, hQ 1 3 h10 h30, hQ 2 1 h20 h10, hQ 2 2 h20 h20, hQ 2 3 h20 h30,
    hQ 3 1 h30 h10, hQ 3 2 h30 h20, hQ 3 3 h30 h30]
  rcases fin4_cases i hi with rfl | rfl | rfl
  all_goals
    simp at a1 a2 a3 b1 b2 b3
    constructor
    · linear_combination v 1 * a1 + v 2 * a2 + v 3 * a3
    · linear_combination v 1 * b1 + v 2 * b2 + v 3 * b3

end CalTheorems

section RealCalTheorems

/-- The sky basis of two distinct, non-antipodal stars is regular. -/
theorem det3_X_ne_zero_of_stars (rad : ℝ) (pos1 pos2 : pos_struct ℝ) (Z1 Z2 Z3 : ℝ)
    (st0 s : Arrays ℝ)
    (hs : s = init_arrays realLibm rad INIT2 pos2 Z1 Z2 Z3
        (init_arrays realLibm rad INIT1 pos1 Z1 Z2 Z3 st0))
    (hdist : equat_vector realLibm rad pos1 ≠ equat_vector realLibm rad pos2)
    (hanti : equat_vector realLibm rad pos1 ≠ -equat_vector realLibm rad pos2) :
    det3 s.X ≠ 0 := by
  obtain ⟨hx1, hx2, hx3, hy1, hy2, hy3, hR, hQ⟩ :=
    init_arrays_summary realLibm rad pos1 pos2 Z1 Z2 Z3 st0 s hs
  exact det3_of_third_axis s.X _ _ hx1 hx2 hx3
    (cross3_sq_pos_of_unit _ _ (equat_vector_zero _ _ _) (equat_vector_zero _ _ _)
      (equat_vector_unit rad pos1) (equat_vector_unit rad pos2) hdist hanti)

/-- With a regular sky basis and non-parallel mount vectors, `R` is regular
and `Q` is the matrix the Cramer loop builds from it. -/
theorem det3_R_ne_zero (rad : ℝ) (pos1 pos2 : pos_struct ℝ) (Z1 Z2 Z3 : ℝ)
    (st0 s : Arrays ℝ)
    (hs : s = init_arrays realLibm rad INIT2 pos2 Z1 Z2 Z3
        (init_arrays realLibm rad INIT1 pos1 Z1 Z2 Z3 st0))
    (hX : det3 s.X ≠ 0)
    (hmount : 0 <
      cross3 (mount_vector realLibm rad pos1 Z1 Z2 Z3) (mount_vector realLibm rad pos2 Z1 Z2 Z3) 1 ^ 2 +
      cross3 (mount_vector realLibm rad pos1 Z1 Z2 Z3) (mount_vector realLibm rad pos2 Z1 Z2 Z3) 2 ^ 2 +
      cross3 (mount_vector realLibm rad pos1 Z1 Z2 Z3) (mount_vector realLibm rad pos2 Z1 Z2 Z3) 3 ^ 2) :
    det3 s.R ≠ 0 := by
  obtain ⟨hx1, hx2, hx3, hy1, hy2, hy3, hR, hQ⟩ :=
    init_arrays_summary realLibm rad pos1 pos2 Z1 Z2 Z3 st0 s hs
  have hY : det3 s.Y ≠ 0 := det3_of_third_axis s.Y _ _ hy1 hy2 hy3 hmount
  rw [det3_mul s.Y (cramer_inverse s.X) s.R hR]
  exact mul_ne_zero hY (det3_cramer_inverse_ne_zero s.X hX)


theorem sin_ninety_RADIAN_pos : 0 < Real.sin (90 / (RADIAN : ℝ)) := by
  have h : (90 : ℝ) / RADIAN = 3.14159265358979 / 2 := by
    unfold RADIAN PI
    norm_num
  rw [h]
  apply Real.sin_pos_of_pos_of_lt_pi
  · norm_num
  · have := Real.pi_gt_three
    norm_num
    linarith

/-- The equator point of hour angle 0 and the pole are distinct and not
antipodal. -/
theorem stars_distinct (h1 e1 h2 e2 : ℝ) :
    equat_vector realLibm RADIAN (sky_mount 0 0 0 h1 e1) ≠
      equat_vector realLibm RADIAN (sky_mount 0 90 0 h2 e2) ∧
    equat_vector realLibm RADIAN (sky_mount 0 0 0 h1 e1) ≠
      -equat_vector realLibm RADIAN (sky_mount 0 90 0 h2 e2) := by
  have hs := sin_ninety_RADIAN_pos
  constructor
  · intro h
    have := congrFun h 3
    simp [equat_vector, realLibm, sky_mount] at this
    linarith
  · intro h
    have := congrFun h 3
    simp [equat_vector, realLibm, sky_mount] at this
    linarith

theorem same_reading_R_rows (s : Arrays ℝ)
    (hs : s = init_arrays realLibm RADIAN INIT2 (sky_mount 0 90 0 0 0) 0 0 0
        (init_arrays realLibm RADIAN INIT1 (sky_mount 0 0 0 0 0) 0 0 0 zero_arrays))
    (J : Fin 4) (hJ : J ≠ 0) : s.R 2 J = 0 ∧ s.R 3 J = 0 := by
  obtain ⟨hx1, hx2, hx3, hy1, hy2, hy3, hR, hQ⟩ :=
    init_arrays_summary realLibm RADIAN (sky_mount 0 0 0 0 0) (sky_mount 0 90 0 0 0)
      0 0 0 zero_arrays s hs
  have h20 : (2 : Fin 4) ≠ 0 := by decide
  have h30 : (3 : Fin 4) ≠ 0 := by decide
  have y1 := hy1 2 h20
  have y2 := hy2 2 h20
  have y3 := hy3 2 h20
  have z1 := hy1 3 h30
  have z2 := hy2 3 h30
  have z3 := hy3 3 h30
  simp [mount_vector, realLibm, sky_mount, cross3] at y1 y2 y3 z1 z2 z3
  rw [hR 2 J h20 hJ, hR 3 J h30 hJ, y1, y2, y3, z1, z2, z3]
  constructor <;> ring

theorem same_reading_R_row_zero (s : Arrays ℝ)
    (hs : s = init_arrays realLibm RADIAN INIT2 (sky_mount 0 90 0 0 0) 0 0 0
        (init_arrays realLibm RADIAN INIT1 (sky_mount 0 0 0 0 0) 0 0 0 zero_arrays))
    (w : Fin 4 → ℝ) : mul_vec s.R w 2 = 0 := by
  simp only [mul_vec, (same_reading_R_rows s hs 1 (by decide)).1,
    (same_reading_R_rows s hs 2 (by decide)).1, (same_reading_R_rows s hs 3 (by decide)).1]
  ring

/-- C1, as stated, fails: two distinct, non-antipodal stars observed at the
same mount reading give a matrix `R` whose second row is zero, so `R * (Q * v)`
differs from `v` for `v = (0, 1, 0)`. -/
theorem init_arrays_not_inverse_same_reading :
    equat_vector realLibm RADIAN (sky_mount 0 0 0 0 0) ≠
      equat_vector realLibm RADIAN (sky_mount 0 90 0 0 0) ∧
    equat_vector realLibm RADIAN (sky_mount 0 0 0 0 0) ≠
      -equat_vector realLibm RADIAN (sky_mount 0 90 0 0 0) ∧
    ¬ (∀ (v : Fin 4 → ℝ) (i : Fin 4), i ≠ 0 →
        mul_vec (init_arrays realLibm RADIAN INIT2 (sky_mount 0 90 0 0 0) 0 0 0
          (init_arrays realLibm RADIAN INIT1 (sky_mount 0 0 0 0 0) 0 0 0 zero_arrays)).Q
          (mul_vec (init_arrays realLibm RADIAN INIT2 (sky_mount 0 90 0 0 0) 0 0 0
          (init_arrays realLibm RADIAN INIT1 (sky_mount 0 0 0 0 0) 0 0 0 zero_arrays)).R v) i
          = v i ∧
        mul_vec (init_arrays realLibm RADIAN INIT2 (sky_mount 0 90 0 0 0) 0 0 0
          (init_arrays realLibm RADIAN INIT1 (sky_mount 0 0 0 0 0) 0 0 0 zero_arrays)).R
          (mul_vec (init_arrays realLibm RADIAN INIT2 (sky_mount 0 90 0 0 0) 0 0 0
          (init_arrays realLibm RADIAN INIT1 (sky_mount 0 0 0 0 0) 0 0 0 zero_arrays)).Q v) i
          = v i) := by
  refine ⟨(stars_distinct 0 0 0 0).1, (stars_distinct 0 0 0 0).2, ?_⟩
  intro hall
  have h := (hall (fun i => if i = 2 then 1 else 0) 2 (by decide)).2
  rw [same_reading_R_row_zero _ rfl] at h
  simp at h

/-- C1, amended: when the two stars have distinct, non-antipodal equatorial
directions and their two mount-frame vectors are not parallel (nonzero cross
product), the matrices `R` and `Q` left by `init_arrays` for slot 1 and then
slot 2 are mutual inverses: `Q*(R*v) = v` and `R*(Q*v) = v` for every `v`. -/
theorem init_arrays_R_Q_inverse (rad : ℝ) (pos1 pos2 : pos_struct ℝ) (Z1 Z2 Z3 : ℝ)
    (st0 s : Arrays ℝ)
    (hs : s = init_arrays realLibm rad INIT2 pos2 Z1 Z2 Z3
        (init_arrays realLibm rad INIT1 pos1 Z1 Z2 Z3 st0))
    (hdist : equat_vector realLibm rad pos1 ≠ equat_vector realLibm rad pos2)
    (hanti : equat_vector realLibm rad pos1 ≠ -equat_vector realLibm rad pos2)
    (hmount : 0 <
      cross3 (mount_vector realLibm rad pos1 Z1 Z2 Z3) (mount_vector realLibm rad pos2 Z1 Z2 Z3) 1 ^ 2 +
      cross3 (mount_vector realLibm rad pos1 Z1 Z2 Z3) (mount_vector realLibm rad pos2 Z1 Z2 Z3) 2 ^ 2 +
      cross3 (mount_vector realLibm rad pos1 Z1 Z2 Z3) (mount_vector realLibm rad pos2 Z1 Z2 Z3) 3 ^ 2) :
    ∀ (v : Fin 4 → ℝ) (i : Fin 4), i ≠ 0 →
      mul_vec s.Q (mul_vec s.R v) i = v i ∧ mul_vec s.R (mul_vec s.Q v) i = v i := by
  have hX := det3_X_ne_zero_of_stars rad pos1 pos2 Z1 Z2 Z3 st0 s hs hdist hanti
  have hR := det3_R_ne_zero rad pos1 pos2 Z1 Z2 Z3 st0 s hs hX hmount
  obtain ⟨_, _, _, _, _, _, _, hQ⟩ :=
    init_arrays_summary realLibm rad pos1 pos2 Z1 Z2 Z3 st0 s hs
  intro v i hi
  exact mul_vec_inverse s.R s.Q hR hQ v i hi


theorem mounts_not_parallel :
    0 < cross3 (mount_vector realLibm RADIAN (sky_mount 0 0 0 0 0) 0 0 0)
          (mount_vector realLibm RADIAN (sky_mount 0 90 0 0 90) 0 0 0) 1 ^ 2 +
        cross3 (mount_vector realLibm RADIAN (sky_mount 0 0 0 0 0) 0 0 0)
          (mount_vector realLibm RADIAN (sky_mount 0 90 0 0 90) 0 0 0) 2 ^ 2 +
        cross3 (mount_vector realLibm RADIAN (sky_mount 0 0 0 0 0) 0 0 0)
          (mount_vector realLibm RADIAN (sky_mount 0 90 0 0 90) 0 0 0) 3 ^ 2 := by
  have hs := sin_ninety_RADIAN_pos
  simp [cross3, mount_vector, realLibm, sky_mount]
  positivity

/-- Witness of C1 (amended): the same two observations; second component of
`Q * (R * v)` and of `R * (Q * v)` for `v = (1, 2, 3)`. -/
theorem init_arrays_R_Q_inverse_witness :
    mul_vec (init_arrays realLibm RADIAN INIT2 (sky_mount 0 90 0 0 90) 0 0 0
        (init_arrays realLibm RADIAN INIT1 (sky_mount 0 0 0 0 0) 0 0 0 zero_arrays)).Q
        (mul_vec (init_arrays realLibm RADIAN INIT2 (sky_mount 0 90 0 0 90) 0 0 0
          (init_arrays realLibm RADIAN INIT1 (sky_mount 0 0 0 0 0) 0 0 0 zero_arrays)).R
          (fun j => (j : ℝ))) 2 = ((2 : Fin 4) : ℝ) ∧
    mul_vec (init_arrays realLibm RADIAN INIT2 (sky_mount 0 90 0 0 90) 0 0 0
        (init_arrays realLibm RADIAN INIT1 (sky_mount 0 0 0 0 0) 0 0 0 zero_arrays)).R
        (mul_vec (init_arrays realLibm RADIAN INIT2 (sky_mount 0 90 0 0 90) 0 0 0
          (init_arrays realLibm RADIAN INIT1 (sky_mount 0 0 0 0 0) 0 0 0 zero_arrays)).Q
          (fun j => (j : ℝ))) 2 = ((2 : Fin 4) : ℝ) :=
  init_arrays_R_Q_inverse RADIAN (sky_mount 0 0 0 0 0) (sky_mount 0 90 0 0 90)
    0 0 0 zero_arrays _ rfl (stars_distinct 0 0 0 90).1 (stars_distinct 0 0 0 90).2
    mounts_not_parallel (fun j => (j : ℝ)) 2 (by decide)

end RealCalTheorems

/-! ## Angle decoding: theorems -/

section AngleTheorems

theorem raw_azimuth_bounds (rad : ℝ) (h0 : 0 < rad) (h1 : rad * Real.pi ≤ 360) (x y : ℝ) :
    -360 < raw_azimuth realLibm rad x y ∧ raw_azimuth realLibm rad x y < 360 := by
  have ha1 := Real.arctan_lt_pi_div_two (y / x)
  have ha2 := Real.neg_pi_div_two_lt_arctan (y / x)
  have hu : Real.arctan (y / x) * rad < 180 := by
    have : Real.arctan (y / x) * rad < Real.pi / 2 * rad := mul_lt_mul_of_pos_right ha1 h0
    linarith
  have hl : -180 < Real.arctan (y / x) * rad := by
    have : -(Real.pi / 2) * rad < Real.arctan (y / x) * rad := mul_lt_mul_of_pos_right ha2 h0
    linarith
  simp only [raw_azimuth, realLibm]
  split_ifs
  · constructor <;> linarith
  · constructor <;> linarith
  · constructor <;> norm_num
  · constructor <;> norm_num

/-- The azimuth returned by `angle_subr` lies in `[0, 360)`. -/
theorem angle_subr_azimuth_range (rad : ℝ) (h0 : 0 < rad) (h1 : rad * Real.pi ≤ 360)
    (st : Arrays ℝ) (F H : ℝ) :
    0 ≤ (angle_subr realLibm rad st F H).1 ∧ (angle_subr realLibm rad st F H).1 < 360 := by
  by_cases hxy : st.Y 1 1 ≠ 0 ∨ st.Y 2 1 ≠ 0
  · rw [angle_subr_azimuth rad st F H hxy]
    obtain ⟨b1, b2⟩ := raw_azimuth_bounds rad h0 h1 (st.Y 1 1) (st.Y 2 1)
    exact normalize_360_lt _ b1 b2
  · push_neg at hxy
    rw [angle_subr_pole rad st F H hxy.1 hxy.2]
    constructor <;> norm_num

theorem RADIAN_pos : (0 : ℝ) < RADIAN := by
  unfold RADIAN PI
  norm_num

/-- C5, evaluation at the failing input: for the vector `(0, 0, 1)` in
`Y[1..3][1]` `angle_subr` returns elevation 90 and azimuth 280; the sentinel
1000 it assigns is reduced by the loop `while (*Fptr>360) *Fptr-=360`. -/
theorem angle_subr_zenith (rad F H : ℝ) :
    angle_subr realLibm rad { (zero_arrays : Arrays ℝ) with Y := zero_arrays.Y.set 3 1 1 } F H
      = (280, 90) := by
  rw [angle_subr_pole rad _ F H (by simp [zero_arrays, Mat.set]) (by simp [zero_arrays, Mat.set])]
  simp [zero_arrays, Mat.set]

end AngleTheorems

/-! ## Mount to equatorial: theorems -/

section EquatTheorems

/-- The right ascension stored by `calc_equat` lies in the closed range
`[0, 360]` and the loops run to their exit. -/
theorem calc_equat_ra_closed_range (rad : ℝ) (pos : pos_struct ℝ) (Z1 Z2 Z3 : ℝ)
    (st : Arrays ℝ) :
    0 ≤ (calc_equat realLibm rad pos Z1 Z2 Z3 st).1.ra_2000_deg ∧
    (calc_equat realLibm rad pos Z1 Z2 Z3 st).1.ra_2000_deg ≤ 360 := by
  rw [calc_equat_ra]
  obtain ⟨h1, h2, _⟩ := normalize_360_spec
    ((angle_subr realLibm rad (load_mount realLibm rad pos Z1 Z2 Z3 st)
      (pos.horiz / rad) ((pos.elev + Z3) / rad)).1 + 15 * pos.sid_time)
  exact ⟨h1, h2⟩

theorem angle_subr_azimuth_270 (rad : ℝ) (st : Arrays ℝ) (F H : ℝ)
    (hx : st.Y 1 1 = 0) (hy : st.Y 2 1 < 0) :
    (angle_subr realLibm rad st F H).1 = 270 := by
  rw [angle_subr_azimuth rad _ _ _ (Or.inr hy.ne)]
  have hr : raw_azimuth realLibm rad (st.Y 1 1) (st.Y 2 1) = 270 := by
    simp only [raw_azimuth, hx, gt_iff_lt, lt_irrefl, if_false, if_neg (not_lt.mpr hy.le)]
  rw [hr]
  exact normalize_360_of_range _ (by norm_num) (by norm_num)

/-- C6, evaluation at the failing input: mount reading azimuth 0, elevation
0, sidereal time 6 h, no offsets and `Q` a quarter turn.  The decoded azimuth
is 270, the sum with `15 * sid_time` is 360, the loop `while (F>360)` does not
run, and `ra_2000_deg = 360` is stored, outside `[0, 360)`. -/
theorem calc_equat_ra_360 (rad : ℝ) :
    (calc_equat realLibm rad (sky_mount 0 0 6 0 0) 0 0 0
      { (zero_arrays : Arrays ℝ) with Q := quarter_turn }).1.ra_2000_deg = 360 := by
  have h10 : (1 : Fin 4) ≠ 0 := by decide
  have h20 : (2 : Fin 4) ≠ 0 := by decide
  have y1 : (load_mount realLibm rad (sky_mount 0 0 6 0 0) 0 0 0
      { (zero_arrays : Arrays ℝ) with Q := quarter_turn }).Y 1 1 = 0 := by
    rw [load_mount_Y _ _ _ _ _ _ _ 1 h10]
    simp [mul_vec, mount_vector, quarter_turn, realLibm, sky_mount]
  have y2 : (load_mount realLibm rad (sky_mount 0 0 6 0 0) 0 0 0
      { (zero_arrays : Arrays ℝ) with Q := quarter_turn }).Y 2 1 < 0 := by
    rw [load_mount_Y _ _ _ _ _ _ _ 2 h20]
    simp [mul_vec, mount_vector, quarter_turn, realLibm, sky_mount]
  rw [calc_equat_ra, angle_subr_azimuth_270 rad _ _ _ y1 y2]
  have hs : (sky_mount (0 : ℝ) 0 6 0 0).sid_time = 6 := rfl
  rw [hs]
  norm_num
  exact normalize_360_of_range _ (by norm_num) (by norm_num)

end EquatTheorems

/-! ## Round trip: theorems -/

section RoundTripTheorems

/-- The vector `(x, 0, 0)` with `x > 0` decodes to azimuth 0, elevation 0. -/
theorem angle_subr_x_axis (rad : ℝ) (st : Arrays ℝ) (F H : ℝ)
    (hx : 0 < st.Y 1 1) (hy : st.Y 2 1 = 0) (hz : st.Y 3 1 = 0) :
    angle_subr realLibm rad st F H = (0, 0) := by
  apply Prod.ext
  · rw [angle_subr_azimuth rad st F H (Or.inl hx.ne')]
    have hr : raw_azimuth realLibm rad (st.Y 1 1) (st.Y 2 1) = 0 := by
      simp [raw_azimuth, realLibm, hx, hy]
    rw [hr]
    exact normalize_360_of_range _ (le_refl _) (by norm_num)
  · rw [angle_subr_elev rad st F H (Or.inl hx.ne'), hz]
    simp

/-- After the calibration with two stars read at the same mount position the
matrix `Q` is zero. -/
theorem same_reading_Q_zero (s : Arrays ℝ)
    (hs : s = init_arrays realLibm RADIAN INIT2 (sky_mount 0 90 0 0 0) 0 0 0
        (init_arrays realLibm RADIAN INIT1 (sky_mount 0 0 0 0 0) 0 0 0 zero_arrays))
    (M N : Fin 4) (hM : M ≠ 0) (hN : N ≠ 0) : s.Q M N = 0 := by
  obtain ⟨_, _, _, _, _, _, _, hQ⟩ :=
    init_arrays_summary realLibm RADIAN (sky_mount 0 0 0 0 0) (sky_mount 0 90 0 0 0)
      0 0 0 zero_arrays s hs
  obtain ⟨h11, h12, h13, h21, h22, h23, h31, h32, h33⟩ := det3_col_unit s.R
  have r1 := same_reading_R_rows s hs 1 (by decide)
  have r2 := same_reading_R_rows s hs 2 (by decide)
  have r3 := same_reading_R_rows s hs 3 (by decide)
  rw [hQ M N hM hN]
  unfold cramer_inverse
  rcases fin4_cases M hM with rfl | rfl | rfl <;> rcases fin4_cases N hN with rfl | rfl | rfl
  all_goals
    simp only [h11, h12, h13, h21, h22, h23, h31, h32, h33, r1.1, r1.2, r2.1, r2.2, r3.1, r3.2]
    simp

/-- The round trip of the first calibration star after the degenerate
calibration: `calc_scope` gives azimuth 0, elevation 0 and `calc_equat` then
stores right ascension 280. -/
theorem same_reading_round_trip (s : Arrays ℝ)
    (hs : s = init_arrays realLibm RADIAN INIT2 (sky_mount 0 90 0 0 0) 0 0 0
        (init_arrays realLibm RADIAN INIT1 (sky_mount 0 0 0 0 0) 0 0 0 zero_arrays)) :
    (calc_equat realLibm RADIAN
      (calc_scope realLibm RADIAN (sky_mount 0 0 0 0 0) 0 0 0 0 0 s).1 0 0 0
      (calc_scope realLibm RADIAN (sky_mount 0 0 0 0 0) 0 0 0 0 0 s).2).1.ra_2000_deg = 280 := by
  have h10 : (1 : Fin 4) ≠ 0 := by decide
  have h20 : (2 : Fin 4) ≠ 0 := by decide
  have h30 : (3 : Fin 4) ≠ 0 := by decide
  have hdet := det3_X_ne_zero_of_stars RADIAN (sky_mount 0 0 0 0 0) (sky_mount 0 90 0 0 0)
    0 0 0 zero_arrays s hs (stars_distinct 0 0 0 0).1 (stars_distinct 0 0 0 0).2
  have hmap := R_maps_first_star realLibm RADIAN (sky_mount 0 0 0 0 0)
    (sky_mount 0 90 0 0 0) 0 0 0 zero_arrays s hs hdet
  -- `calc_scope`: the vector `R * x` is `(1, 0, 0)`
  have hy1 : (load_equat realLibm RADIAN (sky_mount 0 0 0 0 0) s).Y 1 1 = 1 := by
    rw [load_equat_Y _ _ _ _ 1 h10, hmap 1 h10]
    simp [mount_vector, realLibm, sky_mount]
  have hy2 : (load_equat realLibm RADIAN (sky_mount 0 0 0 0 0) s).Y 2 1 = 0 := by
    rw [load_equat_Y _ _ _ _ 2 h20, hmap 2 h20]
    simp [mount_vector, realLibm, sky_mount]
  have hy3 : (load_equat realLibm RADIAN (sky_mount 0 0 0 0 0) s).Y 3 1 = 0 := by
    rw [load_equat_Y _ _ _ _ 3 h30, hmap 3 h30]
    simp [mount_vector, realLibm, sky_mount]
  have hQ1 : (load_equat realLibm RADIAN (sky_mount 0 0 0 0 0) s).Q = s.Q :=
    (load_equat_frame _ _ _ _).2
  simp only [calc_scope]
  generalize load_equat realLibm RADIAN (sky_mount 0 0 0 0 0) s = s1 at hy1 hy2 hy3 hQ1 ⊢
  have hFH1 : angle_subr realLibm RADIAN s1 0 0 = (0, 0) :=
    angle_subr_x_axis _ _ _ _ (by rw [hy1]; norm_num) hy2 hy3
  rw [hFH1]
  simp only
  have w1 : (subr_785 realLibm RADIAN ((0 : ℝ) / RADIAN) ((0 : ℝ) / RADIAN) 0 0 s1).Y 1 1
      = 1 := by
    rw [(subr_785_Y _ _ _ _ _ _ _).1]
    simp [realLibm]
  have w2 : (subr_785 realLibm RADIAN ((0 : ℝ) / RADIAN) ((0 : ℝ) / RADIAN) 0 0 s1).Y 2 1
      = 0 := by
    rw [(subr_785_Y _ _ _ _ _ _ _).2.1]
    simp [realLibm]
  have w3 : (subr_785 realLibm RADIAN ((0 : ℝ) / RADIAN) ((0 : ℝ) / RADIAN) 0 0 s1).Y 3 1
      = 0 := by
    rw [(subr_785_Y _ _ _ _ _ _ _).2.2]
    simp [realLibm]
  have hQ2 : (subr_785 realLibm RADIAN ((0 : ℝ) / RADIAN) ((0 : ℝ) / RADIAN) 0 0 s1).Q = s.Q := by
    rw [(subr_785_frame _ _ _ _ _ _ _).2, hQ1]
  generalize subr_785 realLibm RADIAN ((0 : ℝ) / RADIAN) ((0 : ℝ) / RADIAN) 0 0 s1 = s2
    at w1 w2 w3 hQ2 ⊢
  -- `calc_equat`: `Q` is zero, the vector decoded is the zero vector
  have hz : ∀ (p : pos_struct ℝ) (i : Fin 4), i ≠ 0 →
      (load_mount realLibm RADIAN p 0 0 0 s2).Y i 1 = 0 := by
    intro p i hi
    rw [load_mount_Y _ _ _ _ _ _ _ i hi, hQ2]
    simp only [mul_vec, same_reading_Q_zero s hs i 1 hi h10,
      same_reading_Q_zero s hs i 2 hi h20, same_reading_Q_zero s hs i 3 hi h30]
    ring
  have hra : ∀ p : pos_struct ℝ, p.sid_time = 0 →
      (calc_equat realLibm RADIAN p 0 0 0 s2).1.ra_2000_deg = 280 := by
    intro p hp
    rw [calc_equat_ra, angle_subr_pole _ _ _ _ (hz p 1 h10) (hz p 2 h20), hp]
    norm_num
    exact normalize_360_of_range _ (by norm_num) (by norm_num)
  exact hra _ rfl

/-- C2, amended: with `RADIAN = 180/pi`, `Z1 = Z2 = 0` and any `Z3`, for a
calibration produced by `init_arrays` from two stars with distinct,
non-antipodal equatorial directions and non-parallel mount-frame vectors, and
for every position with `|dec_2000| < 90` whose image under `R` is off the
mount pole axis: `calc_equat`, run on any position `q` that carries the
`horiz` and `elev` stored by `calc_scope` and the same `sid_time` (whatever its
fields `ra_2000_deg` and `dec_2000` hold on entry, so also on the record
`calc_scope` returns), stores the original `dec_2000` and a `ra_2000_deg` that
differs from the original by a multiple of 360; it is the original when that
lies strictly between 0 and 360. -/
theorem round_trip_calibrated (pos1 pos2 pos q : pos_struct ℝ) (Z3 F0 H0 : ℝ)
    (st0 s : Arrays ℝ)
    (hs : s = init_arrays realLibm (180 / Real.pi) INIT2 pos2 0 0 Z3
        (init_arrays realLibm (180 / Real.pi) INIT1 pos1 0 0 Z3 st0))
    (hdist : equat_vector realLibm (180 / Real.pi) pos1 ≠
      equat_vector realLibm (180 / Real.pi) pos2)
    (hanti : equat_vector realLibm (180 / Real.pi) pos1 ≠
      -equat_vector realLibm (180 / Real.pi) pos2)
    (hmount : 0 <
      cross3 (mount_vector realLibm (180 / Real.pi) pos1 0 0 Z3)
        (mount_vector realLibm (180 / Real.pi) pos2 0 0 Z3) 1 ^ 2 +
      cross3 (mount_vector realLibm (180 / Real.pi) pos1 0 0 Z3)
        (mount_vector realLibm (180 / Real.pi) pos2 0 0 Z3) 2 ^ 2 +
      cross3 (mount_vector realLibm (180 / Real.pi) pos1 0 0 Z3)
        (mount_vector realLibm (180 / Real.pi) pos2 0 0 Z3) 3 ^ 2)
    (hdec : -90 < pos.dec_2000 ∧ pos.dec_2000 < 90)
    (hpole : mul_vec s.R (equat_vector realLibm (180 / Real.pi) pos) 1 ≠ 0 ∨
      mul_vec s.R (equat_vector realLibm (180 / Real.pi) pos) 2 ≠ 0)
    (hh : q.horiz = (calc_scope realLibm (180 / Real.pi) pos 0 0 Z3 F0 H0 s).1.horiz)
    (he : q.elev = (calc_scope realLibm (180 / Real.pi) pos 0 0 Z3 F0 H0 s).1.elev)
    (ht : q.sid_time = pos.sid_time) :
    (calc_equat realLibm (180 / Real.pi) q 0 0 Z3
      (calc_scope realLibm (180 / Real.pi) pos 0 0 Z3 F0 H0 s).2).1.dec_2000 = pos.dec_2000 ∧
    (∃ k : ℤ, (calc_equat realLibm (180 / Real.pi) q 0 0 Z3
      (calc_scope realLibm (180 / Real.pi) pos 0 0 Z3 F0 H0 s).2).1.ra_2000_deg =
        pos.ra_2000_deg + 360 * k) ∧
    (0 < pos.ra_2000_deg → pos.ra_2000_deg < 360 →
      (calc_equat realLibm (180 / Real.pi) q 0 0 Z3
        (calc_scope realLibm (180 / Real.pi) pos 0 0 Z3 F0 H0 s).2).1.ra_2000_deg =
          pos.ra_2000_deg) := by
  have hX := det3_X_ne_zero_of_stars (180 / Real.pi) pos1 pos2 0 0 Z3 st0 s hs hdist hanti
  have hR := det3_R_ne_zero (180 / Real.pi) pos1 pos2 0 0 Z3 st0 s hs hX hmount
  obtain ⟨_, _, _, _, _, _, _, hQ⟩ :=
    init_arrays_summary realLibm (180 / Real.pi) pos1 pos2 0 0 Z3 st0 s hs
  obtain ⟨hd, k, hk⟩ := round_trip_from_reading s pos q Z3 F0 H0
    (fun v i hi => (mul_vec_inverse s.R s.Q hR hQ v i hi).1) hdec hpole hh he ht
  refine ⟨hd, ⟨k, hk⟩, ?_⟩
  intro h0 h360
  obtain ⟨r0, r360⟩ := calc_equat_ra_closed_range (180 / Real.pi) q 0 0 Z3
    (calc_scope realLibm (180 / Real.pi) pos 0 0 Z3 F0 H0 s).2
  rw [hk] at r0 r360 ⊢
  have hk0 : k = 0 := by
    have h1 : (-1 : ℝ) < (k : ℝ) := by linarith
    have h2 : (k : ℝ) < 1 := by linarith
    have h1' : (-1 : ℤ) < k := by exact_mod_cast h1
    have h2' : k < (1 : ℤ) := by exact_mod_cast h2
    omega
  rw [hk0]
  simp


theorem ninety_div_rad : (90 : ℝ) / (180 / Real.pi) = Real.pi / 2 := by
  have := Real.pi_pos
  field_simp
  ring

theorem ideal_stars_distinct :
    equat_vector realLibm (180 / Real.pi) (sky_mount 15 0 1 0 0) ≠
      equat_vector realLibm (180 / Real.pi) (sky_mount 15 90 1 0 90) ∧
    equat_vector realLibm (180 / Real.pi) (sky_mount 15 0 1 0 0) ≠
      -equat_vector realLibm (180 / Real.pi) (sky_mount 15 90 1 0 90) := by
  constructor
  · intro h
    have := congrFun h 3
    simp [equat_vector, realLibm, sky_mount, ninety_div_rad] at this
  · intro h
    have := congrFun h 3
    simp [equat_vector, realLibm, sky_mount, ninety_div_rad] at this

theorem ideal_mounts_not_parallel :
    0 < cross3 (mount_vector realLibm (180 / Real.pi) (sky_mount 15 0 1 0 0) 0 0 0)
          (mount_vector realLibm (180 / Real.pi) (sky_mount 15 90 1 0 90) 0 0 0) 1 ^ 2 +
        cross3 (mount_vector realLibm (180 / Real.pi) (sky_mount 15 0 1 0 0) 0 0 0)
          (mount_vector realLibm (180 / Real.pi) (sky_mount 15 90 1 0 90) 0 0 0) 2 ^ 2 +
        cross3 (mount_vector realLibm (180 / Real.pi) (sky_mount 15 0 1 0 0) 0 0 0)
          (mount_vector realLibm (180 / Real.pi) (sky_mount 15 90 1 0 90) 0 0 0) 3 ^ 2 := by
  simp [cross3, mount_vector, realLibm, sky_mount, ninety_div_rad]

theorem ideal_off_pole (s : Arrays ℝ)
    (hs : s = init_arrays realLibm (180 / Real.pi) INIT2 (sky_mount 15 90 1 0 90) 0 0 0
        (init_arrays realLibm (180 / Real.pi) INIT1 (sky_mount 15 0 1 0 0) 0 0 0 zero_arrays)) :
    mul_vec s.R (equat_vector realLibm (180 / Real.pi) (sky_mount 15 0 1 0 0)) 1 ≠ 0 ∨
    mul_vec s.R (equat_vector realLibm (180 / Real.pi) (sky_mount 15 0 1 0 0)) 2 ≠ 0 := by
  have hdet := det3_X_ne_zero_of_stars (180 / Real.pi) (sky_mount 15 0 1 0 0)
    (sky_mount 15 90 1 0 90) 0 0 0 zero_arrays s hs ideal_stars_distinct.1
    ideal_stars_distinct.2
  have hmap := R_maps_first_star realLibm (180 / Real.pi) (sky_mount 15 0 1 0 0)
    (sky_mount 15 90 1 0 90) 0 0 0 zero_arrays s hs hdet 1 (by decide)
  left
  rw [hmap]
  simp [mount_vector, realLibm, sky_mount]

/-- Witness of C2 (amended): stars at hour angle 0 on the equator (read at
azimuth 0, elevation 0) and at the pole (read at elevation 90), sidereal time
1 h, no offsets.  `calc_equat` is run on the record `calc_scope` returned for
the first star with the fields `ra_2000_deg` and `dec_2000` overwritten by 200
and 50; it stores Dec 0 and RA 15. -/
theorem round_trip_calibrated_witness :
    (calc_equat realLibm (180 / Real.pi)
      { (calc_scope realLibm (180 / Real.pi) (sky_mount 15 0 1 0 0) 0 0 0 0 0
        (init_arrays realLibm (180 / Real.pi) INIT2 (sky_mount 15 90 1 0 90) 0 0 0
          (init_arrays realLibm (180 / Real.pi) INIT1 (sky_mount 15 0 1 0 0) 0 0 0
            zero_arrays))).1 with ra_2000_deg := 200, dec_2000 := 50 } 0 0 0
      (calc_scope realLibm (180 / Real.pi) (sky_mount 15 0 1 0 0) 0 0 0 0 0
        (init_arrays realLibm (180 / Real.pi) INIT2 (sky_mount 15 90 1 0 90) 0 0 0
          (init_arrays realLibm (180 / Real.pi) INIT1 (sky_mount 15 0 1 0 0) 0 0 0
            zero_arrays))).2).1.dec_2000 = 0 ∧
    (calc_equat realLibm (180 / Real.pi)
      { (calc_scope realLibm (180 / Real.pi) (sky_mount 15 0 1 0 0) 0 0 0 0 0
        (init_arrays realLibm (180 / Real.pi) INIT2 (sky_mount 15 90 1 0 90) 0 0 0
          (init_arrays realLibm (180 / Real.pi) INIT1 (sky_mount 15 0 1 0 0) 0 0 0
            zero_arrays))).1 with ra_2000_deg := 200, dec_2000 := 50 } 0 0 0
      (calc_scope realLibm (180 / Real.pi) (sky_mount 15 0 1 0 0) 0 0 0 0 0
        (init_arrays realLibm (180 / Real.pi) INIT2 (sky_mount 15 90 1 0 90) 0 0 0
          (init_arrays realLibm (180 / Real.pi) INIT1 (sky_mount 15 0 1 0 0) 0 0 0
            zero_arrays))).2).1.ra_2000_deg = 15 :=
  have h := round_trip_calibrated (sky_mount 15 0 1 0 0) (sky_mount 15 90 1 0 90)
    (sky_mount 15 0 1 0 0) _ 0 0 0 zero_arrays _ rfl ideal_stars_distinct.1
    ideal_stars_distinct.2 ideal_mounts_not_parallel
    (by constructor <;> simp [sky_mount]) (ideal_off_pole _ rfl) rfl rfl rfl
  ⟨h.1, h.2.2 (by simp [sky_mount]) (by simp [sky_mount]; norm_num)⟩

end RoundTripTheorems

/-! ## Round trip with a nonzero offset: the counterexample -/

section OffsetCounterexample

theorem offset_ratio : (18 / Real.pi) / (180 / Real.pi) = (1 / 10 : ℝ) := by
  have := Real.pi_pos
  field_simp
  ring

theorem offset_in_range : -10 < 18 / Real.pi ∧ 18 / Real.pi < 10 := by
  have h := Real.pi_gt_three
  have hp := Real.pi_pos
  constructor
  · have : 0 < 18 / Real.pi := by positivity
    linarith
  · rw [div_lt_iff₀ hp]
    linarith

/-- The calibration of the second example: stars on the equator at hour
angles 0 and 90 degrees, read at azimuths 0 and 90, elevation 0, with
`Z2 = 18/pi` degrees (`Z2/RADIAN = 1/10`). -/
theorem offset_calibration (s : Arrays ℝ)
    (hs : s = init_arrays realLibm (180 / Real.pi) INIT2 (sky_mount 90 0 0 90 0)
        0 (18 / Real.pi) 0
        (init_arrays realLibm (180 / Real.pi) INIT1 (sky_mount 0 0 0 0 0)
          0 (18 / Real.pi) 0 zero_arrays)) :
    (∀ (v : Fin 4 → ℝ),
      mul_vec s.R v 1 = v 1 - 1 / 10 * v 2 ∧
      mul_vec s.R v 2 = 1 / 10 * v 1 + v 2 ∧
      mul_vec s.R v 3 = v 3) ∧
    (∀ (u : Fin 4 → ℝ),
      mul_vec s.Q u 1 = (u 1 + 1 / 10 * u 2) / (101 / 100) ∧
      mul_vec s.Q u 2 = (u 2 - 1 / 10 * u 1) / (101 / 100) ∧
      mul_vec s.Q u 3 = u 3) := by
  obtain ⟨hx1, hx2, hx3, hy1, hy2, hy3, hR, hQ⟩ :=
    init_arrays_summary realLibm (180 / Real.pi) (sky_mount 0 0 0 0 0) (sky_mount 90 0 0 90 0)
      0 (18 / Real.pi) 0 zero_arrays s hs
  have h10 : (1 : Fin 4) ≠ 0 := by decide
  have h20 : (2 : Fin 4) ≠ 0 := by decide
  have h30 : (3 : Fin 4) ≠ 0 := by decide
  have sq1 : Real.sqrt 1 = 1 := Real.sqrt_one
  have g1 : guard_zero (1 : ℝ) = 1 := guard_zero_of_ne _ one_ne_zero
  -- the sky basis is the identity
  have x11 := hx1 1 h10
  have x21 := hx1 2 h20
  have x31 := hx1 3 h30
  have x12 := hx2 1 h10
  have x22 := hx2 2 h20
  have x32 := hx2 3 h30
  have x13 := hx3 1 h10
  have x23 := hx3 2 h20
  have x33 := hx3 3 h30
  simp [equat_vector, realLibm, sky_mount, ninety_div_rad, cross3, g1] at x11 x21 x31 x12 x22 x32 x13 x23 x33
  -- the mount basis
  have y11 := hy1 1 h10
  have y21 := hy1 2 h20
  have y31 := hy1 3 h30
  have y12 := hy2 1 h10
  have y22 := hy2 2 h20
  have y32 := hy2 3 h30
  have y13 := hy3 1 h10
  have y23 := hy3 2 h20
  have y33 := hy3 3 h30
  simp [mount_vector, realLibm, sky_mount, ninety_div_rad, cross3, offset_ratio] at y11 y21 y31 y12 y22 y32 y13 y23 y33
  have hsq : Real.sqrt ((1 + (10 : ℝ)⁻¹ * 10⁻¹) ^ 2) = 1 + (10 : ℝ)⁻¹ * 10⁻¹ :=
    Real.sqrt_sq (by norm_num)
  rw [hsq, guard_zero_of_ne _ (by norm_num), div_self (by norm_num)] at y33
  -- the Cramer inverse of the identity
  obtain ⟨c11, c12, c13, c21, c22, c23, c31, c32, c33⟩ := det3_col_unit s.X
  have dX : det3 s.X = 1 := by
    simp [det3, x11, x21, x31, x12, x22, x32, x13, x23, x33]
  have hR' : ∀ I : Fin 4, I ≠ 0 →
      s.R I 1 = s.Y I 1 ∧ s.R I 2 = s.Y I 2 ∧ s.R I 3 = s.Y I 3 := by
    intro I hI
    rw [hR I 1 hI h10, hR I 2 hI h20, hR I 3 hI h30]
    simp only [cramer_inverse, dX, g1, c11, c12, c13, c21, c22, c23, c31, c32, c33,
      x11, x21, x31, x12, x22, x32, x13, x23, x33]
    norm_num
  have r11 := (hR' 1 h10).1
  have r12 := (hR' 1 h10).2.1
  have r13 := (hR' 1 h10).2.2
  have r21 := (hR' 2 h20).1
  have r22 := (hR' 2 h20).2.1
  have r23 := (hR' 2 h20).2.2
  have r31 := (hR' 3 h30).1
  have r32 := (hR' 3 h30).2.1
  have r33 := (hR' 3 h30).2.2
  rw [y11] at r11
  rw [y12] at r12
  rw [y13] at r13
  rw [y21] at r21
  rw [y22] at r22
  rw [y23] at r23
  rw [y31] at r31
  rw [y32] at r32
  rw [y33] at r33
  obtain ⟨d11, d12, d13, d21, d22, d23, d31, d32, d33⟩ := det3_col_unit s.R
  have dR : det3 s.R = 101 / 100 := by
    simp only [det3, r11, r12, r13, r21, r22, r23, r31, r32, r33]
    norm_num
  have gR : guard_zero (101 / 100 : ℝ) = 101 / 100 := guard_zero_of_ne _ (by norm_num)
  constructor
  · intro v
    simp only [mul_vec, r11, r12, r13, r21, r22, r23, r31, r32, r33]
    refine ⟨?_, ?_, ?_⟩ <;> ring
  · intro u
    simp only [mul_vec, hQ 1 1 h10 h10, hQ 1 2 h10 h20, hQ 1 3 h10 h30, hQ 2 1 h20 h10,
      hQ 2 2 h20 h20, hQ 2 3 h20 h30, hQ 3 1 h30 h10, hQ 3 2 h30 h20, hQ 3 3 h30 h30,
      cramer_inverse, dR, gR, d11, d12, d13, d21, d22, d23, d31, d32, d33,
      r11, r12, r13, r21, r22, r23, r31, r32, r33]
    refine ⟨?_, ?_, ?_⟩ <;> ring


theorem arctan_99_le : Real.arctan (99 / 100) ≤ Real.pi / 4 - 1 / 10 ^ 7 := by
  have hadd : Real.arctan (99 / 100) + Real.arctan (1 / 199) = Real.pi / 4 := by
    rw [Real.arctan_add (by norm_num)]
    have : ((99 : ℝ) / 100 + 1 / 199) / (1 - 99 / 100 * (1 / 199)) = 1 := by norm_num
    rw [this, Real.arctan_one]
  have hpi := Real.pi_gt_three
  have he : (1 : ℝ) / 10 ^ 7 ≤ Real.arctan (1 / 199) := by
    have h1 : -(Real.pi / 2) < (1 : ℝ) / 10 ^ 7 := by
      have : (0 : ℝ) < 1 / 10 ^ 7 := by positivity
      linarith
    have h2 : (1 : ℝ) / 10 ^ 7 < Real.pi / 2 := by
      have : (1 : ℝ) / 10 ^ 7 < 1 := by norm_num
      linarith
    have hcos : (1 : ℝ) / 2 ≤ Real.cos (1 / 10 ^ 7) := by
      have := Real.one_sub_sq_div_two_le_cos (x := (1 : ℝ) / 10 ^ 7)
      have h3 : (1 : ℝ) / 2 ≤ 1 - (1 / 10 ^ 7) ^ 2 / 2 := by norm_num
      linarith
    have hsin : Real.sin (1 / 10 ^ 7) ≤ (1 : ℝ) / 10 ^ 7 := Real.sin_le (by positivity)
    have htan : Real.tan (1 / 10 ^ 7) ≤ 1 / 199 := by
      rw [Real.tan_eq_sin_div_cos, div_le_iff₀ (by linarith)]
      have : (1 : ℝ) / 10 ^ 7 ≤ 1 / 199 * (1 / 2) := by norm_num
      nlinarith
    have := Real.arctan_tan h1 h2
    rw [← this]
    exact Real.arctan_strictMono.monotone htan
  linarith

theorem sq_sum_785 (c s cH z : ℝ) (h : c ^ 2 + s ^ 2 = 1) :
    (c * cH + s * z) ^ 2 + (s * cH - c * z) ^ 2 = cH ^ 2 + z ^ 2 := by
  linear_combination (cH ^ 2 + z ^ 2) * h

theorem sq_sum_750 (c s cH z : ℝ) (h : c ^ 2 + s ^ 2 = 1) :
    (c * cH - s * z) ^ 2 + (s * cH + c * z) ^ 2 = cH ^ 2 + z ^ 2 := by
  linear_combination (cH ^ 2 + z ^ 2) * h

/-- With `RADIAN = 180/pi` and the vector off the pole axis, the sine of the
decoded elevation is `z` over the norm, and its square is `z^2` over the
squared norm. -/
theorem angle_subr_sin_elev (st : Arrays ℝ) (F H : ℝ) (hxy : st.Y 1 1 ≠ 0 ∨ st.Y 2 1 ≠ 0) :
    Real.sin ((angle_subr realLibm (180 / Real.pi) st F H).2 / (180 / Real.pi)) ^ 2 =
      st.Y 3 1 ^ 2 / (st.Y 1 1 ^ 2 + st.Y 2 1 ^ 2 + st.Y 3 1 ^ 2) ∧
    (0 < st.Y 3 1 →
      0 < Real.sin ((angle_subr realLibm (180 / Real.pi) st F H).2 / (180 / Real.pi))) := by
  obtain ⟨hn, _, _, e3⟩ := encode_decoded st F H hxy
  have hpos : 0 < st.Y 1 1 ^ 2 + st.Y 2 1 ^ 2 + st.Y 3 1 ^ 2 := Real.sqrt_pos.mp hn
  constructor
  · rw [e3, div_pow, Real.sq_sqrt hpos.le]
  · intro hz
    rw [e3]
    exact div_pos hz hn


theorem forty_five_div_rad : (45 : ℝ) / (180 / Real.pi) = Real.pi / 4 := by
  have := Real.pi_pos
  field_simp
  ring

theorem deg_45_bound :
    (Real.pi / 4 - 1 / 10 ^ 7) * (180 / Real.pi) < 45 - 1 / 10 ^ 6 := by
  have hpi := Real.pi_pos
  have h4 := Real.pi_lt_four
  have e : (Real.pi / 4 - 1 / 10 ^ 7) * (180 / Real.pi) = 45 - 1 / 10 ^ 7 * (180 / Real.pi) := by
    field_simp
    ring
  have h10 : (10 : ℝ) < 180 / Real.pi := by
    rw [lt_div_iff₀ hpi]
    linarith
  have h7 : (1 : ℝ) / 10 ^ 7 * 10 < 1 / 10 ^ 7 * (180 / Real.pi) :=
    mul_lt_mul_of_pos_left h10 (by positivity)
  have h6 : (1 : ℝ) / 10 ^ 7 * 10 = 1 / 10 ^ 6 := by norm_num
  rw [e]
  linarith

set_option maxHeartbeats 1600000 in
/-- The round trip of RA 0, Dec 45 after the calibration of
`offset_calibration`, with `Z2 = 18/pi`: the declination returned is below
`45 - 1/10^6`. -/
theorem offset_round_trip (s : Arrays ℝ)
    (hs : s = init_arrays realLibm (180 / Real.pi) INIT2 (sky_mount 90 0 0 90 0)
        0 (18 / Real.pi) 0
        (init_arrays realLibm (180 / Real.pi) INIT1 (sky_mount 0 0 0 0 0)
          0 (18 / Real.pi) 0 zero_arrays)) :
    (calc_equat realLibm (180 / Real.pi)
      (calc_scope realLibm (180 / Real.pi) (sky_mount 0 45 0 0 0) 0 (18 / Real.pi) 0 0 0 s).1
      0 (18 / Real.pi) 0
      (calc_scope realLibm (180 / Real.pi) (sky_mount 0 45 0 0 0) 0 (18 / Real.pi) 0 0 0 s).2
      ).1.dec_2000 < 45 - 1 / 10 ^ 6 := by
  obtain ⟨hRv, hQu⟩ := offset_calibration s hs
  have h10 : (1 : Fin 4) ≠ 0 := by decide
  have h20 : (2 : Fin 4) ≠ 0 := by decide
  have h30 : (3 : Fin 4) ≠ 0 := by decide
  have hpi := Real.pi_pos
  have hA : 0 < Real.sqrt 2 / 2 := by positivity
  have hA2 : (Real.sqrt 2 / 2) ^ 2 = 1 / 2 := by
    rw [div_pow, Real.sq_sqrt (by norm_num)]
    norm_num
  -- first decoding: the vector `R * x`
  have hy1 : (load_equat realLibm (180 / Real.pi) (sky_mount 0 45 0 0 0) s).Y 1 1 =
      Real.sqrt 2 / 2 := by
    rw [load_equat_Y _ _ _ _ 1 h10, (hRv _).1]
    simp [equat_vector, realLibm, sky_mount, forty_five_div_rad]
  have hy2 : (load_equat realLibm (180 / Real.pi) (sky_mount 0 45 0 0 0) s).Y 2 1 =
      1 / 10 * (Real.sqrt 2 / 2) := by
    rw [load_equat_Y _ _ _ _ 2 h20, (hRv _).2.1]
    simp [equat_vector, realLibm, sky_mount, forty_five_div_rad]
  have hy3 : (load_equat realLibm (180 / Real.pi) (sky_mount 0 45 0 0 0) s).Y 3 1 =
      Real.sqrt 2 / 2 := by
    rw [load_equat_Y _ _ _ _ 3 h30, (hRv _).2.2]
    simp [equat_vector, realLibm, sky_mount, forty_five_div_rad]
  have hQ1 : (load_equat realLibm (180 / Real.pi) (sky_mount 0 45 0 0 0) s).Q = s.Q :=
    (load_equat_frame _ _ _ _).2
  rw [calc_equat_dec]
  simp only [calc_scope]
  generalize load_equat realLibm (180 / Real.pi) (sky_mount 0 45 0 0 0) s = s1
    at hy1 hy2 hy3 hQ1 ⊢
  have hxy1 : s1.Y 1 1 ≠ 0 ∨ s1.Y 2 1 ≠ 0 := Or.inl (by rw [hy1]; exact hA.ne')
  obtain ⟨S1sq, S1pos⟩ := angle_subr_sin_elev s1 0 0 hxy1
  rw [hy1, hy2, hy3] at S1sq
  have S1sq' : Real.sin ((angle_subr realLibm (180 / Real.pi) s1 0 0).2 / (180 / Real.pi)) ^ 2
      = 100 / 201 := by
    rw [S1sq, mul_pow, hA2]
    norm_num
  have S1pos' := S1pos (by rw [hy3]; exact hA)
  generalize angle_subr realLibm (180 / Real.pi) s1 0 0 = FH1 at S1sq' S1pos' ⊢
  have C1sq : Real.cos (FH1.2 / (180 / Real.pi)) ^ 2 = 101 / 201 := by
    have := Real.sin_sq_add_cos_sq (FH1.2 / (180 / Real.pi))
    linarith
  -- the vector written by `subr_785` and its decoding
  obtain ⟨w1, w2, w3⟩ := subr_785_Y realLibm (180 / Real.pi)
    (FH1.1 / (180 / Real.pi)) (FH1.2 / (180 / Real.pi)) 0 (18 / Real.pi) s1
  have hQ2 : (subr_785 realLibm (180 / Real.pi) (FH1.1 / (180 / Real.pi))
      (FH1.2 / (180 / Real.pi)) 0 (18 / Real.pi) s1).Q = s.Q := by
    rw [(subr_785_frame _ _ _ _ _ _ _).2, hQ1]
  generalize subr_785 realLibm (180 / Real.pi) (FH1.1 / (180 / Real.pi))
    (FH1.2 / (180 / Real.pi)) 0 (18 / Real.pi) s1 = s2 at w1 w2 w3 hQ2 ⊢
  simp only [realLibm, offset_ratio, zero_div, mul_zero, sub_zero, add_zero] at w1 w2 w3
  have wsum : s2.Y 1 1 ^ 2 + s2.Y 2 1 ^ 2 = 101 / 201 + 1 / 100 := by
    rw [w1, w2, sq_sum_785 _ _ _ _ (Real.cos_sq_add_sin_sq _), C1sq]
    norm_num
  have hxy2 : s2.Y 1 1 ≠ 0 ∨ s2.Y 2 1 ≠ 0 := by
    by_contra hcon
    push_neg at hcon
    rw [hcon.1, hcon.2] at wsum
    norm_num at wsum
  obtain ⟨S2sq, S2pos⟩ := angle_subr_sin_elev s2 (FH1.1 / (180 / Real.pi))
    (FH1.2 / (180 / Real.pi)) hxy2
  rw [wsum, w3, S1sq'] at S2sq
  have S2sq' : Real.sin ((angle_subr realLibm (180 / Real.pi) s2 (FH1.1 / (180 / Real.pi))
      (FH1.2 / (180 / Real.pi))).2 / (180 / Real.pi)) ^ 2 = 10000 / 20301 := by
    rw [S2sq]
    norm_num
  have S2pos' := S2pos (by rw [w3]; exact S1pos')
  generalize angle_subr realLibm (180 / Real.pi) s2 (FH1.1 / (180 / Real.pi))
      (FH1.2 / (180 / Real.pi)) = FH2 at S2sq' S2pos' ⊢
  have C2sq : Real.cos (FH2.2 / (180 / Real.pi)) ^ 2 = 10301 / 20301 := by
    have := Real.sin_sq_add_cos_sq (FH2.2 / (180 / Real.pi))
    linarith
  -- `calc_equat`: the mount vector and its image under `Q`
  simp only [sky_mount, sub_zero, add_zero]
  suffices key : ∀ p : pos_struct ℝ, p.horiz = FH2.1 → p.elev = FH2.2 →
      (angle_subr realLibm (180 / Real.pi)
        (load_mount realLibm (180 / Real.pi) p 0 (18 / Real.pi) 0 s2)
        (FH2.1 / (180 / Real.pi)) (FH2.2 / (180 / Real.pi))).2 < 45 - 1 / 10 ^ 6 from
    key _ rfl rfl
  intro p hh he
  have u1 : mount_vector realLibm (180 / Real.pi) p 0 (18 / Real.pi) 0 1 =
      Real.cos (FH2.1 / (180 / Real.pi)) * Real.cos (FH2.2 / (180 / Real.pi)) -
        Real.sin (FH2.1 / (180 / Real.pi)) * (1 / 10) := by
    simp [mount_vector, realLibm, offset_ratio, hh, he]
  have u2 : mount_vector realLibm (180 / Real.pi) p 0 (18 / Real.pi) 0 2 =
      Real.sin (FH2.1 / (180 / Real.pi)) * Real.cos (FH2.2 / (180 / Real.pi)) +
        Real.cos (FH2.1 / (180 / Real.pi)) * (1 / 10) := by
    simp [mount_vector, realLibm, offset_ratio, hh, he]
  have u3 : mount_vector realLibm (180 / Real.pi) p 0 (18 / Real.pi) 0 3 =
      Real.sin (FH2.2 / (180 / Real.pi)) := by
    simp [mount_vector, realLibm, he]
  have usum : mount_vector realLibm (180 / Real.pi) p 0 (18 / Real.pi) 0 1 ^ 2 +
      mount_vector realLibm (180 / Real.pi) p 0 (18 / Real.pi) 0 2 ^ 2 =
      10301 / 20301 + 1 / 100 := by
    rw [u1, u2, sq_sum_750 _ _ _ _ (Real.cos_sq_add_sin_sq _), C2sq]
    norm_num
  have v1 : (load_mount realLibm (180 / Real.pi) p 0 (18 / Real.pi) 0 s2).Y 1 1 =
      (mount_vector realLibm (180 / Real.pi) p 0 (18 / Real.pi) 0 1 +
        1 / 10 * mount_vector realLibm (180 / Real.pi) p 0 (18 / Real.pi) 0 2) / (101 / 100) := by
    rw [load_mount_Y _ _ _ _ _ _ _ 1 h10, hQ2, (hQu _).1]
  have v2 : (load_mount realLibm (180 / Real.pi) p 0 (18 / Real.pi) 0 s2).Y 2 1 =
      (mount_vector realLibm (180 / Real.pi) p 0 (18 / Real.pi) 0 2 -
        1 / 10 * mount_vector realLibm (180 / Real.pi) p 0 (18 / Real.pi) 0 1) / (101 / 100) := by
    rw [load_mount_Y _ _ _ _ _ _ _ 2 h20, hQ2, (hQu _).2.1]
  have v3 : (load_mount realLibm (180 / Real.pi) p 0 (18 / Real.pi) 0 s2).Y 3 1 =
      Real.sin (FH2.2 / (180 / Real.pi)) := by
    rw [load_mount_Y _ _ _ _ _ _ _ 3 h30, hQ2, (hQu _).2.2, u3]
  generalize mount_vector realLibm (180 / Real.pi) p 0 (18 / Real.pi) 0 1 = a1 at usum v1 v2
  generalize mount_vector realLibm (180 / Real.pi) p 0 (18 / Real.pi) 0 2 = a2 at usum v1 v2
  generalize load_mount realLibm (180 / Real.pi) p 0 (18 / Real.pi) 0 s2 = s3 at v1 v2 v3 ⊢
  have vsum : s3.Y 1 1 ^ 2 + s3.Y 2 1 ^ 2 = (10301 / 20301 + 1 / 100) / (101 / 100) := by
    rw [v1, v2, ← usum]
    field_simp
    ring
  have hxy3 : s3.Y 1 1 ≠ 0 ∨ s3.Y 2 1 ≠ 0 := by
    by_contra hcon
    push_neg at hcon
    rw [hcon.1, hcon.2] at vsum
    norm_num at vsum
  rw [angle_subr_elev _ s3 _ _ hxy3, v3, vsum]
  -- the tangent of the declination returned is below 99/100
  have hrho : 0 < Real.sqrt ((10301 / 20301 + 1 / 100) / (101 / 100)) :=
    Real.sqrt_pos.mpr (by norm_num)
  have ht : Real.sin (FH2.2 / (180 / Real.pi)) /
      Real.sqrt ((10301 / 20301 + 1 / 100) / (101 / 100)) < 99 / 100 := by
    rw [div_lt_iff₀ hrho]
    apply lt_of_pow_lt_pow_left₀ 2 (by positivity)
    rw [S2sq', mul_pow, Real.sq_sqrt (by norm_num)]
    norm_num
  have hat := lt_of_lt_of_le (Real.arctan_strictMono ht) arctan_99_le
  exact lt_trans (mul_lt_mul_of_pos_right hat rad_pos) deg_45_bound


theorem offset_stars_distinct :
    equat_vector realLibm (180 / Real.pi) (sky_mount 0 0 0 0 0) ≠
      equat_vector realLibm (180 / Real.pi) (sky_mount 90 0 0 90 0) ∧
    equat_vector realLibm (180 / Real.pi) (sky_mount 0 0 0 0 0) ≠
      -equat_vector realLibm (180 / Real.pi) (sky_mount 90 0 0 90 0) := by
  constructor
  · intro h
    have := congrFun h 1
    simp [equat_vector, realLibm, sky_mount, ninety_div_rad] at this
  · intro h
    have := congrFun h 1
    simp [equat_vector, realLibm, sky_mount, ninety_div_rad] at this

theorem offset_mounts_not_parallel :
    0 < cross3 (mount_vector realLibm (180 / Real.pi) (sky_mount 0 0 0 0 0) 0 (18 / Real.pi) 0)
          (mount_vector realLibm (180 / Real.pi) (sky_mount 90 0 0 90 0) 0 (18 / Real.pi) 0) 1 ^ 2 +
        cross3 (mount_vector realLibm (180 / Real.pi) (sky_mount 0 0 0 0 0) 0 (18 / Real.pi) 0)
          (mount_vector realLibm (180 / Real.pi) (sky_mount 90 0 0 90 0) 0 (18 / Real.pi) 0) 2 ^ 2 +
        cross3 (mount_vector realLibm (180 / Real.pi) (sky_mount 0 0 0 0 0) 0 (18 / Real.pi) 0)
          (mount_vector realLibm (180 / Real.pi) (sky_mount 90 0 0 90 0) 0 (18 / Real.pi) 0) 3 ^ 2 := by
  simp [cross3, mount_vector, realLibm, sky_mount, ninety_div_rad, offset_ratio]
  positivity

/-- C2, as stated, fails, in two ways.  (1) Two distinct, non-antipodal
stars read at the same mount position (all offsets 0, `RADIAN` of the source)
give `Q = 0`, and the round trip of RA 0, Dec 0 returns right ascension 280.
(2) With `RADIAN = 180/pi`, `Z1 = Z3 = 0` and `Z2 = 18/pi` (about 5.73
degrees), two stars on the equator 90 degrees apart read at azimuths 0 and 90
give a regular calibration, and the round trip of RA 0, Dec 45 returns a
declination below `45 - 1/10^6`: `subr_785` undoes `subr_750` only to first
order in the offsets. -/
theorem round_trip_fails :
    (equat_vector realLibm RADIAN (sky_mount 0 0 0 0 0) ≠
        equat_vector realLibm RADIAN (sky_mount 0 90 0 0 0) ∧
      equat_vector realLibm RADIAN (sky_mount 0 0 0 0 0) ≠
        -equat_vector realLibm RADIAN (sky_mount 0 90 0 0 0) ∧
      ¬ |(calc_equat realLibm RADIAN
          (calc_scope realLibm RADIAN (sky_mount 0 0 0 0 0) 0 0 0 0 0
            (init_arrays realLibm RADIAN INIT2 (sky_mount 0 90 0 0 0) 0 0 0
              (init_arrays realLibm RADIAN INIT1 (sky_mount 0 0 0 0 0) 0 0 0 zero_arrays))).1
          0 0 0
          (calc_scope realLibm RADIAN (sky_mount 0 0 0 0 0) 0 0 0 0 0
            (init_arrays realLibm RADIAN INIT2 (sky_mount 0 90 0 0 0) 0 0 0
              (init_arrays realLibm RADIAN INIT1 (sky_mount 0 0 0 0 0) 0 0 0 zero_arrays))).2
          ).1.ra_2000_deg - (sky_mount (0 : ℝ) 0 0 0 0).ra_2000_deg| ≤ 1 / 10 ^ 6) ∧
    (-10 < 18 / Real.pi ∧ 18 / Real.pi < 10 ∧
      equat_vector realLibm (180 / Real.pi) (sky_mount 0 0 0 0 0) ≠
        equat_vector realLibm (180 / Real.pi) (sky_mount 90 0 0 90 0) ∧
      equat_vector realLibm (180 / Real.pi) (sky_mount 0 0 0 0 0) ≠
        -equat_vector realLibm (180 / Real.pi) (sky_mount 90 0 0 90 0) ∧
      0 < cross3 (mount_vector realLibm (180 / Real.pi) (sky_mount 0 0 0 0 0) 0 (18 / Real.pi) 0)
            (mount_vector realLibm (180 / Real.pi) (sky_mount 90 0 0 90 0) 0 (18 / Real.pi) 0) 1 ^ 2 +
          cross3 (mount_vector realLibm (180 / Real.pi) (sky_mount 0 0 0 0 0) 0 (18 / Real.pi) 0)
            (mount_vector realLibm (180 / Real.pi) (sky_mount 90 0 0 90 0) 0 (18 / Real.pi) 0) 2 ^ 2 +
          cross3 (mount_vector realLibm (180 / Real.pi) (sky_mount 0 0 0 0 0) 0 (18 / Real.pi) 0)
            (mount_vector realLibm (180 / Real.pi) (sky_mount 90 0 0 90 0) 0 (18 / Real.pi) 0) 3 ^ 2 ∧
      ¬ |(calc_equat realLibm (180 / Real.pi)
          (calc_scope realLibm (180 / Real.pi) (sky_mount 0 45 0 0 0) 0 (18 / Real.pi) 0 0 0
            (init_arrays realLibm (180 / Real.pi) INIT2 (sky_mount 90 0 0 90 0) 0 (18 / Real.pi) 0
              (init_arrays realLibm (180 / Real.pi) INIT1 (sky_mount 0 0 0 0 0)
                0 (18 / Real.pi) 0 zero_arrays))).1
          0 (18 / Real.pi) 0
          (calc_scope realLibm (180 / Real.pi) (sky_mount 0 45 0 0 0) 0 (18 / Real.pi) 0 0 0
            (init_arrays realLibm (180 / Real.pi) INIT2 (sky_mount 90 0 0 90 0) 0 (18 / Real.pi) 0
              (init_arrays realLibm (180 / Real.pi) INIT1 (sky_mount 0 0 0 0 0)
                0 (18 / Real.pi) 0 zero_arrays))).2
          ).1.dec_2000 - (sky_mount (0 : ℝ) 45 0 0 0).dec_2000| ≤ 1 / 10 ^ 6) := by
  refine ⟨⟨(stars_distinct 0 0 0 0).1, (stars_distinct 0 0 0 0).2, ?_⟩,
    ⟨offset_in_range.1, offset_in_range.2, offset_stars_distinct.1, offset_stars_distinct.2,
      offset_mounts_not_parallel, ?_⟩⟩
  · rw [same_reading_round_trip _ rfl]
    simp only [sky_mount]
    norm_num
  · have h := offset_round_trip _ rfl
    intro hcon
    have h2 := (abs_le.mp hcon).1
    have e : (sky_mount (0 : ℝ) 45 0 0 0).dec_2000 = 45 := rfl
    rw [e] at h2
    linarith

end OffsetCounterexample

/-! ## Time system: theorems -/

section TimeTheorems

variable {K : Type} [LinearOrderedField K] [FloorRing K]

/-- C7: `Julian` applied to UT 2000-01-01 12:00:00 stores `Julian = 2451545.0`
and `Julian_0hrUT = 2451544.5`, exactly. -/
theorem Julian_reference_epoch (pos : pos_struct K) :
    (Julian (⟨2000, 1, 1, 12, 0, 0⟩ : time_date K) pos).Julian
        = 2451545 ∧
    (Julian (⟨2000, 1, 1, 12, 0, 0⟩ : time_date K) pos).Julian_0hrUT
        = 2451544.5 := by
  have t1 : truncate (2000 : K) = 2000 := by exact_mod_cast truncate_intCast (K := K) 2000
  have t2 : truncate (1 : K) = 1 := by exact_mod_cast truncate_intCast (K := K) 1
  have t3 : truncate (2920539 / 4 : K) = 730134 :=
    truncate_eq_of_nonneg _ _ (by norm_num) (by norm_num) (by norm_num)
  have t4 : truncate (2142007 / 5000 : K) = 428 :=
    truncate_eq_of_nonneg _ _ (by norm_num) (by norm_num) (by norm_num)
  simp only [Julian, t1, t2]
  norm_num [t3, t4, Int.tdiv]

theorem tmod_eq_zero_iff_emod (a b : ℤ) : Int.tmod a b = 0 ↔ a % b = 0 := by
  rw [← Int.dvd_iff_tmod_eq_zero, Int.dvd_iff_emod_eq_zero]

/-- C8: on validated local dates and times `LT_UT` equals its reference
definition `LT_UT_ref`: minutes and seconds are copied, the hour is
`tm_hr + timezone` reduced by 24 when it reaches 24, and in that case the date
is the next calendar day under the `DAYS` table and the legacy leap test. -/
theorem LT_UT_eq_ref (pos : pos_struct K) (year mon day : ℤ)
    (hy : pos.dt_year = year) (hm : pos.dt_mon = mon) (hd : pos.dt_day = day)
    (hmon : 1 ≤ mon ∧ mon ≤ 12)
    (hday : 1 ≤ day ∧ day ≤ DAYS_at (mon - 1) + legacy_leap year mon)
    (hhr : 0 ≤ pos.tm_hr ∧ pos.tm_hr < 24)
    (htz : 0 ≤ pos.timezone ∧ pos.timezone < 24) :
    LT_UT pos = LT_UT_ref year mon day pos.tm_hr pos.tm_min pos.tm_sec pos.timezone := by
  have hleap : (Int.tmod year 4 = 0 ∧ Int.tmod year 1000 ≠ 0) ↔
      (year % 4 = 0 ∧ year % 1000 ≠ 0) := by
    rw [tmod_eq_zero_iff_emod, Ne, tmod_eq_zero_iff_emod]
  have hm1 : truncate (((mon : ℤ) : K) - 1) = mon - 1 := by
    have := truncate_intCast (K := K) (mon - 1)
    push_cast at this
    exact this
  have hm2 : ((mon : K) = 2) ↔ mon = 2 := by
    constructor
    · intro h; exact_mod_cast h
    · intro h; exact_mod_cast h
  unfold LT_UT LT_UT_ref next_calendar_day
  simp only [hy, hm, hd, truncate_intCast, hm1, ge_iff_le, gt_iff_lt]
  by_cases hlt : pos.tm_hr + pos.timezone < 24
  · rw [if_neg (not_le.mpr hlt), if_pos hlt]
  · rw [if_pos (not_lt.mp hlt), if_neg hlt]
    have hflag : (if ((mon : K) = 2) ∧ Int.tmod year 4 = 0 ∧ Int.tmod year 1000 ≠ 0
        then (1 : ℤ) else 0) = legacy_leap year mon := by
      unfold legacy_leap
      exact if_congr (and_congr hm2 hleap) rfl rfl
    rw [hflag]
    by_cases hlast : day < DAYS_at (mon - 1) + legacy_leap year mon
    · have h1 : ¬ (((DAYS_at (mon - 1) + legacy_leap year mon : ℤ) : K) < (day : K) + 1) := by
        rw [not_lt]
        have : day + 1 ≤ DAYS_at (mon - 1) + legacy_leap year mon := by omega
        exact_mod_cast this
      rw [if_neg h1, if_pos hlast]
      simp
    · have h1 : ((DAYS_at (mon - 1) + legacy_leap year mon : ℤ) : K) < (day : K) + 1 := by
        have : DAYS_at (mon - 1) + legacy_leap year mon < day + 1 := by omega
        exact_mod_cast this
      rw [if_pos h1, if_neg hlast]
      by_cases h12 : mon < 12
      · have h2 : ¬ (((MONTHS : ℤ) : K) < (mon : K) + 1) := by
          rw [not_lt]
          have : mon + 1 ≤ MONTHS := by unfold MONTHS; omega
          exact_mod_cast this
        simp only [h2, if_false, if_pos h12]
        simp
      · have h2 : ((MONTHS : ℤ) : K) < (mon : K) + 1 := by
          have : MONTHS < mon + 1 := by unfold MONTHS; omega
          exact_mod_cast this
        simp only [h2, if_true, if_neg h12]
        simp

/-- Witness of C8: the local time 1900-02-28 20:30:15 in time zone 8 becomes
UT 1900-02-29 04:30:15 (the legacy leap test gives 1900 a February 29). -/
theorem LT_UT_eq_ref_witness :
    LT_UT (civil (1900 : ℚ) 2 28 20 30 15 8) = ⟨1900, 2, 29, 4, 30, 15⟩ := by
  have h := LT_UT_eq_ref (civil (1900 : ℚ) 2 28 20 30 15 8) 1900 2 28
    (by simp [civil]) (by simp [civil]) (by simp [civil]) (by decide) (by decide)
    (by norm_num [civil]) (by norm_num [civil])
  rw [h]
  have hn : next_calendar_day 1900 2 28 = (1900, 2, 29) := by decide
  simp only [LT_UT_ref, civil, hn]
  norm_num

/-- C9, as stated, fails: with time zone offset -2 the UT hour of local
23:00:00 on December 31 is 21, not 25, and the date does not roll over. -/
theorem LT_UT_negative_zone_no_rollover :
    LT_UT (civil (1999 : ℚ) 12 31 23 0 0 (-2)) = ⟨1999, 12, 31, 21, 0, 0⟩ ∧
    ¬ ((LT_UT (civil (1999 : ℚ) 12 31 23 0 0 (-2))).hr = 1 ∧
       (LT_UT (civil (1999 : ℚ) 12 31 23 0 0 (-2))).day = 1 ∧
       (LT_UT (civil (1999 : ℚ) 12 31 23 0 0 (-2))).mon = 1 ∧
       (LT_UT (civil (1999 : ℚ) 12 31 23 0 0 (-2))).year = 2000) := by
  have h : LT_UT (civil (1999 : ℚ) 12 31 23 0 0 (-2)) = ⟨1999, 12, 31, 21, 0, 0⟩ := by
    simp only [LT_UT, civil]
    norm_num
  rw [h]
  norm_num

/-- C9, amended: the time zone offset is added to the local hour, so for every
year `y` the local time December 31 of `y`, 23:00:00, with time zone offset 2
has UT hour 25 before reduction and becomes January 1 of `y + 1`, hour 1. -/
theorem LT_UT_year_rollover (y : K) :
    LT_UT (civil y 12 31 23 0 0 2) = ⟨y + 1, 1, 1, 1, 0, 0⟩ := by
  have t11 : truncate ((12 : K) - 1) = 11 := by
    have := truncate_intCast (K := K) 11
    norm_num at this ⊢
    exact this
  have hd : DAYS_at 11 = 31 := by decide
  simp only [LT_UT, civil, t11, hd, MONTHS]
  norm_num

/-- C10, as stated, fails: for UT 1800-01-01 00:00:00 (Julian date 2378496.5,
before 2415020) the sidereal time stored is negative, because the source has
no loop adding 24. -/
theorem sidereal_time_negative_before_1900 :
    (Julian (⟨1800, 1, 1, 0, 0, 0⟩ : time_date ℚ) (civil 1800 1 1 0 0 0 0)).Julian_0hrUT
        = 2378496.5 ∧
    (sidereal_time (⟨1800, 1, 1, 0, 0, 0⟩ : time_date ℚ)
        (Julian (⟨1800, 1, 1, 0, 0, 0⟩ : time_date ℚ) (civil 1800 1 1 0 0 0 0))).sid_time
        < 0 := by
  have t1 : truncate (1800 : ℚ) = 1800 := by exact_mod_cast truncate_intCast (K := ℚ) 1800
  have t2 : truncate (1 : ℚ) = 1 := by exact_mod_cast truncate_intCast (K := ℚ) 1
  have t3 : truncate (2628339 / 4 : ℚ) = 657084 :=
    truncate_eq_of_nonneg _ _ (by norm_num) (by norm_num) (by norm_num)
  have t4 : truncate (2142007 / 5000 : ℚ) = 428 :=
    truncate_eq_of_nonneg _ _ (by norm_num) (by norm_num) (by norm_num)
  have hJ : (Julian (⟨1800, 1, 1, 0, 0, 0⟩ : time_date ℚ)
      (civil 1800 1 1 0 0 0 0)).Julian_0hrUT = 2378496.5 := by
    simp only [Julian, t1, t2]
    norm_num [t3, t4, Int.tdiv]
  refine ⟨hJ, ?_⟩
  simp only [sidereal_time, hJ]
  rw [while_ge_sub_of_lt _ _ _ (by norm_num)]
  norm_num

/-- C10, amended: for every date the program accepts (`Julian_0hrUT` at least
2415020, the epoch of the polynomial) and non-negative UT hour, minute and
second, the reduction loop ends and `0 <= sid_time < 24`. -/
theorem sidereal_time_range (UT : time_date K) (pos : pos_struct K)
    (hJ : 2415020 ≤ pos.Julian_0hrUT) (hh : 0 ≤ UT.hr) (hm : 0 ≤ UT.min)
    (hs : 0 ≤ UT.sec) :
    0 ≤ (sidereal_time UT pos).sid_time ∧ (sidereal_time UT pos).sid_time < 24 := by
  simp only [sidereal_time]
  apply while_ge_sub_range 24 (by norm_num)
  · have hT : 0 ≤ (pos.Julian_0hrUT - 2415020) / 36525 :=
      div_nonneg (by linarith) (by norm_num)
    have h1 : 0 ≤ 2400.051262 * ((pos.Julian_0hrUT - 2415020) / 36525) :=
      mul_nonneg (by norm_num) hT
    have h2 : 0 ≤ 0.00002581 * ((pos.Julian_0hrUT - 2415020) / 36525) *
        ((pos.Julian_0hrUT - 2415020) / 36525) :=
      mul_nonneg (mul_nonneg (by norm_num) hT) hT
    have h3 : 0 ≤ (UT.hr + UT.min / 60 + UT.sec / 3600) * 1.002737908 :=
      mul_nonneg (by positivity) (by norm_num)
    have h4 : (0 : K) ≤ 6.6460656 := by norm_num
    linarith
  · exact lt_mul_loop_fuel_succ 24 (by norm_num) _

/-- Witness of C10 (amended): UT 12:00:00 on the day with Julian date at 0h UT
2451544.5 (2000-01-01). -/
theorem sidereal_time_range_witness :
    0 ≤ (sidereal_time (⟨2000, 1, 1, 12, 0, 0⟩ : time_date ℚ)
        { civil 2000 1 1 12 0 0 0 with Julian_0hrUT := 2451544.5 }).sid_time ∧
    (sidereal_time (⟨2000, 1, 1, 12, 0, 0⟩ : time_date ℚ)
        { civil 2000 1 1 12 0 0 0 with Julian_0hrUT := 2451544.5 }).sid_time < 24 :=
  sidereal_time_range _ _ (by norm_num) (by norm_num) (by norm_num) (by norm_num)

end TimeTheorems

/-! ## Precession -/

section PrecessTheorems
variable {K : Type} [LinearOrderedField K] [FloorRing K]

/-- What `calc_precess` computes: the right ascension follows the formula, the
declination term is taken at the updated right ascension. -/
theorem calc_precess_eq (m : Libm K) (rad end_year beg_year RA DEC : K) :
    (calc_precess m rad end_year beg_year RA DEC).1 =
      (precess_formula m rad beg_year end_year RA DEC).1 ∧
    (calc_precess m rad end_year beg_year RA DEC).2 =
      DEC + (20.0468 - 0.0085 * (((end_year + beg_year) / 2 - 1900) / 100)) *
        m.cos ((calc_precess m rad end_year beg_year RA DEC).1 / rad) *
        (end_year - beg_year) / 3600 := by
  simp [calc_precess, precess_formula]

/-- C11: `calc_precess` with equal years returns `RA` and `DEC` unchanged, and
`process_precess` on a position with `coord_year = 2000` stores
`ra_2000_deg = 15*(ra_hr + ra_min/60 + ra_sec/3600)` and
`dec_2000 = dec_deg + dec_min/60`.  Holds for any library functions and any
value of `RADIAN`. -/
theorem precess_same_year (m : Libm K) (rad : K) :
    (∀ y RA DEC : K, calc_precess m rad y y RA DEC = (RA, DEC)) ∧
    (∀ ptr : pos_struct K, ptr.coord_year = 2000 →
      (process_precess m rad ptr).ra_2000_deg =
        15 * (ptr.ra_hr + ptr.ra_min / 60 + ptr.ra_sec / 3600) ∧
      (process_precess m rad ptr).dec_2000 = ptr.dec_deg + ptr.dec_min / 60) := by
  have h : ∀ y RA DEC : K, calc_precess m rad y y RA DEC = (RA, DEC) := by
    intro y RA DEC
    simp [calc_precess]
  refine ⟨h, ?_⟩
  intro ptr hy
  simp only [process_precess, BASE_YEAR, hy, h]
  exact ⟨by ring, trivial⟩

/-- Witness of C11: years 1950 and 1950, and Sirius in year-2000 coordinates. -/
theorem precess_same_year_witness :
    calc_precess realLibm RADIAN 1950 1950 30 40 = (30, 40) ∧
    (catalogue 2000 6 45 9 (-16) (-43) : pos_struct ℝ).coord_year = 2000 ∧
    (process_precess realLibm RADIAN (catalogue 2000 6 45 9 (-16) (-43))).ra_2000_deg =
      15 * (6 + 45 / 60 + 9 / 3600) ∧
    (process_precess realLibm RADIAN (catalogue 2000 6 45 9 (-16) (-43))).dec_2000 =
      -16 + -43 / 60 :=
  ⟨(precess_same_year realLibm RADIAN).1 1950 30 40, rfl,
    (precess_same_year realLibm RADIAN).2 (catalogue 2000 6 45 9 (-16) (-43)) rfl⟩

end PrecessTheorems

section PrecessBug

/-- The right ascension `calc_precess` returns for RA 0, Dec 0, from 1950 to
2000. -/
theorem precess_RA_1950 :
    (calc_precess realLibm RADIAN 2000 1950 0 0).1 = 3073735 / 4800000 := by
  simp [calc_precess, realLibm]
  norm_num

/-- That right ascension, in radians, lies in the first quadrant. -/
theorem precess_angle_1950 :
    (0 : ℝ) < 3073735 / 4800000 / RADIAN ∧ (3073735 / 4800000 / RADIAN : ℝ) ≤ Real.pi / 2 := by
  have hpi := Real.pi_gt_three
  unfold RADIAN PI
  constructor
  · norm_num
  · have : (3073735 / 4800000 / (180 / 3.14159265358979) : ℝ) ≤ 1 := by norm_num
    linarith

/-- C12: at RA 0, Dec 0, from year 1950 to year 2000 the right ascension
returned by `calc_precess` is the one of the formula, and the declination
returned is strictly below the declination of the formula: line 1538 takes
`cos` at the right ascension line 1535 has already updated, not at the input
right ascension. -/
theorem calc_precess_dec_uses_updated_RA :
    (calc_precess realLibm RADIAN 2000 1950 0 0).1 =
      (precess_formula realLibm RADIAN 1950 2000 0 0).1 ∧
    (calc_precess realLibm RADIAN 2000 1950 0 0).2 <
      (precess_formula realLibm RADIAN 1950 2000 0 0).2 := by
  refine ⟨(calc_precess_eq _ _ _ _ _ _).1, ?_⟩
  rw [(calc_precess_eq _ _ _ _ _ _).2, precess_RA_1950]
  have hc : Real.cos (3073735 / 4800000 / RADIAN) < 1 := by
    have h := Real.cos_lt_cos_of_nonneg_of_le_pi_div_two (le_refl (0 : ℝ))
      precess_angle_1950.2 precess_angle_1950.1
    simpa using h
  simp only [precess_formula, realLibm, zero_div, Real.cos_zero, zero_add]
  have hP : (0 : ℝ) < 20.0468 - 0.0085 * (((2000 + 1950) / 2 - 1900) / 100) := by norm_num
  have hd : (0 : ℝ) < 2000 - 1950 := by norm_num
  have := mul_lt_mul_of_pos_left hc hP
  have := mul_lt_mul_of_pos_right this hd
  have := div_lt_div_of_pos_right this (by norm_num : (0 : ℝ) < 3600)
  linarith

end PrecessBug

/-! ## The divisors of `init_arrays` -/

section TraceLemmas
variable {K : Type} [LinearOrderedField K] [FloorRing K]

theorem for3_invariant {σ : Type} (P : σ → Prop) (body : Fin 4 → σ → σ)
    (h : ∀ I s, P s → P (body I s)) (s : σ) (hs : P s) : P (for3 body s) :=
  h 3 _ (h 2 _ (h 1 _ hs))

theorem for3_count {σ : Type} (len : σ → ℕ) (k : ℕ) (body : Fin 4 → σ → σ)
    (h : ∀ I s, len (body I s) = len s + k) (s : σ) : len (for3 body s) = len s + 3 * k := by
  unfold for3
  rw [h, h, h]
  ring

theorem for3_fst {σ τ : Type} (f : Fin 4 → σ → σ) (body : Fin 4 → σ × τ → σ × τ)
    (h : ∀ I q, (body I q).1 = f I q.1) (q : σ × τ) : (for3 body q).1 = for3 f q.1 := by
  unfold for3
  rw [h, h, h]

theorem all_guarded_append (l : List (K × K)) (x : K) (h : all_guarded l) :
    all_guarded (l ++ [(x, guard_zero x)]) := by
  intro e he
  rcases List.mem_append.1 he with h1 | h1
  · exact h e h1
  · rw [List.mem_singleton.1 h1]

theorem third_axis_X_traced_fst (m : Libm K) (p : Arrays K × List (K × K)) :
    (third_axis_X_traced m p).1 = third_axis_X m p.1 := by
  unfold third_axis_X_traced third_axis_X
  exact for3_fst _ _ (fun _ _ => rfl) _

theorem third_axis_Y_traced_fst (m : Libm K) (p : Arrays K × List (K × K)) :
    (third_axis_Y_traced m p).1 = third_axis_Y m p.1 := by
  unfold third_axis_Y_traced third_axis_Y
  exact for3_fst _ _ (fun _ _ => rfl) _

theorem invert_X_into_Q_traced_fst (p : Arrays K × List (K × K)) :
    (invert_X_into_Q_traced p).1 = invert_X_into_Q p.1 := by
  unfold invert_X_into_Q_traced invert_X_into_Q
  refine for3_fst _ _ ?_ _
  intro M q
  dsimp only
  refine for3_fst _ _ ?_ _
  intro N q
  rfl

theorem invert_R_into_Q_traced_fst (p : Arrays K × List (K × K)) :
    (invert_R_into_Q_traced p).1 = invert_R_into_Q p.1 := by
  unfold invert_R_into_Q_traced invert_R_into_Q
  refine for3_fst _ _ ?_ _
  intro M q
  dsimp only
  refine for3_fst _ _ ?_ _
  intro N q
  rfl

/-- The recording does not change what `init_arrays` computes. -/
theorem init_arrays_traced_fst (m : Libm K) (rad : K) (init : Fin 4) (pos : pos_struct K)
    (Z1 Z2 Z3 : K) (st : Arrays K) :
    (init_arrays_traced m rad init pos Z1 Z2 Z3 st).1 = init_arrays m rad init pos Z1 Z2 Z3 st := by
  unfold init_arrays_traced init_arrays
  by_cases h : init = INIT2
  · simp only [h, if_true]
    rw [invert_R_into_Q_traced_fst, invert_X_into_Q_traced_fst, third_axis_Y_traced_fst,
      third_axis_X_traced_fst]
  · simp only [h, if_false]

theorem third_axis_X_traced_guarded (m : Libm K) (p : Arrays K × List (K × K))
    (h : all_guarded p.2) : all_guarded (third_axis_X_traced m p).2 := by
  unfold third_axis_X_traced
  exact for3_invariant (fun q : Arrays K × List (K × K) => all_guarded q.2) _
    (fun _ q hq => all_guarded_append q.2 _ hq) _ h

theorem third_axis_Y_traced_guarded (m : Libm K) (p : Arrays K × List (K × K))
    (h : all_guarded p.2) : all_guarded (third_axis_Y_traced m p).2 := by
  unfold third_axis_Y_traced
  exact for3_invariant (fun q : Arrays K × List (K × K) => all_guarded q.2) _
    (fun _ q hq => all_guarded_append q.2 _ hq) _ h

theorem invert_X_into_Q_traced_guarded (p : Arrays K × List (K × K))
    (h : all_guarded p.2) : all_guarded (invert_X_into_Q_traced p).2 := by
  unfold invert_X_into_Q_traced
  dsimp only
  refine for3_invariant (fun q : Arrays K × List (K × K) => all_guarded q.2) _ ?_ _ h
  intro M q hq
  dsimp only
  refine for3_invariant (fun q : Arrays K × List (K × K) => all_guarded q.2) _ ?_ _ hq
  intro N q hq
  exact all_guarded_append q.2 _ hq

theorem invert_R_into_Q_traced_guarded (p : Arrays K × List (K × K))
    (h : all_guarded p.2) : all_guarded (invert_R_into_Q_traced p).2 := by
  unfold invert_R_into_Q_traced
  dsimp only
  refine for3_invariant (fun q : Arrays K × List (K × K) => all_guarded q.2) _ ?_ _ h
  intro M q hq
  dsimp only
  refine for3_invariant (fun q : Arrays K × List (K × K) => all_guarded q.2) _ ?_ _ hq
  intro N q hq
  exact all_guarded_append q.2 _ hq

theorem third_axis_X_traced_length (m : Libm K) (p : Arrays K × List (K × K)) :
    (third_axis_X_traced m p).2.length = p.2.length + 3 := by
  unfold third_axis_X_traced
  exact for3_count (fun q : Arrays K × List (K × K) => q.2.length) 1 _ (fun _ q => by simp) _

theorem third_axis_Y_traced_length (m : Libm K) (p : Arrays K × List (K × K)) :
    (third_axis_Y_traced m p).2.length = p.2.length + 3 := by
  unfold third_axis_Y_traced
  exact for3_count (fun q : Arrays K × List (K × K) => q.2.length) 1 _ (fun _ q => by simp) _

theorem invert_X_into_Q_traced_length (p : Arrays K × List (K × K)) :
    (invert_X_into_Q_traced p).2.length = p.2.length + 9 := by
  unfold invert_X_into_Q_traced
  dsimp only
  refine for3_count (fun q : Arrays K × List (K × K) => q.2.length) 3 _ ?_ _
  intro M q
  dsimp only
  refine for3_count (fun q : Arrays K × List (K × K) => q.2.length) 1 _ ?_ _
  intro N q
  simp [cramer_step_traced]

theorem invert_R_into_Q_traced_length (p : Arrays K × List (K × K)) :
    (invert_R_into_Q_traced p).2.length = p.2.length + 9 := by
  unfold invert_R_into_Q_traced
  dsimp only
  refine for3_count (fun q : Arrays K × List (K × K) => q.2.length) 3 _ ?_ _
  intro M q
  dsimp only
  refine for3_count (fun q : Arrays K × List (K × K) => q.2.length) 1 _ ?_ _
  intro N q
  simp [cramer_step_traced]

end TraceLemmas

section TraceTheorems
variable {K : Type} [LinearOrderedField K] [FloorRing K]

/-- C13: `init_arrays` never divides by zero.  The recorded run computes the
same arrays as `init_arrays`; for slot 2 it executes 24 divisions (3 by the sky
norm `A`, 3 by the mount norm `A`, 9 by `E` in each Cramer loop); and every
divisor used, for every observation, offsets and starting arrays, is nonzero
and is the value computed with zero replaced by `NEXT_TO_NOTHING = 1e-38`. -/
theorem init_arrays_divisors_nonzero (m : Libm K) (rad : K) (init : Fin 4)
    (pos : pos_struct K) (Z1 Z2 Z3 : K) (st : Arrays K) :
    (init_arrays_traced m rad init pos Z1 Z2 Z3 st).1 =
      init_arrays m rad init pos Z1 Z2 Z3 st ∧
    (init_arrays_traced m rad INIT2 pos Z1 Z2 Z3 st).2.length = 24 ∧
    (∀ e ∈ (init_arrays_traced m rad init pos Z1 Z2 Z3 st).2,
      e.2 ≠ 0 ∧ e.2 = (if e.1 = 0 then 1 / 10 ^ 38 else e.1)) := by
  refine ⟨init_arrays_traced_fst m rad init pos Z1 Z2 Z3 st, ?_, ?_⟩
  · unfold init_arrays_traced
    simp only [if_true]
    rw [invert_R_into_Q_traced_length, invert_X_into_Q_traced_length,
      third_axis_Y_traced_length, third_axis_X_traced_length]
    rfl
  · have hg : all_guarded (init_arrays_traced m rad init pos Z1 Z2 Z3 st).2 := by
      unfold init_arrays_traced
      by_cases h : init = INIT2
      · simp only [h, if_true]
        apply invert_R_into_Q_traced_guarded
        apply invert_X_into_Q_traced_guarded
        apply third_axis_Y_traced_guarded
        apply third_axis_X_traced_guarded
        intro e he
        cases he
      · simp only [h, if_false]
        intro e he
        cases he
    intro e he
    have h := hg e he
    refine ⟨?_, ?_⟩
    · rw [h]
      exact guard_zero_ne_zero _
    · rw [h]
      rfl

/-- Witness of C13: the same star in both slots (a singular basis); the record
is not empty and holds a nonzero divisor. -/
theorem init_arrays_divisors_nonzero_witness :
    ∃ e ∈ (init_arrays_traced realLibm RADIAN INIT2 (sky_mount 30 40 5 60 50) 0 0 0
        (init_arrays realLibm RADIAN INIT1 (sky_mount 30 40 5 60 50) 0 0 0 zero_arrays)).2,
      e.2 ≠ 0 := by
  obtain ⟨_, hl, h⟩ := init_arrays_divisors_nonzero realLibm RADIAN INIT2
    (sky_mount 30 40 5 60 50) 0 0 0
    (init_arrays realLibm RADIAN INIT1 (sky_mount 30 40 5 60 50) 0 0 0 zero_arrays)
  obtain ⟨e, he⟩ := List.exists_mem_of_length_pos (by rw [hl]; norm_num)
  exact ⟨e, he, (h e he).1⟩

end TraceTheorems

/-! ## The menu loop -/

section MenuLemmas
variable {K : Type} [LinearOrderedField K] [FloorRing K]

theorem gated_nil : gated ([] : List (Call × ℤ)) := by
  intro pre c rest h
  cases pre <;> cases h

theorem gated_append (l : List (Call × ℤ)) (c : Call × ℤ) (h : gated l)
    (hc : c.1.is_transform = true → c.2 = YES ∧ calibrated l) : gated (l ++ [c]) := by
  intro pre c' rest heq ht
  rcases List.eq_nil_or_concat rest with rfl | ⟨rest', x, rfl⟩
  · obtain ⟨h1, h2⟩ := List.append_inj' heq rfl
    have h3 : c = c' := by simpa using h2
    subst h3
    subst h1
    exact hc ht
  · have heq' : l ++ [c] = (pre ++ c' :: rest') ++ [x] := by simp [heq]
    obtain ⟨h1, _⟩ := List.append_inj' heq' rfl
    exact h pre c' rest' h1 ht

theorem calibrated_append (l : List (Call × ℤ)) (c : Call × ℤ) (h : calibrated l)
    (hc : c.1.is_calibration = false) : calibrated (l ++ [c]) := by
  obtain ⟨pre, hp⟩ := h
  refine ⟨pre, ?_⟩
  simp [List.filter_append, hp, hc]

theorem calibrated_of_three (l : List (Call × ℤ)) (f1 f2 f3 : ℤ) :
    calibrated (l ++ [(Call.reinit_arrays, f1)] ++ [(Call.init_arrays INIT1, f2)] ++
      [(Call.init_arrays INIT2, f3)]) := by
  refine ⟨(l.map Prod.fst).filter Call.is_calibration, ?_⟩
  simp [List.filter_append, Call.is_calibration]

/-- A real-time loop entered with the flag at `YES` keeps the invariant. -/
theorem run_equat_inv (m : Libm K) (rad : K) (cs : List (Sample K)) :
    ∀ s : Session K, s.init_flag = YES → gated s.calls → calibrated s.calls →
      (run_equat_to_scope_real_time m rad cs s).init_flag = YES ∧
      gated (run_equat_to_scope_real_time m rad cs s).calls ∧
      calibrated (run_equat_to_scope_real_time m rad cs s).calls := by
  induction cs with
  | nil => intro s h1 h2 h3; exact ⟨h1, h2, h3⟩
  | cons c cs ih =>
    intro s h1 h2 h3
    simp only [run_equat_to_scope_real_time]
    apply ih
    · exact h1
    · exact gated_append _ _ h2 (fun _ => ⟨h1, h3⟩)
    · exact calibrated_append _ _ h3 rfl

theorem run_scope_inv (m : Libm K) (rad : K) (cs : List (Sample K)) :
    ∀ s : Session K, s.init_flag = YES → gated s.calls → calibrated s.calls →
      (run_scope_to_equat_real_time m rad cs s).init_flag = YES ∧
      gated (run_scope_to_equat_real_time m rad cs s).calls ∧
      calibrated (run_scope_to_equat_real_time m rad cs s).calls := by
  induction cs with
  | nil => intro s h1 h2 h3; exact ⟨h1, h2, h3⟩
  | cons c cs ih =>
    intro s h1 h2 h3
    simp only [run_scope_to_equat_real_time]
    apply ih
    · exact h1
    · exact gated_append _ _ h2 (fun _ => ⟨h1, h3⟩)
    · exact calibrated_append _ _ h3 rfl

theorem main_case_1_inv (m : Libm K) (rad : K) (op : Operator K) (s : Session K)
    (h : menu_inv s) : menu_inv (main_case_1 m rad op s) := by
  obtain ⟨hf, hg, hc⟩ := h
  unfold main_case_1
  dsimp only
  split_ifs with h1 h2 h3
  · -- flag YES, re-initialise
    refine ⟨Or.inr rfl, ?_, fun _ => ?_⟩
    · simp only [Session.record]
      refine gated_append _ _ (gated_append _ _ (gated_append _ _ hg ?_) ?_) ?_ <;>
        intro h <;> cases h
    · simp only [Session.record]
      exact calibrated_of_three _ _ _ _
  · exact ⟨Or.inr (by
      simp only [check_init] at h2 ⊢
      split_ifs at h2 ⊢ with h4
      · exact absurd rfl h2
      · exact h1), hg, fun _ => hc h1⟩
  · refine ⟨Or.inr rfl, ?_, fun _ => ?_⟩
    · simp only [Session.record]
      refine gated_append _ _ (gated_append _ _ (gated_append _ _ hg ?_) ?_) ?_ <;>
        intro h <;> cases h
    · simp only [Session.record]
      exact calibrated_of_three _ _ _ _
  · exact ⟨hf, hg, hc⟩

theorem main_case_2_inv (m : Libm K) (rad : K) (op : Operator K) (s : Session K)
    (h : menu_inv s) : menu_inv (main_case_2 m rad op s) := by
  obtain ⟨hf, hg, hc⟩ := h
  unfold main_case_2
  dsimp only
  split_ifs with h1 h2
  · refine ⟨hf, gated_append _ _ hg (by intro h; cases h), fun h => ?_⟩
    have h2 : s.init_flag = YES := h
    rw [h1] at h2
    exact absurd h2 (by decide)
  · have hy : s.init_flag = YES := hf.resolve_left h1
    have := run_equat_inv m rad op.samples
      { s.record Call.calc_scope with
        current := (calc_scope m rad (calc_times op.entered) s.Z1 s.Z2 s.Z3 op.F op.H
          s.arrays).1
        arrays := (calc_scope m rad (calc_times op.entered) s.Z1 s.Z2 s.Z3 op.F op.H
          s.arrays).2 }
      hy (gated_append _ _ hg (fun _ => ⟨hy, hc hy⟩)) (calibrated_append _ _ (hc hy) rfl)
    exact ⟨Or.inr this.1, this.2.1, fun _ => this.2.2⟩
  · have hy : s.init_flag = YES := hf.resolve_left h1
    exact ⟨hf, gated_append _ _ hg (fun _ => ⟨hy, hc hy⟩),
      fun _ => calibrated_append _ _ (hc hy) rfl⟩

theorem main_case_3_inv (m : Libm K) (rad : K) (op : Operator K) (s : Session K)
    (h : menu_inv s) : menu_inv (main_case_3 m rad op s) := by
  obtain ⟨hf, hg, hc⟩ := h
  unfold main_case_3
  dsimp only
  split_ifs with h1 h2
  · refine ⟨hf, gated_append _ _ hg (by intro h; cases h), fun h => ?_⟩
    have h2 : s.init_flag = YES := h
    rw [h1] at h2
    exact absurd h2 (by decide)
  · have hy : s.init_flag = YES := hf.resolve_left h1
    have := run_scope_inv m rad op.samples
      { s.record Call.calc_equat with
        current := (calc_equat m rad (calc_times op.entered) s.Z1 s.Z2 s.Z3 s.arrays).1
        arrays := (calc_equat m rad (calc_times op.entered) s.Z1 s.Z2 s.Z3 s.arrays).2 }
      hy (gated_append _ _ hg (fun _ => ⟨hy, hc hy⟩)) (calibrated_append _ _ (hc hy) rfl)
    exact ⟨Or.inr this.1, this.2.1, fun _ => this.2.2⟩
  · have hy : s.init_flag = YES := hf.resolve_left h1
    exact ⟨hf, gated_append _ _ hg (fun _ => ⟨hy, hc hy⟩),
      fun _ => calibrated_append _ _ (hc hy) rfl⟩

theorem main_loop_inv (m : Libm K) (rad : K) (ops : List (Operator K)) :
    ∀ s : Session K, menu_inv s → menu_inv (main_loop m rad ops s) := by
  induction ops with
  | nil => intro s h; exact h
  | cons op ops ih =>
    intro s h
    simp only [main_loop]
    split_ifs with h1
    · apply ih
      unfold main_switch
      split_ifs
      · exact main_case_1_inv m rad op s h
      · exact main_case_2_inv m rad op s h
      · exact main_case_3_inv m rad op s h
      · exact h
    · exact h

end MenuLemmas

section MenuTheorems
variable {K : Type} [LinearOrderedField K] [FloorRing K]

/-- C18: in every run of the menu loop from the start of `main`, for every
sequence of operator inputs, every call of `calc_scope` or `calc_equat` (from
`get_equat_to_scope`, `get_scope_to_equat` and the two real-time loops) is made
with `init_flag = YES` and after calibration calls ending with `reinit_arrays`,
`init_arrays(INIT1)`, `init_arrays(INIT2)`; and whenever the loop holds
`init_flag = YES` the calibration calls made so far end with these three. -/
theorem transforms_gated (m : Libm K) (rad : K) (p : pos_struct K) (ops : List (Operator K)) :
    gated (main_loop m rad ops (main_start p)).calls ∧
    ((main_loop m rad ops (main_start p)).init_flag = YES →
      calibrated (main_loop m rad ops (main_start p)).calls) := by
  have h := main_loop_inv m rad ops (main_start p)
    ⟨Or.inl rfl, gated_nil, fun h => by cases h⟩
  exact ⟨h.2.1, h.2.2⟩

/-- Witness of C18: a conversion refused, a calibration, a conversion. -/
theorem transforms_gated_witness :
    (main_loop realLibm RADIAN
      [menu_op 2 0 0 0 0 (sky_mount 0 0 0 0 0) (sky_mount 0 0 0 0 0) (sky_mount 30 40 5 0 0),
       menu_op 1 0 0 0 0 (sky_mount 0 0 0 0 0) (sky_mount 0 90 0 0 90) (sky_mount 0 0 0 0 0),
       menu_op 2 0 0 0 0 (sky_mount 0 0 0 0 0) (sky_mount 0 0 0 0 0) (sky_mount 30 40 5 0 0)]
      (main_start (sky_mount 0 0 0 0 0))).init_flag = YES ∧
    calibrated (main_loop realLibm RADIAN
      [menu_op 2 0 0 0 0 (sky_mount 0 0 0 0 0) (sky_mount 0 0 0 0 0) (sky_mount 30 40 5 0 0),
       menu_op 1 0 0 0 0 (sky_mount 0 0 0 0 0) (sky_mount 0 90 0 0 90) (sky_mount 0 0 0 0 0),
       menu_op 2 0 0 0 0 (sky_mount 0 0 0 0 0) (sky_mount 0 0 0 0 0) (sky_mount 30 40 5 0 0)]
      (main_start (sky_mount 0 0 0 0 0))).calls :=
  ⟨rfl, (transforms_gated realLibm RADIAN (sky_mount 0 0 0 0 0)
      [menu_op 2 0 0 0 0 (sky_mount 0 0 0 0 0) (sky_mount 0 0 0 0 0) (sky_mount 30 40 5 0 0),
       menu_op 1 0 0 0 0 (sky_mount 0 0 0 0 0) (sky_mount 0 90 0 0 90) (sky_mount 0 0 0 0 0),
       menu_op 2 0 0 0 0 (sky_mount 0 0 0 0 0) (sky_mount 0 0 0 0 0)
         (sky_mount 30 40 5 0 0)]).2 rfl⟩

end MenuTheorems

/-! ## Degenerate calibration -/

section Collapse
variable {K : Type} [LinearOrderedField K] [FloorRing K]

/-- Two calibration stars with the same equatorial vector: every entry of `R`
and `Q` is 0 after the second call of `init_arrays`. -/
theorem identical_stars_collapse (m : Libm K) (rad : K) (pos1 pos2 : pos_struct K)
    (Z1 Z2 Z3 : K) (st0 : Arrays K) (s : Arrays K)
    (hs : s = init_arrays m rad INIT2 pos2 Z1 Z2 Z3
        (init_arrays m rad INIT1 pos1 Z1 Z2 Z3 st0))
    (hx : ∀ i : Fin 4, i ≠ 0 → equat_vector m rad pos1 i = equat_vector m rad pos2 i)
    (I J : Fin 4) (hI : I ≠ 0) (hJ : J ≠ 0) : s.R I J = 0 ∧ s.Q I J = 0 := by
  obtain ⟨hx1, hx2, hx3, _, _, _, hR, hQ⟩ :=
    init_arrays_summary m rad pos1 pos2 Z1 Z2 Z3 st0 s hs
  have h10 : (1 : Fin 4) ≠ 0 := by decide
  have h20 : (2 : Fin 4) ≠ 0 := by decide
  have h30 : (3 : Fin 4) ≠ 0 := by decide
  have e1 : ∀ i : Fin 4, i ≠ 0 → s.X i 1 = s.X i 2 := by
    intro i hi
    rw [hx1 i hi, hx2 i hi, hx i hi]
  have e3 : ∀ i : Fin 4, i ≠ 0 → s.X i 3 = 0 := by
    intro i hi
    rw [hx3 i hi]
    have hc : cross3 (equat_vector m rad pos1) (equat_vector m rad pos2) i = 0 := by
      rcases fin4_cases i hi with rfl | rfl | rfl <;>
        simp [cross3, hx 1 h10, hx 2 h20, hx 3 h30] <;> ring
    rw [hc, zero_div]
  have hC : ∀ M N : Fin 4, M ≠ 0 → N ≠ 0 → cramer_inverse s.X M N = 0 := by
    intro M N hM hN
    obtain ⟨h11, h12, h13, h21, h22, h23, h31, h32, h33⟩ := det3_col_unit s.X
    unfold cramer_inverse
    rcases fin4_cases M hM with rfl | rfl | rfl <;>
      rcases fin4_cases N hN with rfl | rfl | rfl
    all_goals
      simp only [h11, h12, h13, h21, h22, h23, h31, h32, h33, e1 1 h10, e1 2 h20, e1 3 h30,
        e3 1 h10, e3 2 h20, e3 3 h30]
      simp
  have hR0 : ∀ I J : Fin 4, I ≠ 0 → J ≠ 0 → s.R I J = 0 := by
    intro I J hI hJ
    rw [hR I J hI hJ, hC 1 J h10 hJ, hC 2 J h20 hJ, hC 3 J h30 hJ]
    ring
  refine ⟨hR0 I J hI hJ, ?_⟩
  rw [hQ I J hI hJ]
  obtain ⟨h11, h12, h13, h21, h22, h23, h31, h32, h33⟩ := det3_col_unit s.R
  unfold cramer_inverse
  rcases fin4_cases I hI with rfl | rfl | rfl <;>
    rcases fin4_cases J hJ with rfl | rfl | rfl
  all_goals
    simp only [h11, h12, h13, h21, h22, h23, h31, h32, h33, hR0 1 1 h10 h10, hR0 1 2 h10 h20,
      hR0 1 3 h10 h30, hR0 2 1 h20 h10, hR0 2 2 h20 h20, hR0 2 3 h20 h30, hR0 3 1 h30 h10,
      hR0 3 2 h30 h20, hR0 3 3 h30 h30]
    simp

/-- What `case 1` leaves when it starts with `init_flag = NO`. -/
theorem main_case_1_of_NO (m : Libm K) (rad : K) (op : Operator K) (s : Session K)
    (h : s.init_flag = NO) :
    (main_case_1 m rad op s).init_flag = YES ∧
    (main_case_1 m rad op s).calls = s.calls ++ [(Call.reinit_arrays, NO),
      (Call.init_arrays INIT1, NO), (Call.init_arrays INIT2, NO)] ∧
    (main_case_1 m rad op s).arrays =
      init_arrays m rad INIT2 op.init2 op.Z1 op.Z2 op.Z3
        (init_arrays m rad INIT1 op.init1 op.Z1 op.Z2 op.Z3 (reinit_arrays s.arrays)) := by
  have h1 : ¬ (NO = YES) := by decide
  simp [main_case_1, h1, h, Session.record]

end Collapse

section SilentTheorems
variable {K : Type} [LinearOrderedField K] [FloorRing K]

/-- C14, amended: a degenerate calibration is silent.  When the two
calibration stars have the same equatorial vector, `case 1` of `main`, entered
with `init_flag = NO`, makes the three calibration calls and no other, sets
`init_flag = YES`, and leaves every entry of `R` and `Q` (indices 1..3) at 0;
`init_arrays` hands nothing back to its caller. -/
theorem degenerate_calibration_silent (m : Libm K) (rad : K) (op : Operator K)
    (s : Session K) (h : s.init_flag = NO)
    (hx : ∀ i : Fin 4, i ≠ 0 →
      equat_vector m rad op.init1 i = equat_vector m rad op.init2 i) :
    (main_case_1 m rad op s).init_flag = YES ∧
    (main_case_1 m rad op s).calls = s.calls ++ [(Call.reinit_arrays, NO),
      (Call.init_arrays INIT1, NO), (Call.init_arrays INIT2, NO)] ∧
    (∀ I J : Fin 4, I ≠ 0 → J ≠ 0 →
      (main_case_1 m rad op s).arrays.R I J = 0 ∧
      (main_case_1 m rad op s).arrays.Q I J = 0) := by
  obtain ⟨h1, h2, h3⟩ := main_case_1_of_NO m rad op s h
  refine ⟨h1, h2, ?_⟩
  intro I J hI hJ
  exact identical_stars_collapse m rad op.init1 op.init2 op.Z1 op.Z2 op.Z3
    (reinit_arrays s.arrays) _ h3 hx I J hI hJ

/-- Witness of C14 (amended): the same star entered for both slots. -/
theorem degenerate_calibration_silent_witness :
    (main_start (sky_mount 0 0 0 0 0 : pos_struct ℝ)).init_flag = NO ∧
    (main_case_1 realLibm RADIAN
      (menu_op 1 0 0 0 0 (sky_mount 30 40 5 60 50) (sky_mount 30 40 5 60 50)
        (sky_mount 0 0 0 0 0))
      (main_start (sky_mount 0 0 0 0 0))).init_flag = YES ∧
    (main_case_1 realLibm RADIAN
      (menu_op 1 0 0 0 0 (sky_mount 30 40 5 60 50) (sky_mount 30 40 5 60 50)
        (sky_mount 0 0 0 0 0))
      (main_start (sky_mount 0 0 0 0 0))).arrays.R 1 1 = 0 :=
  ⟨rfl,
   (degenerate_calibration_silent realLibm RADIAN
      (menu_op 1 0 0 0 0 (sky_mount 30 40 5 60 50) (sky_mount 30 40 5 60 50)
        (sky_mount 0 0 0 0 0))
      (main_start (sky_mount 0 0 0 0 0)) rfl (fun _ _ => rfl)).1,
   ((degenerate_calibration_silent realLibm RADIAN
      (menu_op 1 0 0 0 0 (sky_mount 30 40 5 60 50) (sky_mount 30 40 5 60 50)
        (sky_mount 0 0 0 0 0))
      (main_start (sky_mount 0 0 0 0 0)) rfl (fun _ _ => rfl)).2.2 1 1
        (by decide) (by decide)).1⟩

end SilentTheorems

section SilentCounterexample

/-- What `case 2` records when it starts with `init_flag = YES`. -/
theorem main_case_2_of_YES {K : Type} [LinearOrderedField K] [FloorRing K]
    (m : Libm K) (rad : K) (op : Operator K) (s : Session K)
    (h : s.init_flag = YES) (hr : op.run_real_time_flag = 0) :
    (main_case_2 m rad op s).calls = s.calls ++ [(Call.calc_scope, YES)] := by
  have h1 : ¬ (YES = NO) := by decide
  simp [main_case_2, h, h1, hr, Session.record]

/-- C14, as stated, fails: with the same star entered for both slots the
calibration ends with `init_flag = YES`, the same flag and the same record of
calls as the calibration with two regular stars, while every entry of `R` and
`Q` is 0; the next selection of `equat to scope` is not refused and calls
`calc_scope`.  Nothing the caller receives tells the two calibrations apart. -/
theorem degenerate_calibration_no_warning :
    (main_case_1 realLibm RADIAN
      (menu_op 1 0 0 0 0 (sky_mount 30 40 5 60 50) (sky_mount 30 40 5 60 50)
        (sky_mount 0 0 0 0 0)) (main_start (sky_mount 0 0 0 0 0))).init_flag = YES ∧
    (∀ I J : Fin 4, I ≠ 0 → J ≠ 0 →
      (main_case_1 realLibm RADIAN
        (menu_op 1 0 0 0 0 (sky_mount 30 40 5 60 50) (sky_mount 30 40 5 60 50)
          (sky_mount 0 0 0 0 0)) (main_start (sky_mount 0 0 0 0 0))).arrays.R I J = 0 ∧
      (main_case_1 realLibm RADIAN
        (menu_op 1 0 0 0 0 (sky_mount 30 40 5 60 50) (sky_mount 30 40 5 60 50)
          (sky_mount 0 0 0 0 0)) (main_start (sky_mount 0 0 0 0 0))).arrays.Q I J = 0) ∧
    (main_case_1 realLibm RADIAN
      (menu_op 1 0 0 0 0 (sky_mount 30 40 5 60 50) (sky_mount 30 40 5 60 50)
        (sky_mount 0 0 0 0 0)) (main_start (sky_mount 0 0 0 0 0))).init_flag =
      (main_case_1 realLibm RADIAN
        (menu_op 1 0 0 0 0 (sky_mount 0 0 0 0 0) (sky_mount 0 90 0 0 90)
          (sky_mount 0 0 0 0 0)) (main_start (sky_mount 0 0 0 0 0))).init_flag ∧
    (main_case_1 realLibm RADIAN
      (menu_op 1 0 0 0 0 (sky_mount 30 40 5 60 50) (sky_mount 30 40 5 60 50)
        (sky_mount 0 0 0 0 0)) (main_start (sky_mount 0 0 0 0 0))).calls =
      (main_case_1 realLibm RADIAN
        (menu_op 1 0 0 0 0 (sky_mount 0 0 0 0 0) (sky_mount 0 90 0 0 90)
          (sky_mount 0 0 0 0 0)) (main_start (sky_mount 0 0 0 0 0))).calls ∧
    (main_case_2 realLibm RADIAN
      (menu_op 2 0 0 0 0 (sky_mount 0 0 0 0 0) (sky_mount 0 0 0 0 0) (sky_mount 30 40 5 0 0))
      (main_case_1 realLibm RADIAN
        (menu_op 1 0 0 0 0 (sky_mount 30 40 5 60 50) (sky_mount 30 40 5 60 50)
          (sky_mount 0 0 0 0 0)) (main_start (sky_mount 0 0 0 0 0)))).calls =
      [(Call.reinit_arrays, NO), (Call.init_arrays INIT1, NO), (Call.init_arrays INIT2, NO),
        (Call.calc_scope, YES)] := by
  have hd := main_case_1_of_NO realLibm RADIAN
    (menu_op 1 0 0 0 0 (sky_mount 30 40 5 60 50) (sky_mount 30 40 5 60 50)
      (sky_mount 0 0 0 0 0)) (main_start (sky_mount 0 0 0 0 0)) rfl
  have hr := main_case_1_of_NO realLibm RADIAN
    (menu_op 1 0 0 0 0 (sky_mount 0 0 0 0 0) (sky_mount 0 90 0 0 90)
      (sky_mount 0 0 0 0 0)) (main_start (sky_mount 0 0 0 0 0)) rfl
  refine ⟨hd.1, ?_, ?_, ?_, ?_⟩
  · intro I J hI hJ
    exact identical_stars_collapse realLibm RADIAN _ _ _ _ _ _ _ hd.2.2 (fun _ _ => rfl)
      I J hI hJ
  · rw [hd.1, hr.1]
  · rw [hd.2.1, hr.2.1]
  · rw [main_case_2_of_YES _ _ _ _ hd.1 rfl, hd.2.1]
    rfl

end SilentCounterexample

/-! ## Azimuth winding at the input and the display -/

section ScopeIO
variable {K : Type} [LinearOrderedField K] [FloorRing K]

/-- Rejected entries are skipped; the first entry in range is returned. -/
theorem read_in_range_skip (lo hi : K) (bad : List K) (x : K) (rest : List K)
    (hbad : ∀ y ∈ bad, y < lo ∨ y > hi) (hx : ¬ (x < lo ∨ x > hi)) :
    read_in_range lo hi (bad ++ x :: rest) = some x := by
  induction bad with
  | nil => simp [read_in_range, hx]
  | cons b bs ih =>
    have hb : b < lo ∨ b > hi := hbad b (List.mem_cons_self _ _)
    simp only [List.cons_append, read_in_range, hb, if_true]
    exact ih (fun y hy => hbad y (List.mem_cons_of_mem _ hy))

/-- C17: for every accepted elevation entry `e` in [0, 90] and horizon entry
`a` in [0, 360], whatever entries were rejected before them, `get_scope`
returns, stores `horiz = 360 - a`, and `display_coord` of that position shows
the horizon `a`. -/
theorem azimuth_winding_involution (pos : pos_struct K) (coord_type : Fin 4)
    (e a : K) (bad_e bad_a rest_e rest_a : List K)
    (he : 0 ≤ e ∧ e ≤ 90) (ha : 0 ≤ a ∧ a ≤ 360)
    (hbe : ∀ y ∈ bad_e, y < 0 ∨ y > 90) (hba : ∀ y ∈ bad_a, y < 0 ∨ y > 360) :
    ∃ pos', get_scope (bad_e ++ e :: rest_e) (bad_a ++ a :: rest_a) pos = some pos' ∧
      pos'.horiz = 360 - a ∧ (display_coord coord_type pos').horiz = a := by
  refine ⟨{ pos with elev := e, horiz := 360 - a }, ?_, rfl, ?_⟩
  · unfold get_scope
    rw [read_in_range_skip 0 90 bad_e e rest_e hbe (by
        rintro (h | h)
        · exact absurd he.1 (not_le.2 h)
        · exact absurd he.2 (not_le.2 h)),
      read_in_range_skip 0 360 bad_a a rest_a hba (by
        rintro (h | h)
        · exact absurd ha.1 (not_le.2 h)
        · exact absurd ha.2 (not_le.2 h))]
  · simp [display_coord]

/-- Witness of C17: elevation 45 after two rejected entries, horizon 90 after
one. -/
theorem azimuth_winding_involution_witness :
    ((0 : ℚ) ≤ 45 ∧ (45 : ℚ) ≤ 90) ∧ ((0 : ℚ) ≤ 90 ∧ (90 : ℚ) ≤ 360) ∧
    ∃ pos', get_scope ([100, -3] ++ (45 : ℚ) :: []) ([361] ++ (90 : ℚ) :: [7])
        (sky_mount 0 0 0 0 0) = some pos' ∧
      pos'.horiz = 360 - 90 ∧ (display_coord CURRENT pos').horiz = 90 :=
  ⟨by norm_num, by norm_num,
    azimuth_winding_involution (sky_mount 0 0 0 0 0) CURRENT 45 90 [100, -3] [361] [] [7]
      (by norm_num) (by norm_num)
      (by intro y hy; simp at hy; rcases hy with rfl | rfl <;> norm_num)
      (by intro y hy; simp at hy; rw [hy]; norm_num)⟩

end ScopeIO

/-! ## Slot vectors and the frame of the transforms -/

section SlotLemmas
variable {K : Type} [LinearOrderedField K] [FloorRing K]

/-- The vectors one call of `init_arrays` stores in column `init`. -/
theorem init_arrays_slot (m : Libm K) (rad : K) (init : Fin 4) (pos : pos_struct K)
    (Z1 Z2 Z3 : K) (st : Arrays K) (hinit : init = INIT1 ∨ init = INIT2)
    (i : Fin 4) (hi : i ≠ 0) :
    (init_arrays m rad init pos Z1 Z2 Z3 st).X i init = equat_vector m rad pos i ∧
    (init_arrays m rad init pos Z1 Z2 Z3 st).Y i init =
      mount_vector m rad pos Z1 Z2 Z3 i := by
  rcases hinit with rfl | rfl
  · rw [init_arrays_INIT1]
    exact ⟨(store_slot_X m rad INIT1 pos Z1 Z2 Z3 st).1 i hi,
      (store_slot_Y m rad INIT1 pos Z1 Z2 Z3 st (by decide)).1 i hi⟩
  · rw [init_arrays_INIT2]
    have h23 : (INIT2 : Fin 4) ≠ 3 := by decide
    constructor
    · rw [(invert_R_into_Q_frame _).1, (mult_Y_Q_into_R_frame _).1,
        (invert_X_into_Q_frame _).1, (third_axis_Y_frame m _).2,
        (third_axis_X_frame m _).1 i INIT2 h23]
      exact (store_slot_X m rad INIT2 pos Z1 Z2 Z3 st).1 i hi
    · rw [(invert_R_into_Q_frame _).2.1, (mult_Y_Q_into_R_frame _).2.1,
        (invert_X_into_Q_frame _).2.1, (third_axis_Y_frame m _).1 i INIT2 h23,
        (third_axis_X_frame m _).2]
      exact (store_slot_Y m rad INIT2 pos Z1 Z2 Z3 st (by decide)).1 i hi

end SlotLemmas

section UnitTheorems

/-- Without axis errors the mount-frame vector is a unit vector. -/
theorem mount_vector_unit (rad : ℝ) (pos : pos_struct ℝ) (Z3 : ℝ) :
    mount_vector realLibm rad pos 0 0 Z3 1 ^ 2 + mount_vector realLibm rad pos 0 0 Z3 2 ^ 2 +
      mount_vector realLibm rad pos 0 0 Z3 3 ^ 2 = 1 := by
  simp only [mount_vector, realLibm]
  simp
  have h1 := Real.sin_sq_add_cos_sq (pos.horiz / rad)
  have h2 := Real.sin_sq_add_cos_sq ((pos.elev + Z3) / rad)
  nlinarith [h1, h2]

/-- C15, as stated, fails: with offsets `Z1 = 0`, `Z2 = 1`, `Z3 = 0` (inside
(-10, 10)) and the reading horizon 0, elevation 0, the mount-frame vector
stored for slot 1 is `(1, 1/RADIAN, 0)`, whose squared norm is not 1. -/
theorem mount_vector_not_unit :
    (-10 : ℝ) < 1 ∧ (1 : ℝ) < 10 ∧
    col_norm_sq (init_arrays realLibm RADIAN INIT1 (sky_mount 0 0 0 0 0) 0 1 0
      zero_arrays).Y INIT1 ≠ 1 := by
  refine ⟨by norm_num, by norm_num, ?_⟩
  have h := fun i hi => (init_arrays_slot realLibm RADIAN INIT1 (sky_mount 0 0 0 0 0) 0 1 0
    zero_arrays (Or.inl rfl) i hi).2
  unfold col_norm_sq
  have e1 : (INIT1 : Fin 4) = 1 := rfl
  rw [e1] at h ⊢
  rw [h 1 (by decide), h 2 (by decide), h 3 (by decide)]
  simp [mount_vector, realLibm, sky_mount]
  have : (0 : ℝ) < RADIAN := RADIAN_pos
  positivity

/-- C15, amended: for every position and starting arrays and either slot, the
equatorial vector `X[.][init]` stored by `init_arrays` has squared norm 1 for
all offsets, and the mount-frame vector `Y[.][init]` has squared norm 1 when
`Z1 = Z2 = 0`, for every `Z3` (real sine and cosine, any value of `RADIAN`). -/
theorem slot_vectors_unit (rad : ℝ) (init : Fin 4) (pos : pos_struct ℝ) (st : Arrays ℝ)
    (hinit : init = INIT1 ∨ init = INIT2) :
    (∀ Z1 Z2 Z3 : ℝ,
      col_norm_sq (init_arrays realLibm rad init pos Z1 Z2 Z3 st).X init = 1) ∧
    (∀ Z3 : ℝ, col_norm_sq (init_arrays realLibm rad init pos 0 0 Z3 st).Y init = 1) := by
  constructor
  · intro Z1 Z2 Z3
    have h := fun i hi => (init_arrays_slot realLibm rad init pos Z1 Z2 Z3 st hinit i hi).1
    unfold col_norm_sq
    rw [h 1 (by decide), h 2 (by decide), h 3 (by decide)]
    exact equat_vector_unit rad pos
  · intro Z3
    have h := fun i hi => (init_arrays_slot realLibm rad init pos 0 0 Z3 st hinit i hi).2
    unfold col_norm_sq
    rw [h 1 (by decide), h 2 (by decide), h 3 (by decide)]
    exact mount_vector_unit rad pos Z3

/-- Witness of C15 (amended): slot 2. -/
theorem slot_vectors_unit_witness :
    ((INIT2 : Fin 4) = INIT1 ∨ (INIT2 : Fin 4) = INIT2) ∧
    col_norm_sq (init_arrays realLibm RADIAN INIT2 (sky_mount 30 40 5 60 50) 1 2 3
      zero_arrays).X INIT2 = 1 ∧
    col_norm_sq (init_arrays realLibm RADIAN INIT2 (sky_mount 30 40 5 60 50) 0 0 3
      zero_arrays).Y INIT2 = 1 :=
  ⟨Or.inr rfl,
    (slot_vectors_unit RADIAN INIT2 (sky_mount 30 40 5 60 50) zero_arrays (Or.inr rfl)).1 1 2 3,
    (slot_vectors_unit RADIAN INIT2 (sky_mount 30 40 5 60 50) zero_arrays (Or.inr rfl)).2 3⟩

end UnitTheorems

section FrameTheorems
variable {K : Type} [LinearOrderedField K] [FloorRing K]

/-- What `calc_scope` writes in the arrays and what it leaves. -/
theorem calc_scope_arrays (m : Libm K) (rad : K) (pos : pos_struct K) (Z1 Z2 Z3 F0 H0 : K)
    (st : Arrays K) :
    (∀ i : Fin 4, i ≠ 0 →
      (calc_scope m rad pos Z1 Z2 Z3 F0 H0 st).2.X i 1 = equat_vector m rad pos i) ∧
    (∀ i k : Fin 4, k ≠ 1 →
      (calc_scope m rad pos Z1 Z2 Z3 F0 H0 st).2.X i k = st.X i k ∧
      (calc_scope m rad pos Z1 Z2 Z3 F0 H0 st).2.Y i k = st.Y i k) ∧
    (calc_scope m rad pos Z1 Z2 Z3 F0 H0 st).2.V = st.V := by
  refine ⟨?_, ?_, ?_⟩
  · intro i hi
    rcases fin4_cases i hi with rfl | rfl | rfl <;>
      simp [calc_scope, subr_785, load_equat, accumulate_Y, for3, Mat.set, equat_vector]
  · intro i k hk
    simp [calc_scope, subr_785, load_equat, accumulate_Y, for3, Mat.set, hk]
  · simp [calc_scope, subr_785, load_equat, accumulate_Y, for3]

/-- What `calc_equat` writes in the arrays and what it leaves. -/
theorem calc_equat_arrays (m : Libm K) (rad : K) (pos : pos_struct K) (Z1 Z2 Z3 : K)
    (st : Arrays K) :
    (∀ i : Fin 4, i ≠ 0 →
      (calc_equat m rad pos Z1 Z2 Z3 st).2.X i 1 = mount_vector m rad pos Z1 Z2 Z3 i) ∧
    (∀ i k : Fin 4, k ≠ 1 → k ≠ 0 →
      (calc_equat m rad pos Z1 Z2 Z3 st).2.X i k = st.X i k ∧
      (calc_equat m rad pos Z1 Z2 Z3 st).2.Y i k = st.Y i k) ∧
    (calc_equat m rad pos Z1 Z2 Z3 st).2.V = st.V ∧
    (calc_equat m rad pos Z1 Z2 Z3 st).2.R = st.R ∧
    (calc_equat m rad pos Z1 Z2 Z3 st).2.Q = st.Q := by
  refine ⟨?_, ?_, ?_, ?_, ?_⟩
  · intro i hi
    rcases fin4_cases i hi with rfl | rfl | rfl <;>
      simp [calc_equat, subr_750, load_mount, accumulate_Y, for3, Mat.set, mount_vector]
  · intro i k hk hk0
    simp [calc_equat, subr_750, load_mount, accumulate_Y, for3, Mat.set, hk, hk0]
  · simp [calc_equat, subr_750, load_mount, accumulate_Y, for3]
  · simp [calc_equat, subr_750, load_mount, accumulate_Y, for3]
  · simp [calc_equat, subr_750, load_mount, accumulate_Y, for3]

/-- C16, amended: `calc_scope` and `calc_equat` leave `R` and `Q` unchanged and
leave columns 2 and 3 of `X` and `Y` unchanged; column 1 of `X` is overwritten
with the vector being transformed (the equatorial vector in `calc_scope`, the
mount-frame vector in `calc_equat`). -/
theorem transforms_frame (m : Libm K) (rad : K) (pos : pos_struct K) (Z1 Z2 Z3 F0 H0 : K)
    (st : Arrays K) :
    (calc_scope m rad pos Z1 Z2 Z3 F0 H0 st).2.R = st.R ∧
    (calc_scope m rad pos Z1 Z2 Z3 F0 H0 st).2.Q = st.Q ∧
    (calc_equat m rad pos Z1 Z2 Z3 st).2.R = st.R ∧
    (calc_equat m rad pos Z1 Z2 Z3 st).2.Q = st.Q ∧
    (∀ i k : Fin 4, k = 2 ∨ k = 3 →
      (calc_scope m rad pos Z1 Z2 Z3 F0 H0 st).2.X i k = st.X i k ∧
      (calc_scope m rad pos Z1 Z2 Z3 F0 H0 st).2.Y i k = st.Y i k ∧
      (calc_equat m rad pos Z1 Z2 Z3 st).2.X i k = st.X i k ∧
      (calc_equat m rad pos Z1 Z2 Z3 st).2.Y i k = st.Y i k) ∧
    (∀ i : Fin 4, i ≠ 0 →
      (calc_scope m rad pos Z1 Z2 Z3 F0 H0 st).2.X i 1 = equat_vector m rad pos i ∧
      (calc_equat m rad pos Z1 Z2 Z3 st).2.X i 1 = mount_vector m rad pos Z1 Z2 Z3 i) := by
  obtain ⟨s1, s2, _⟩ := calc_scope_arrays m rad pos Z1 Z2 Z3 F0 H0 st
  obtain ⟨e1, e2, _, e4, e5⟩ := calc_equat_arrays m rad pos Z1 Z2 Z3 st
  refine ⟨(calc_scope_frame m rad pos Z1 Z2 Z3 F0 H0 st).1,
    (calc_scope_frame m rad pos Z1 Z2 Z3 F0 H0 st).2, e4, e5, ?_, ?_⟩
  · intro i k hk
    have hk1 : k ≠ 1 := by rcases hk with rfl | rfl <;> decide
    have hk0 : k ≠ 0 := by rcases hk with rfl | rfl <;> decide
    exact ⟨(s2 i k hk1).1, (s2 i k hk1).2, (e2 i k hk1 hk0).1, (e2 i k hk1 hk0).2⟩
  · intro i hi
    exact ⟨s1 i hi, e1 i hi⟩

/-- Witness of C16 (amended): entry `X[1][2]` after the calibration of two
regular stars. -/
theorem transforms_frame_witness :
    ((2 : Fin 4) = 2 ∨ (2 : Fin 4) = 3) ∧
    (calc_scope realLibm RADIAN (sky_mount 0 90 0 0 0) 0 0 0 0 0
      (init_arrays realLibm RADIAN INIT2 (sky_mount 0 90 0 0 90) 0 0 0
        (init_arrays realLibm RADIAN INIT1 (sky_mount 0 0 0 0 0) 0 0 0 zero_arrays))).2.X 1 2 =
      (init_arrays realLibm RADIAN INIT2 (sky_mount 0 90 0 0 90) 0 0 0
        (init_arrays realLibm RADIAN INIT1 (sky_mount 0 0 0 0 0) 0 0 0 zero_arrays)).X 1 2 :=
  ⟨Or.inl rfl, ((transforms_frame realLibm RADIAN (sky_mount 0 90 0 0 0) 0 0 0 0 0
      (init_arrays realLibm RADIAN INIT2 (sky_mount 0 90 0 0 90) 0 0 0
        (init_arrays realLibm RADIAN INIT1 (sky_mount 0 0 0 0 0) 0 0 0
          zero_arrays))).2.2.2.2.1 1 2 (Or.inl rfl)).1⟩

end FrameTheorems

section FrameCounterexample

/-- C16, as stated, fails: after the calibration with the stars (RA 0, Dec 0)
and (RA 0, Dec 90) the slot-1 entry `X[3][1]` is 0; `calc_scope` for a position
of declination 90 and `calc_equat` for a reading of elevation 90 each leave a
nonzero value there. -/
theorem transforms_overwrite_slot_1 :
    (init_arrays realLibm RADIAN INIT2 (sky_mount 0 90 0 0 90) 0 0 0
      (init_arrays realLibm RADIAN INIT1 (sky_mount 0 0 0 0 0) 0 0 0 zero_arrays)).X 3 1 = 0 ∧
    (calc_scope realLibm RADIAN (sky_mount 0 90 0 0 0) 0 0 0 0 0
      (init_arrays realLibm RADIAN INIT2 (sky_mount 0 90 0 0 90) 0 0 0
        (init_arrays realLibm RADIAN INIT1 (sky_mount 0 0 0 0 0) 0 0 0 zero_arrays))).2.X 3 1
      ≠ 0 ∧
    (calc_equat realLibm RADIAN (sky_mount 0 0 0 0 90) 0 0 0
      (init_arrays realLibm RADIAN INIT2 (sky_mount 0 90 0 0 90) 0 0 0
        (init_arrays realLibm RADIAN INIT1 (sky_mount 0 0 0 0 0) 0 0 0 zero_arrays))).2.X 3 1
      ≠ 0 := by
  obtain ⟨hx1, _⟩ := init_arrays_summary realLibm RADIAN (sky_mount 0 0 0 0 0)
    (sky_mount 0 90 0 0 90) 0 0 0 zero_arrays _ rfl
  have hs := sin_ninety_RADIAN_pos
  refine ⟨?_, ?_, ?_⟩
  · rw [hx1 3 (by decide)]
    simp [equat_vector, realLibm, sky_mount]
  · rw [(calc_scope_arrays realLibm RADIAN _ 0 0 0 0 0 _).1 3 (by decide)]
    simp only [equat_vector, realLibm, sky_mount]
    simp
    exact ne_of_gt hs
  · rw [(calc_equat_arrays realLibm RADIAN _ 0 0 0 _).1 3 (by decide)]
    simp only [mount_vector, realLibm, sky_mount]
    simp
    exact ne_of_gt hs

end FrameCounterexample

/-! ## The real-time passes -/

section PassLemmas
variable {K : Type} [LinearOrderedField K] [FloorRing K]

end PassLemmas

section PassTheorems
variable {K : Type} [LinearOrderedField K] [FloorRing K]

end PassTheorems

section PassWitness

end PassWitness

/-! ## The uninitialised local of `calc_scope` in a pass -/

section PassCounterexample

end PassCounterexample

/-! ## The Cramer inversion -/

section CramerTheorems
variable {K : Type} [LinearOrderedField K] [FloorRing K]

/-- Entrywise products that give the identity, as a matrix equation. -/
theorem block3_mul_eq_one (A B : Mat K)
    (h : ∀ i k : Fin 4, i ≠ 0 → k ≠ 0 →
      A i 1 * B 1 k + A i 2 * B 2 k + A i 3 * B 3 k = if i = k then 1 else 0) :
    block3 A * block3 B = 1 := by
  have e0 : (Fin.succ (0 : Fin 3) : Fin 4) = 1 := rfl
  have e1 : (Fin.succ (1 : Fin 3) : Fin 4) = 2 := rfl
  have e2 : (Fin.succ (2 : Fin 3) : Fin 4) = 3 := rfl
  ext i j
  rw [Matrix.mul_apply, Fin.sum_univ_three]
  simp only [block3, Matrix.of_apply, e0, e1, e2]
  rw [h i.succ j.succ (Fin.succ_ne_zero i) (Fin.succ_ne_zero j), Matrix.one_apply]
  simp only [Fin.succ_inj]

end CramerTheorems

/-! ## Angle decoding -/

section DecodeTheorems

/-- The identity arrays satisfy `Q * R = 1`. -/
theorem identity_block3 : block3 (identity_arrays : Arrays ℝ).Q *
    block3 (identity_arrays : Arrays ℝ).R = 1 := by
  apply block3_mul_eq_one
  intro i k hi hk
  rcases fin4_cases i hi with rfl | rfl | rfl <;>
    rcases fin4_cases k hk with rfl | rfl | rfl <;>
    simp [identity_arrays]

/-- C21: with `RADIAN = 180/pi`, for every elevation `h` in (-90, 90), every
azimuth `f` in [0, 360) and every `k > 0`, `angle_subr` applied to `k` times
the unit vector `(cos h cos f, cos h sin f, sin h)` returns azimuth `f` and
elevation `h`, whatever its arguments held; `k = 1` is the unit vector
itself. -/
theorem angle_subr_decodes (h f k F0 H0 : ℝ) (st : Arrays ℝ)
    (hh : -90 < h ∧ h < 90) (hf : 0 ≤ f ∧ f < 360) (hk : 0 < k)
    (h1 : st.Y 1 1 = k * (Real.cos (h / (180 / Real.pi)) * Real.cos (f / (180 / Real.pi))))
    (h2 : st.Y 2 1 = k * (Real.cos (h / (180 / Real.pi)) * Real.sin (f / (180 / Real.pi))))
    (h3 : st.Y 3 1 = k * Real.sin (h / (180 / Real.pi))) :
    angle_subr realLibm (180 / Real.pi) st F0 H0 = (f, h) := by
  -- the unit vector, as the equatorial vector of a position
  have hu := decode_equat_vector (sky_mount f h 0 0 0)
    (vector_arrays (Real.cos (h / (180 / Real.pi)) * Real.cos (f / (180 / Real.pi)))
      (Real.cos (h / (180 / Real.pi)) * Real.sin (f / (180 / Real.pi)))
      (Real.sin (h / (180 / Real.pi)))) F0 H0 hh
    (by simp [vector_arrays, equat_vector, realLibm, sky_mount])
    (by simp [vector_arrays, equat_vector, realLibm, sky_mount])
    (by simp [vector_arrays, equat_vector, realLibm, sky_mount])
  obtain ⟨hxy, hH, n, hF⟩ := hu
  -- the scaled vector decodes to the same pair
  have hs : angle_subr realLibm (180 / Real.pi) st F0 H0 =
      angle_subr realLibm (180 / Real.pi)
        (vector_arrays (Real.cos (h / (180 / Real.pi)) * Real.cos (f / (180 / Real.pi)))
          (Real.cos (h / (180 / Real.pi)) * Real.sin (f / (180 / Real.pi)))
          (Real.sin (h / (180 / Real.pi)))) F0 H0 := by
    have hk0 : k ≠ 0 := ne_of_gt hk
    have hxy' : st.Y 1 1 ≠ 0 ∨ st.Y 2 1 ≠ 0 := by
      rcases hxy with hx | hy
      · left
        rw [h1]
        exact mul_ne_zero hk0 (by simpa [vector_arrays] using hx)
      · right
        rw [h2]
        exact mul_ne_zero hk0 (by simpa [vector_arrays] using hy)
    symm
    apply angle_subr_scale (180 / Real.pi) st _ F0 H0 F0 H0 k hk hxy'
    · rw [h1]; simp [vector_arrays]; field_simp
    · rw [h2]; simp [vector_arrays]; field_simp
    · rw [h3]; simp [vector_arrays]; field_simp
  rw [hs]
  have hr := angle_subr_azimuth_range (180 / Real.pi) rad_pos
    (by rw [div_mul_cancel₀ _ Real.pi_ne_zero]; norm_num)
    (vector_arrays (Real.cos (h / (180 / Real.pi)) * Real.cos (f / (180 / Real.pi)))
      (Real.cos (h / (180 / Real.pi)) * Real.sin (f / (180 / Real.pi)))
      (Real.sin (h / (180 / Real.pi)))) F0 H0
  have hF' : (angle_subr realLibm (180 / Real.pi)
      (vector_arrays (Real.cos (h / (180 / Real.pi)) * Real.cos (f / (180 / Real.pi)))
        (Real.cos (h / (180 / Real.pi)) * Real.sin (f / (180 / Real.pi)))
        (Real.sin (h / (180 / Real.pi)))) F0 H0).1 = f + 360 * n := by
    rw [hF]; simp [sky_mount]
  have hn : n = 0 := by
    rw [hF'] at hr
    have ha : (-1 : ℝ) < n := by linarith [hr.1, hf.2]
    have hb : (n : ℝ) < 1 := by linarith [hr.2, hf.1]
    have ha' : (-1 : ℤ) < n := by exact_mod_cast ha
    have hb' : n < (1 : ℤ) := by exact_mod_cast hb
    omega
  rw [hn] at hF'
  apply Prod.ext
  · rw [hF']; simp
  · rw [hH]; simp [sky_mount]

/-- Witness of C21: `h = 0`, `f = 0`, `k = 2`, the vector `(2, 0, 0)`. -/
theorem angle_subr_decodes_witness :
    ((-90 : ℝ) < 0 ∧ (0 : ℝ) < 90) ∧ ((0 : ℝ) ≤ 0 ∧ (0 : ℝ) < 360) ∧ (0 : ℝ) < 2 ∧
    angle_subr realLibm (180 / Real.pi)
      (vector_arrays (2 * (Real.cos (0 / (180 / Real.pi)) * Real.cos (0 / (180 / Real.pi))))
        (2 * (Real.cos (0 / (180 / Real.pi)) * Real.sin (0 / (180 / Real.pi))))
        (2 * Real.sin (0 / (180 / Real.pi)))) 7 8 = (0, 0) :=
  ⟨by norm_num, by norm_num, by norm_num,
    angle_subr_decodes 0 0 2 7 8 _ (by norm_num) (by norm_num) (by norm_num)
      (by simp [vector_arrays]) (by simp [vector_arrays]) (by simp [vector_arrays])⟩

/-- The position RA 0, Dec 0 at sidereal time 0 is off the pole axis of the
identity arrays. -/
theorem identity_off_pole :
    mul_vec (identity_arrays : Arrays ℝ).R
      (equat_vector realLibm (180 / Real.pi) (sky_mount 0 0 0 0 0)) 1 ≠ 0 := by
  simp [mul_vec, identity_arrays, equat_vector, realLibm, sky_mount]

end DecodeTheorems

/-! ## The third basis vector -/

section ThirdAxis

end ThirdAxis

/-! ## The Julian date as a day count -/

section JulianLemmas
variable {K : Type} [LinearOrderedField K] [FloorRing K]

/-- Truncation of a non-negative product with a ratio of integers is the
integer quotient. -/
theorem truncate_ratio (p q n : ℤ) (hq : 0 < q) (hpn : 0 ≤ p * n) :
    truncate ((p : K) / q * n) = p * n / q := by
  have hqK : (0 : K) < q := by exact_mod_cast hq
  have hx : (p : K) / q * n = ((p * n : ℤ) : K) / q := by
    push_cast
    ring
  have h1 : q * (p * n / q) ≤ p * n := Int.mul_ediv_self_le (ne_of_gt hq)
  have h2 : p * n < q * (p * n / q) + q := Int.lt_mul_ediv_self_add hq
  rw [hx]
  apply truncate_eq_of_nonneg
  · exact div_nonneg (by exact_mod_cast hpn) (le_of_lt hqK)
  · rw [le_div_iff₀ hqK]
    have : ((p * n / q * q : ℤ) : K) ≤ ((p * n : ℤ) : K) := by
      apply Int.cast_le.2
      linarith
    simpa using this
  · rw [div_lt_iff₀ hqK]
    have : ((p * n : ℤ) : K) < (((p * n / q + 1) * q : ℤ) : K) := by
      apply Int.cast_lt.2
      linarith
    simpa using this

/-- `Julian_0hrUT` of an integer date from 1900 on, in integer arithmetic. -/
theorem Julian_0hrUT_of_date (pos : pos_struct K) (UT : time_date K) (y m : ℤ)
    (hy : 1900 ≤ y) (hm : 1 ≤ m ∧ m ≤ 12) (hd : 0 ≤ UT.day)
    (hyear : UT.year = y) (hmon : UT.mon = m) :
    (Julian UT pos).Julian_0hrUT = (julian_count y m : K) + UT.day + 1720994.5 := by
  have ty : truncate UT.year = y := by rw [hyear]; exact truncate_intCast y
  have tm : truncate UT.mon = m := by rw [hmon]; exact truncate_intCast m
  have hcal : UT.year * 10000 + UT.mon * 100 + UT.day > (15821015 : K) := by
    rw [hyear, hmon]
    have h1 : ((1900 : ℤ) : K) ≤ y := by exact_mod_cast hy
    have h2 : ((1 : ℤ) : K) ≤ m := by exact_mod_cast hm.1
    push_cast at h1 h2
    linarith
  simp only [Julian, ty, tm, hcal, if_true]
  have e1 : (365.25 : K) = ((1461 : ℤ) : K) / ((4 : ℤ) : K) := by norm_num
  have e2 : (30.6001 : K) = ((306001 : ℤ) : K) / ((10000 : ℤ) : K) := by norm_num
  by_cases h12 : m ≤ 2
  · have hc : m = 1 ∨ m = 2 := by omega
    have hY : 0 ≤ y - 1 := by omega
    rw [if_pos hc, if_pos hc, e1, e2, truncate_ratio 1461 4 (y - 1) (by norm_num) (by omega),
      truncate_ratio 306001 10000 (m + 12 + 1) (by norm_num) (by omega),
      Int.tdiv_eq_ediv hY (by norm_num),
      Int.tdiv_eq_ediv (Int.ediv_nonneg hY (by norm_num)) (by norm_num)]
    simp only [julian_count, if_pos h12]
  · have hc : ¬ (m = 1 ∨ m = 2) := by omega
    have hY : 0 ≤ y := by omega
    rw [if_neg hc, if_neg hc, e1, e2, truncate_ratio 1461 4 y (by norm_num) (by omega),
      truncate_ratio 306001 10000 (m + 1) (by norm_num) (by omega),
      Int.tdiv_eq_ediv hY (by norm_num),
      Int.tdiv_eq_ediv (Int.ediv_nonneg hY (by norm_num)) (by norm_num)]
    simp only [julian_count, if_neg h12]

/-- The table `DAYS`. -/
theorem DAYS_at_values :
    DAYS_at 0 = 31 ∧ DAYS_at 1 = 28 ∧ DAYS_at 2 = 31 ∧ DAYS_at 3 = 30 ∧ DAYS_at 4 = 31 ∧
    DAYS_at 5 = 30 ∧ DAYS_at 6 = 31 ∧ DAYS_at 7 = 31 ∧ DAYS_at 8 = 30 ∧ DAYS_at 9 = 31 ∧
    DAYS_at 10 = 30 ∧ DAYS_at 11 = 31 := by decide

/-- The integer day count advances by one from a Gregorian date to the
next. -/
theorem julian_count_next (y m d : ℤ) (hy : 1900 ≤ y) (hm : 1 ≤ m ∧ m ≤ 12)
    (hd : 1 ≤ d ∧ d ≤ gregorian_days y m) :
    julian_count (gregorian_next_day y m d).1 (gregorian_next_day y m d).2.1 +
      (gregorian_next_day y m d).2.2 = julian_count y m + d + 1 := by
  obtain ⟨d0, d1, d2, d3, d4, d5, d6, d7, d8, d9, d10, d11⟩ := DAYS_at_values
  obtain ⟨hm1, hm2⟩ := hm
  obtain ⟨hd1, hd2⟩ := hd
  have e1 : 1461 * y / 4 = 365 * y + y / 4 := by omega
  have e2 : 1461 * (y - 1) / 4 = 365 * (y - 1) + (y - 1) / 4 := by omega
  have e3 : (y - 1) / 4 = y / 4 ∧ y % 4 ≠ 0 ∨ (y - 1) / 4 = y / 4 - 1 ∧ y % 4 = 0 := by omega
  have e4 : (y - 1) / 100 = y / 100 ∧ y % 100 ≠ 0 ∨
      (y - 1) / 100 = y / 100 - 1 ∧ y % 100 = 0 := by omega
  have e5 : (y - 1) / 100 / 4 = y / 100 / 4 ∧ y % 400 ≠ 0 ∨
      (y - 1) / 100 / 4 = y / 100 / 4 - 1 ∧ y % 400 = 0 := by omega
  unfold gregorian_next_day
  split_ifs with h1 h2
  · dsimp only
    omega
  · dsimp only
    unfold gregorian_days gregorian_leap at hd2 h1
    unfold julian_count
    interval_cases m <;>
      simp only [d0, d1, d2, d3, d4, d5, d6, d7, d8, d9, d10, d11] at hd2 h1 ⊢ <;>
      norm_num at hd2 h1 ⊢ <;>
      (try split_ifs at hd2 h1 ⊢) <;>
      omega
  · dsimp only
    have hm12 : m = 12 := by omega
    subst hm12
    unfold gregorian_days at hd2 h1
    unfold julian_count
    simp only [d11] at hd2 h1 ⊢
    norm_num at hd2 h1 ⊢
    omega

end JulianLemmas

section JulianTheorems
variable {K : Type} [LinearOrderedField K] [FloorRing K]

/-- The next day of a date from 1900 on is a date from 1900 on. -/
theorem gregorian_next_day_valid (y m d : ℤ) (hy : 1900 ≤ y) (hm : 1 ≤ m ∧ m ≤ 12)
    (hd : 1 ≤ d) :
    1900 ≤ (gregorian_next_day y m d).1 ∧
    (1 ≤ (gregorian_next_day y m d).2.1 ∧ (gregorian_next_day y m d).2.1 ≤ 12) ∧
    1 ≤ (gregorian_next_day y m d).2.2 := by
  unfold gregorian_next_day
  split_ifs <;> dsimp only <;> omega

/-- C23: for every date of the Gregorian calendar from 1900-01-01 on (no upper
limit is needed) and whatever the times of day, `Julian_0hrUT` of the next
calendar day is `Julian_0hrUT` of the date plus exactly 1: inside a month,
across month ends and year ends, and across the end of February, where the
formula passes from month 14 of the previous year to month 3. -/
theorem Julian_counts_days (pos pos' : pos_struct K) (y m d : ℤ) (hr mn sec hr' mn' sec' : K)
    (hy : 1900 ≤ y) (hm : 1 ≤ m ∧ m ≤ 12) (hd : 1 ≤ d ∧ d ≤ gregorian_days y m) :
    (Julian (date_time (gregorian_next_day y m d).1 (gregorian_next_day y m d).2.1
        (gregorian_next_day y m d).2.2 hr' mn' sec') pos').Julian_0hrUT =
      (Julian (date_time y m d hr mn sec) pos).Julian_0hrUT + 1 := by
  obtain ⟨v1, v2, v3⟩ := gregorian_next_day_valid y m d hy hm hd.1
  rw [Julian_0hrUT_of_date pos' _ _ _ v1 v2 (by
      show (0 : K) ≤ (((gregorian_next_day y m d).2.2 : ℤ) : K)
      exact_mod_cast le_trans (by norm_num) v3) rfl rfl,
    Julian_0hrUT_of_date pos _ y m hy hm (by
      show (0 : K) ≤ ((d : ℤ) : K)
      exact_mod_cast le_trans (by norm_num) hd.1) rfl rfl]
  have h := julian_count_next y m d hy hm hd
  have hK : ((julian_count (gregorian_next_day y m d).1 (gregorian_next_day y m d).2.1 +
      (gregorian_next_day y m d).2.2 : ℤ) : K) = ((julian_count y m + d + 1 : ℤ) : K) := by
    rw [h]
  push_cast at hK
  show (julian_count (gregorian_next_day y m d).1 (gregorian_next_day y m d).2.1 : K) +
    (((gregorian_next_day y m d).2.2 : ℤ) : K) + 1720994.5 =
    (julian_count y m : K) + ((d : ℤ) : K) + 1720994.5 + 1
  linarith

/-- Witness of C23: 2000-02-28, whose next day is 2000-02-29. -/
theorem Julian_counts_days_witness :
    gregorian_next_day 2000 2 28 = (2000, 2, 29) ∧ (28 : ℤ) ≤ gregorian_days 2000 2 ∧
    (Julian (date_time (gregorian_next_day 2000 2 28).1 (gregorian_next_day 2000 2 28).2.1
        (gregorian_next_day 2000 2 28).2.2 (5 : ℚ) 0 0) (civil 0 0 0 0 0 0 0)).Julian_0hrUT =
      (Julian (date_time 2000 2 28 (23 : ℚ) 0 0) (civil 0 0 0 0 0 0 0)).Julian_0hrUT + 1 :=
  ⟨by decide, by decide,
    Julian_counts_days _ _ 2000 2 28 23 0 0 5 0 0 (by norm_num) (by norm_num)
      ⟨by norm_num, by decide⟩⟩

end JulianTheorems

section RolloverBug

/-- C26: local date 2000-02-28, 23:00:00, time zone 1.  `LT_UT` tests
`year % 1000 != 0`, takes 2000 for a common year and rolls the date to
2000-03-01; `Julian`, which counts February 29 of 2000, gives that date a
`Julian_0hrUT` 2 above the one of the local date, not 1. -/
theorem rollover_skips_leap_day_2000 :
    LT_UT (civil (2000 : ℚ) 2 28 23 0 0 1) = ⟨2000, 3, 1, 0, 0, 0⟩ ∧
    (Julian (LT_UT (civil (2000 : ℚ) 2 28 23 0 0 1)) (civil 2000 2 28 23 0 0 1)).Julian_0hrUT =
      (Julian (⟨2000, 2, 28, 23, 0, 0⟩ : time_date ℚ) (civil 2000 2 28 23 0 0 1)).Julian_0hrUT
        + 2 := by
  have t2 : truncate ((2 : ℚ) - 1) = 1 := by
    have := truncate_intCast (K := ℚ) 1
    norm_num at this ⊢
    exact this
  have ty : truncate (2000 : ℚ) = 2000 := by exact_mod_cast truncate_intCast (K := ℚ) 2000
  have hd : DAYS_at 1 = 28 := by decide
  have h : LT_UT (civil (2000 : ℚ) 2 28 23 0 0 1) = ⟨2000, 3, 1, 0, 0, 0⟩ := by
    simp only [LT_UT, civil, t2, ty, hd, MONTHS]
    norm_num [Int.tmod]
  refine ⟨h, ?_⟩
  rw [h]
  rw [Julian_0hrUT_of_date _ _ 2000 3 (by norm_num) (by norm_num) (by norm_num)
      (by norm_num) (by norm_num),
    Julian_0hrUT_of_date _ _ 2000 2 (by norm_num) (by norm_num) (by norm_num)
      (by norm_num) (by norm_num)]
  have c3 : julian_count 2000 3 = 730609 := by decide
  have c2 : julian_count 2000 2 = 730580 := by decide
  rw [c3, c2]
  norm_num

end RolloverBug

/-! ## The reduction of the sidereal time -/

section ReductionLemmas
variable {K : Type} [LinearOrderedField K] [FloorRing K]

/-- The loop subtracts `b` a whole number of times. -/
theorem while_ge_sub_eq_sub (b : K) (n : ℕ) :
    ∀ x : K, ∃ k : ℕ, k ≤ n ∧ while_ge_sub b n x = x - b * k := by
  induction n with
  | zero =>
    intro x
    exact ⟨0, le_refl 0, by simp [while_ge_sub]⟩
  | succ j ih =>
    intro x
    simp only [while_ge_sub]
    split_ifs with hx
    · obtain ⟨k, hk, he⟩ := ih (x - b)
      refine ⟨k + 1, Nat.succ_le_succ hk, ?_⟩
      rw [he]
      push_cast
      ring
    · exact ⟨0, Nat.zero_le _, by simp⟩

/-- Once the exit test holds on the value returned, more fuel returns the same
value. -/
theorem while_ge_sub_stable (b : K) (n : ℕ) :
    ∀ x : K, while_ge_sub b n x < b → ∀ j : ℕ, while_ge_sub b (n + j) x = while_ge_sub b n x := by
  induction n with
  | zero =>
    intro x hx j
    simp only [while_ge_sub] at hx ⊢
    rw [Nat.zero_add]
    exact while_ge_sub_of_lt b j x hx
  | succ i ih =>
    intro x hx j
    rw [Nat.succ_add]
    simp only [while_ge_sub] at hx ⊢
    split_ifs with h
    · rw [if_pos h] at hx
      exact ih (x - b) hx j
    · rfl

/-- Two values of `[0, b)` that differ by a whole multiple of `b` are equal. -/
theorem eq_of_range_of_multiple (b v w : K) (hb : 0 < b) (hv : 0 ≤ v ∧ v < b)
    (hw : 0 ≤ w ∧ w < b) (k : ℤ) (h : v = w + b * k) : v = w := by
  have h1 : (-1 : K) < k := by
    by_contra hc
    have : (k : K) ≤ -1 := not_lt.1 hc
    nlinarith [hv.1, hw.2]
  have h2 : (k : K) < 1 := by
    by_contra hc
    have : (1 : K) ≤ k := not_lt.1 hc
    nlinarith [hv.2, hw.1]
  have h1' : (-1 : ℤ) < k := by exact_mod_cast h1
  have h2' : k < (1 : ℤ) := by exact_mod_cast h2
  have hk : k = 0 := by omega
  rw [h, hk]
  simp

/-- The value `sidereal_time` reduces is the reference sum. -/
theorem sidereal_time_eq (UT : time_date K) (pos : pos_struct K) :
    (sidereal_time UT pos).sid_time =
      while_ge_sub 24 (loop_fuel 24 (sidereal_sum UT pos)) (sidereal_sum UT pos) := by
  have h : 6.6460656 + 2400.051262 * ((pos.Julian_0hrUT - 2415020) / 36525) +
      0.00002581 * ((pos.Julian_0hrUT - 2415020) / 36525) *
        ((pos.Julian_0hrUT - 2415020) / 36525) +
      (UT.hr + UT.min / 60 + UT.sec / 3600) * 1.002737908 = sidereal_sum UT pos := by
    unfold sidereal_sum
    ring
  simp only [sidereal_time, h]

/-- The reference sum is not negative for the dates the program accepts. -/
theorem sidereal_sum_nonneg (UT : time_date K) (pos : pos_struct K)
    (hJ : 2415020 ≤ pos.Julian_0hrUT) (hh : 0 ≤ UT.hr) (hm : 0 ≤ UT.min)
    (hs : 0 ≤ UT.sec) : 0 ≤ sidereal_sum UT pos := by
  unfold sidereal_sum
  have hT : 0 ≤ (pos.Julian_0hrUT - 2415020) / 36525 :=
    div_nonneg (by linarith) (by norm_num)
  have h1 : 0 ≤ 2400.051262 * ((pos.Julian_0hrUT - 2415020) / 36525) :=
    mul_nonneg (by norm_num) hT
  have h2 : 0 ≤ 0.00002581 * ((pos.Julian_0hrUT - 2415020) / 36525) ^ 2 :=
    mul_nonneg (by norm_num) (sq_nonneg _)
  have h3 : 0 ≤ 1.002737908 * (UT.hr + UT.min / 60 + UT.sec / 3600) :=
    mul_nonneg (by norm_num) (by positivity)
  have h4 : (0 : K) ≤ 6.6460656 := by norm_num
  linarith

end ReductionLemmas

section ReductionTheorems
variable {K : Type} [LinearOrderedField K] [FloorRing K]

/-- C24: for `Julian_0hrUT >= 2415020` and non-negative UT hour, minute and
second, the reduction loop of `sidereal_time` ends (with the fuel of the model
or any larger fuel it returns the same value, on which the loop test fails),
and the `sid_time` stored lies in [0, 24), is the reference sum minus a whole
multiple of 24, and is the only value of [0, 24) that differs from the
reference sum by a whole multiple of 24. -/
theorem sidereal_time_reduced (UT : time_date K) (pos : pos_struct K)
    (hJ : 2415020 ≤ pos.Julian_0hrUT) (hh : 0 ≤ UT.hr) (hm : 0 ≤ UT.min)
    (hs : 0 ≤ UT.sec) :
    (∀ j : ℕ, while_ge_sub 24 (loop_fuel 24 (sidereal_sum UT pos) + j) (sidereal_sum UT pos) =
      (sidereal_time UT pos).sid_time) ∧
    (0 ≤ (sidereal_time UT pos).sid_time ∧ (sidereal_time UT pos).sid_time < 24) ∧
    (∃ n : ℕ, (sidereal_time UT pos).sid_time = sidereal_sum UT pos - 24 * n) ∧
    (∀ v : K, 0 ≤ v → v < 24 → (∃ k : ℤ, v = sidereal_sum UT pos + 24 * k) →
      v = (sidereal_time UT pos).sid_time) := by
  have h0 := sidereal_sum_nonneg UT pos hJ hh hm hs
  have hr := while_ge_sub_range (24 : K) (by norm_num) (loop_fuel 24 (sidereal_sum UT pos))
    (sidereal_sum UT pos) h0 (lt_mul_loop_fuel_succ 24 (by norm_num) _)
  obtain ⟨n, _, hn⟩ := while_ge_sub_eq_sub (24 : K) (loop_fuel 24 (sidereal_sum UT pos))
    (sidereal_sum UT pos)
  rw [sidereal_time_eq]
  refine ⟨?_, hr, ⟨n, hn⟩, ?_⟩
  · intro j
    exact while_ge_sub_stable 24 _ _ hr.2 j
  · intro v hv0 hv1 hk
    obtain ⟨k, hk⟩ := hk
    apply eq_of_range_of_multiple 24 v _ (by norm_num) ⟨hv0, hv1⟩ hr (k + n)
    rw [hn, hk]
    push_cast
    ring

/-- Witness of C24: UT 12:00:00 on the day with Julian date at 0h UT
2451544.5. -/
theorem sidereal_time_reduced_witness :
    (0 ≤ (sidereal_time (⟨2000, 1, 1, 12, 0, 0⟩ : time_date ℚ)
        { civil 2000 1 1 12 0 0 0 with Julian_0hrUT := 2451544.5 }).sid_time ∧
      (sidereal_time (⟨2000, 1, 1, 12, 0, 0⟩ : time_date ℚ)
        { civil 2000 1 1 12 0 0 0 with Julian_0hrUT := 2451544.5 }).sid_time < 24) ∧
    ∃ n : ℕ, (sidereal_time (⟨2000, 1, 1, 12, 0, 0⟩ : time_date ℚ)
        { civil 2000 1 1 12 0 0 0 with Julian_0hrUT := 2451544.5 }).sid_time =
      sidereal_sum (⟨2000, 1, 1, 12, 0, 0⟩ : time_date ℚ)
        { civil 2000 1 1 12 0 0 0 with Julian_0hrUT := 2451544.5 } - 24 * n :=
  ⟨(sidereal_time_reduced _ _ (by norm_num) (by norm_num) (by norm_num) (by norm_num)).2.1,
   (sidereal_time_reduced _ _ (by norm_num) (by norm_num) (by norm_num) (by norm_num)).2.2.1⟩

end ReductionTheorems

/-! ## The exact round trip -/

section ExactRoundTrip

/-- The matrix equation `Q * R = 1` on the 1..3 blocks, applied to a
vector. -/
theorem mul_vec_of_block3 (Q R : Mat ℝ) (h : block3 Q * block3 R = 1)
    (v : Fin 4 → ℝ) (i : Fin 4) (hi : i ≠ 0) : mul_vec Q (mul_vec R v) i = v i := by
  have e0 : (Fin.succ (0 : Fin 3) : Fin 4) = 1 := rfl
  have e1 : (Fin.succ (1 : Fin 3) : Fin 4) = 2 := rfl
  have e2 : (Fin.succ (2 : Fin 3) : Fin 4) = 3 := rfl
  have hent : ∀ a b : Fin 3, Q a.succ 1 * R 1 b.succ + Q a.succ 2 * R 2 b.succ +
      Q a.succ 3 * R 3 b.succ = if a = b then 1 else 0 := by
    intro a b
    have := congrFun (congrFun h a) b
    rw [Matrix.mul_apply, Fin.sum_univ_three, Matrix.one_apply] at this
    simpa only [block3, Matrix.of_apply, e0, e1, e2] using this
  have h00 := hent 0 0; have h01 := hent 0 1; have h02 := hent 0 2
  have h10 := hent 1 0; have h11 := hent 1 1; have h12 := hent 1 2
  have h20 := hent 2 0; have h21 := hent 2 1; have h22 := hent 2 2
  simp only [e0, e1, e2] at h00 h01 h02 h10 h11 h12 h20 h21 h22
  rw [if_true] at h00 h11 h22
  rw [if_neg (by decide : ¬ ((0 : Fin 3) = 1))] at h01
  rw [if_neg (by decide : ¬ ((0 : Fin 3) = 2))] at h02
  rw [if_neg (by decide : ¬ ((1 : Fin 3) = 0))] at h10
  rw [if_neg (by decide : ¬ ((1 : Fin 3) = 2))] at h12
  rw [if_neg (by decide : ¬ ((2 : Fin 3) = 0))] at h20
  rw [if_neg (by decide : ¬ ((2 : Fin 3) = 1))] at h21
  rcases fin4_cases i hi with rfl | rfl | rfl
  · simp only [mul_vec]
    linear_combination v 1 * h00 + v 2 * h01 + v 3 * h02
  · simp only [mul_vec]
    linear_combination v 1 * h10 + v 2 * h11 + v 3 * h12
  · simp only [mul_vec]
    linear_combination v 1 * h20 + v 2 * h21 + v 3 * h22

/-- C25: with `RADIAN = 180/pi`, `Z1 = Z2 = 0`, any `Z3` and arrays with
`Q * R = 1`, for every position with `|dec_2000| < 90` whose image under `R` is
off the mount pole axis, `calc_scope` keeps `sid_time`, and `calc_equat`, run
on any position `q` that carries the `horiz` and `elev` stored by `calc_scope`
and the same `sid_time` (whatever its fields `ra_2000_deg` and `dec_2000` hold
on entry, so also on the record `calc_scope` returns), stores the original
`dec_2000` and a `ra_2000_deg` that differs from the original by a multiple of
360. -/
theorem round_trip_exact (s : Arrays ℝ) (pos q : pos_struct ℝ) (Z3 F0 H0 : ℝ)
    (hQR : block3 s.Q * block3 s.R = 1)
    (hdec : -90 < pos.dec_2000 ∧ pos.dec_2000 < 90)
    (hpole : mul_vec s.R (equat_vector realLibm (180 / Real.pi) pos) 1 ≠ 0 ∨
      mul_vec s.R (equat_vector realLibm (180 / Real.pi) pos) 2 ≠ 0)
    (hh : q.horiz = (calc_scope realLibm (180 / Real.pi) pos 0 0 Z3 F0 H0 s).1.horiz)
    (he : q.elev = (calc_scope realLibm (180 / Real.pi) pos 0 0 Z3 F0 H0 s).1.elev)
    (ht : q.sid_time = pos.sid_time) :
    (calc_scope realLibm (180 / Real.pi) pos 0 0 Z3 F0 H0 s).1.sid_time = pos.sid_time ∧
    (calc_equat realLibm (180 / Real.pi) q 0 0 Z3
      (calc_scope realLibm (180 / Real.pi) pos 0 0 Z3 F0 H0 s).2).1.dec_2000 = pos.dec_2000 ∧
    ∃ k : ℤ, (calc_equat realLibm (180 / Real.pi) q 0 0 Z3
      (calc_scope realLibm (180 / Real.pi) pos 0 0 Z3 F0 H0 s).2).1.ra_2000_deg =
        pos.ra_2000_deg + 360 * k :=
  ⟨rfl, round_trip_from_reading s pos q Z3 F0 H0
    (fun v i hi => mul_vec_of_block3 s.Q s.R hQR v i hi) hdec hpole hh he ht⟩

/-- Witness of C25: the identity arrays and the position RA 0, Dec 0 at
sidereal time 0, with `Z3 = 5`.  `calc_equat` is run on the record
`calc_scope` returned with the fields `ra_2000_deg` and `dec_2000` overwritten
by 200 and 50; it stores Dec 0. -/
theorem round_trip_exact_witness :
    block3 (identity_arrays : Arrays ℝ).Q * block3 (identity_arrays : Arrays ℝ).R = 1 ∧
    (calc_equat realLibm (180 / Real.pi)
      { (calc_scope realLibm (180 / Real.pi) (sky_mount 0 0 0 0 0) 0 0 5 1 2
        identity_arrays).1 with ra_2000_deg := 200, dec_2000 := 50 } 0 0 5
      (calc_scope realLibm (180 / Real.pi) (sky_mount 0 0 0 0 0) 0 0 5 1 2
        identity_arrays).2).1.dec_2000 = 0 :=
  ⟨identity_block3,
    (round_trip_exact identity_arrays (sky_mount 0 0 0 0 0) _ 5 1 2 identity_block3
      (by simp [sky_mount]) (Or.inl identity_off_pole) rfl rfl rfl).2.1⟩

end ExactRoundTrip

/-! ## Identical calibration stars -/

section CollapseTheorems
variable {K : Type} [LinearOrderedField K] [FloorRing K]

/-- C27: when slot 1 and slot 2 have the same `dec_2000` and the same hour
angle `ra_2000_deg - 15*sid_time`, then for any mount readings, offsets,
starting arrays and library functions every entry of `R` and of `Q` (indices
1..3) is 0 after `init_arrays(INIT2)`, and the vector `calc_scope` leaves in
`Y[1..3][1]` after its product loop (lines 2096-2102) is zero for every
position. -/
theorem identical_stars_zero_matrices (m : Libm K) (rad : K) (pos1 pos2 : pos_struct K)
    (Z1 Z2 Z3 : K) (st0 : Arrays K)
    (hdec : pos1.dec_2000 = pos2.dec_2000)
    (hha : pos1.ra_2000_deg - 15 * pos1.sid_time = pos2.ra_2000_deg - 15 * pos2.sid_time) :
    (∀ i j : Fin 4, i ≠ 0 → j ≠ 0 →
      (init_arrays m rad INIT2 pos2 Z1 Z2 Z3
        (init_arrays m rad INIT1 pos1 Z1 Z2 Z3 st0)).R i j = 0 ∧
      (init_arrays m rad INIT2 pos2 Z1 Z2 Z3
        (init_arrays m rad INIT1 pos1 Z1 Z2 Z3 st0)).Q i j = 0) ∧
    (∀ (pos : pos_struct K) (i : Fin 4), i ≠ 0 →
      (load_equat m rad pos (init_arrays m rad INIT2 pos2 Z1 Z2 Z3
        (init_arrays m rad INIT1 pos1 Z1 Z2 Z3 st0))).Y i 1 = 0) := by
  have hx : ∀ i : Fin 4, i ≠ 0 → equat_vector m rad pos1 i = equat_vector m rad pos2 i := by
    intro i _
    simp only [equat_vector, hdec, hha]
  have h0 := identical_stars_collapse m rad pos1 pos2 Z1 Z2 Z3 st0 _ rfl hx
  refine ⟨h0, ?_⟩
  intro pos i hi
  rw [load_equat_Y m rad pos _ i hi]
  simp only [mul_vec, (h0 i 1 hi (by decide)).1, (h0 i 2 hi (by decide)).1,
    (h0 i 3 hi (by decide)).1]
  ring

/-- Witness of C27: two observations of declination 40 and hour angle -45 with
different mount readings. -/
theorem identical_stars_zero_matrices_witness :
    (sky_mount 30 40 5 60 50 : pos_struct ℝ).dec_2000 =
      (sky_mount 45 40 6 10 20 : pos_struct ℝ).dec_2000 ∧
    (sky_mount 30 40 5 60 50 : pos_struct ℝ).ra_2000_deg -
        15 * (sky_mount 30 40 5 60 50 : pos_struct ℝ).sid_time =
      (sky_mount 45 40 6 10 20 : pos_struct ℝ).ra_2000_deg -
        15 * (sky_mount 45 40 6 10 20 : pos_struct ℝ).sid_time ∧
    (init_arrays realLibm RADIAN INIT2 (sky_mount 45 40 6 10 20) 1 2 3
      (init_arrays realLibm RADIAN INIT1 (sky_mount 30 40 5 60 50) 1 2 3 zero_arrays)).R 2 3
      = 0 ∧
    (load_equat realLibm RADIAN (sky_mount 0 0 0 0 0)
      (init_arrays realLibm RADIAN INIT2 (sky_mount 45 40 6 10 20) 1 2 3
        (init_arrays realLibm RADIAN INIT1 (sky_mount 30 40 5 60 50) 1 2 3 zero_arrays))).Y 1 1
      = 0 := by
  have hd : (sky_mount 30 40 5 60 50 : pos_struct ℝ).dec_2000 =
      (sky_mount 45 40 6 10 20 : pos_struct ℝ).dec_2000 := rfl
  have hh : (sky_mount 30 40 5 60 50 : pos_struct ℝ).ra_2000_deg -
        15 * (sky_mount 30 40 5 60 50 : pos_struct ℝ).sid_time =
      (sky_mount 45 40 6 10 20 : pos_struct ℝ).ra_2000_deg -
        15 * (sky_mount 45 40 6 10 20 : pos_struct ℝ).sid_time := by
    simp only [sky_mount]
    norm_num
  exact ⟨hd, hh,
    ((identical_stars_zero_matrices realLibm RADIAN _ _ 1 2 3 zero_arrays hd hh).1 2 3
      (by decide) (by decide)).1,
    (identical_stars_zero_matrices realLibm RADIAN _ _ 1 2 3 zero_arrays hd hh).2
      (sky_mount 0 0 0 0 0) 1 (by decide)⟩

end CollapseTheorems

/-! ## The outputs of `angle_subr` -/

section OutputsTheorems

end OutputsTheorems

/-! ## The split of right ascension and declination -/

section DecodeSplit
variable {K : Type} [LinearOrderedField K] [FloorRing K]

end DecodeSplit

/-! ## The two mount-error corrections -/

section CorrectionTheorems

/-- What `subr_750` writes. -/
theorem subr_750_Y {K : Type} [LinearOrderedField K] [FloorRing K]
    (m : Libm K) (rad F H Z1 Z2 : K) (st : Arrays K) :
    (subr_750 m rad F H Z1 Z2 st).Y 1 0 =
      m.cos F * m.cos H - m.sin F * (Z2 / rad) + m.sin F * m.cos H * (Z1 / rad) ∧
    (subr_750 m rad F H Z1 Z2 st).Y 2 0 =
      m.sin F * m.cos H + m.cos F * (Z2 / rad) - m.cos F * m.sin H * (Z1 / rad) ∧
    (subr_750 m rad F H Z1 Z2 st).Y 3 0 = m.sin H := by
  simp [subr_750, Mat.set]

/-- C30: for every `F`, `H`, `Z1`, `Z2`, every value of `RADIAN` and any
arrays, the vector `subr_785(F, H, Z1, Z2)` writes in `Y[1..3][1]` is the vector
`subr_750(F, H, -Z1, -Z2)` writes in `Y[1..3][0]`; with `Z1 = Z2 = 0` both are
`(cos F cos H, sin F cos H, sin H)`, of squared norm 1. -/
theorem subr_785_eq_subr_750_neg (rad F H Z1 Z2 : ℝ) (st st' : Arrays ℝ) :
    (∀ i : Fin 4, i ≠ 0 →
      (subr_785 realLibm rad F H Z1 Z2 st).Y i 1 =
        (subr_750 realLibm rad F H (-Z1) (-Z2) st').Y i 0) ∧
    ((subr_785 realLibm rad F H 0 0 st).Y 1 1 = Real.cos F * Real.cos H ∧
     (subr_785 realLibm rad F H 0 0 st).Y 2 1 = Real.sin F * Real.cos H ∧
     (subr_785 realLibm rad F H 0 0 st).Y 3 1 = Real.sin H) ∧
    ((subr_750 realLibm rad F H 0 0 st').Y 1 0 = Real.cos F * Real.cos H ∧
     (subr_750 realLibm rad F H 0 0 st').Y 2 0 = Real.sin F * Real.cos H ∧
     (subr_750 realLibm rad F H 0 0 st').Y 3 0 = Real.sin H) ∧
    col_norm_sq (subr_785 realLibm rad F H 0 0 st).Y 1 = 1 ∧
    col_norm_sq (subr_750 realLibm rad F H 0 0 st').Y 0 = 1 := by
  obtain ⟨a1, a2, a3⟩ := subr_785_Y realLibm rad F H Z1 Z2 st
  obtain ⟨b1, b2, b3⟩ := subr_750_Y realLibm rad F H (-Z1) (-Z2) st'
  obtain ⟨c1, c2, c3⟩ := subr_785_Y realLibm rad F H 0 0 st
  obtain ⟨d1, d2, d3⟩ := subr_750_Y realLibm rad F H 0 0 st'
  have hu : (Real.cos F * Real.cos H) ^ 2 + (Real.sin F * Real.cos H) ^ 2 +
      Real.sin H ^ 2 = 1 := by
    have h1 := Real.sin_sq_add_cos_sq F
    have h2 := Real.sin_sq_add_cos_sq H
    nlinarith [h1, h2]
  have e1 : (subr_785 realLibm rad F H 0 0 st).Y 1 1 = Real.cos F * Real.cos H := by
    rw [c1]; simp [realLibm]
  have e2 : (subr_785 realLibm rad F H 0 0 st).Y 2 1 = Real.sin F * Real.cos H := by
    rw [c2]; simp [realLibm]
  have e3 : (subr_785 realLibm rad F H 0 0 st).Y 3 1 = Real.sin H := c3
  have g1 : (subr_750 realLibm rad F H 0 0 st').Y 1 0 = Real.cos F * Real.cos H := by
    rw [d1]; simp [realLibm]
  have g2 : (subr_750 realLibm rad F H 0 0 st').Y 2 0 = Real.sin F * Real.cos H := by
    rw [d2]; simp [realLibm]
  have g3 : (subr_750 realLibm rad F H 0 0 st').Y 3 0 = Real.sin H := d3
  refine ⟨?_, ⟨e1, e2, e3⟩, ⟨g1, g2, g3⟩, ?_, ?_⟩
  · intro i hi
    rcases fin4_cases i hi with rfl | rfl | rfl
    · rw [a1, b1]; ring
    · rw [a2, b2]; ring
    · rw [a3, b3]
  · unfold col_norm_sq
    rw [e1, e2, e3]
    exact hu
  · unfold col_norm_sq
    rw [g1, g2, g3]
    exact hu

/-- Witness of C30: first component, for `F = 1`, `H = 2`, `Z1 = 3`,
`Z2 = 4`. -/
theorem subr_785_eq_subr_750_neg_witness :
    (1 : Fin 4) ≠ 0 ∧
    (subr_785 realLibm RADIAN 1 2 3 4 zero_arrays).Y 1 1 =
      (subr_750 realLibm RADIAN 1 2 (-3) (-4) zero_arrays).Y 1 0 :=
  ⟨by decide,
    (subr_785_eq_subr_750_neg RADIAN 1 2 3 4 zero_arrays zero_arrays).1 1 (by decide)⟩

end CorrectionTheorems

/-! ## Double arithmetic: rounding -/

section Rounding


end Rounding

/-! ## The split of right ascension in double arithmetic -/

section DoubleDecode

end DoubleDecode

/-! ## The azimuth in double arithmetic -/

section DoubleScope

end DoubleScope

end Convert
